import Mathlib

/- Verification of the bus1 distq engine (src/ipc/bus1/util/distq.c together
   with its header).  The embedding models machine state explicitly:
   s64 timestamps become Int (the engine keeps them small and non-negative on
   all contracted runs, so 64-bit wrap-around is unreachable), refcount_t
   becomes Nat, atomic_t counters become Int.  Pointers become numeric
   identifiers; the pointer order used by b1_distq_node_compare is the numeric
   order on identifiers, which is one admissible address assignment.
   Concurrency: producer and consumer calls are interleaved as whole atomic
   steps, matching the serialization contracts stated in the sources (receiver
   operations are single-writer; producer operations are lock-free but
   linearizable at their cmpxchg).  The wait-queue (wake_up) carries no queue
   state and is not modelled. -/

namespace Bus1

abbrev NodeId := Nat
abbrev TxId := Nat
abbrev PeerId := Nat

/-- Value of an intrusive next_queue pointer: NULL, B1_TAIL, or a node.
The incoming and busy lists use B1_TAIL as end-of-list sentinel and NULL as
the closed-queue marker. -/
inductive Link where
  | null : Link
  | tail : Link
  | next : NodeId → Link
deriving DecidableEq

/-- struct b1_distq_tx: refcount and the atomic 64-bit timestamp. -/
structure TxData where
  n_refs : Nat
  timestamp : Int
deriving DecidableEq

/-- struct b1_distq_node: refcount, resolved timestamp scalar, tx reference,
intrusive next_queue link.  The rb_ready link is represented through
membership in the ready list of a peer. -/
structure NodeData where
  n_refs : Nat
  timestamp : Int
  tx : Option TxId
  next_queue : Link
deriving DecidableEq

/-- The queue part of struct b1_distq_peer.  incoming and busy are the
singly-linked chains, given as the list of node ids in chain order;
none models the closed (NULL) head, some [] models the B1_TAIL head.
ready is the rb-tree, kept as a list sorted ascending by the
b1_distq_node_compare key; ready_first and ready_last are its head and
last element. -/
structure QueueState where
  incoming : Option (List NodeId)
  busy : Option (List NodeId)
  ready : List NodeId
deriving DecidableEq

/-- struct b1_distq_peer: clock, local, n_committed and the queues. -/
structure PeerData where
  clock : Int
  localTs : Int
  n_committed : Int
  queue : QueueState
deriving DecidableEq

/-- Whole-machine state: all transactions, nodes and peers by identifier. -/
structure State where
  txs : TxId → TxData
  nodes : NodeId → NodeData
  peers : PeerId → PeerData

def State.setTx (s : State) (t : TxId) (d : TxData) : State :=
  { s with txs := Function.update s.txs t d }

def State.setNode (s : State) (n : NodeId) (d : NodeData) : State :=
  { s with nodes := Function.update s.nodes n d }

def State.setPeer (s : State) (p : PeerId) (d : PeerData) : State :=
  { s with peers := Function.update s.peers p d }

/-- b1_distq_ts_committed: the LSB marks a committed (frozen) timestamp. -/
def b1_distq_ts_committed (ts : Int) : Bool := ts % 2 == 1

/-- b1_distq_ts_force_sync as a value transformer: raise the timestamp to at
least the target.  The cmpxchg loop leaves the value unchanged when it is
already at least the target or when it is committed (the committed case is a
warned contract violation in the source, but the loop still returns without
writing). -/
def b1_distq_ts_force_sync (v tgt : Int) : Int :=
  if v ≥ tgt || b1_distq_ts_committed v then v else tgt

/-- b1_distq_ts_try_sync as a value transformer: same loop as force_sync,
except that hitting a committed value is not a contract violation.  The
function returns the post-operation value. -/
def b1_distq_ts_try_sync (v tgt : Int) : Int :=
  if v ≥ tgt || b1_distq_ts_committed v then v else tgt

/-- Address of a tx pointer for the comparator: NULL is 0, a live tx has a
positive address determined by its identifier. -/
def txPtr : Option TxId → Nat
  | none => 0
  | some t => t + 1

/-- b1_distq_node_compare: lexicographic (timestamp, tx address, node
address). -/
def b1_distq_node_compare (s : State) (a b : NodeId) : Int :=
  if (s.nodes a).timestamp < (s.nodes b).timestamp then -1
  else if (s.nodes a).timestamp > (s.nodes b).timestamp then 1
  else if txPtr (s.nodes a).tx < txPtr (s.nodes b).tx then -1
  else if txPtr (s.nodes a).tx > txPtr (s.nodes b).tx then 1
  else if a < b then -1
  else if a > b then 1
  else 0

/-- b1_distq_tx_init. -/
def b1_distq_tx_init : TxData := { n_refs := 0, timestamp := 0 }

/-- b1_distq_node_init. -/
def b1_distq_node_init : NodeData :=
  { n_refs := 0, timestamp := 0, tx := none, next_queue := .null }

/-- b1_distq_peer_init: clock 0, local 0, n_committed 0, incoming and busy
are the empty open chains (B1_TAIL), ready is the empty tree. -/
def b1_distq_peer_init : PeerData :=
  { clock := 0, localTs := 0, n_committed := 0,
    queue := { incoming := some [], busy := some [], ready := [] } }

/-- The machine in which every object is freshly initialized. -/
def State.init : State :=
  { txs := fun _ => b1_distq_tx_init,
    nodes := fun _ => b1_distq_node_init,
    peers := fun _ => b1_distq_peer_init }

/-- b1_distq_node_claim: set the refcount to 1. -/
def b1_distq_node_claim (s : State) (n : NodeId) : State :=
  s.setNode n { s.nodes n with n_refs := 1 }

/-- b1_distq_tx_claim: set the refcount to 1. -/
def b1_distq_tx_claim (s : State) (t : TxId) : State :=
  s.setTx t { s.txs t with n_refs := 1 }

/-- b1_distq_node_finalize: steal and return the tx reference of the node. -/
def b1_distq_node_finalize (s : State) (n : NodeId) : State × Option TxId :=
  (s.setNode n { s.nodes n with tx := none }, (s.nodes n).tx)

/-- Head pointer value of a chain: B1_TAIL when empty, else the first node. -/
def headLink : List NodeId → Link
  | [] => .tail
  | n :: _ => .next n

/-- The programming-error check at the head of b1_distq_node_queue
(B1_WARN_ON(node->tx || node->next_queue)). -/
def b1_distq_node_queue_warns (s : State) (n : NodeId) : Bool :=
  (s.nodes n).tx.isSome || (s.nodes n).next_queue ≠ Link.null

/-- b1_distq_node_queue: acquire a reference on node and tx, set node->tx,
then either push the node onto the incoming chain of the destination via the
cmpxchg loop and force-sync the tx timestamp to the destination clock, or, if
the destination queue is closed (NULL), drop the node immediately (next_queue
reset to NULL, the extra node reference released again).  Note that on the
closed path the tx reference and the node->tx field are kept. -/
def b1_distq_node_queue (s : State) (n : NodeId) (t : TxId) (d : PeerId) :
    State :=
  if b1_distq_node_queue_warns s n then s
  else
    let s1 := s.setNode n
      { s.nodes n with
        n_refs := (s.nodes n).n_refs + 1
        tx := some t }
    let s2 := s1.setTx t { s1.txs t with n_refs := (s1.txs t).n_refs + 1 }
    match (s2.peers d).queue.incoming with
    | none =>
        s2.setNode n { s2.nodes n with
                       next_queue := Link.null
                       n_refs := (s2.nodes n).n_refs - 1 }
    | some l =>
        let s3 := s2.setNode n { s2.nodes n with next_queue := headLink l }
        let pd := s3.peers d
        let s4 := s3.setPeer d
          { pd with queue := { pd.queue with incoming := some (n :: l) } }
        s4.setTx t { s4.txs t with
          timestamp :=
            b1_distq_ts_force_sync (s4.txs t).timestamp (s4.peers d).clock }

/-- b1_distq_node_commit: bump n_committed of the destination (the wake-up is
not modelled), then force-sync the destination clock to the committed tx
timestamp plus one. -/
def b1_distq_node_commit (s : State) (n : NodeId) (d : PeerId) : State :=
  match (s.nodes n).tx with
  | none => s
  | some t =>
    let s1 := s.setPeer d
      { s.peers d with n_committed := (s.peers d).n_committed + 1 }
    let ts := (s1.txs t).timestamp + 1
    s1.setPeer d
      { s1.peers d with clock := b1_distq_ts_force_sync (s1.peers d).clock ts }

/-- b1_distq_tx_commit: force-sync the tx timestamp to the sender clock, then
increment it once, setting the LSB. -/
def b1_distq_tx_commit (s : State) (t : TxId) (p : PeerId) : State :=
  let synced :=
    b1_distq_ts_force_sync (s.txs t).timestamp (s.peers p).clock
  s.setTx t { s.txs t with timestamp := synced + 1 }

/-- b1_distq_peer_poll: acquire-read of n_committed, ready iff positive. -/
def b1_distq_peer_poll (s : State) (p : PeerId) : Bool :=
  (s.peers p).n_committed > 0

/-- b1_distq_peer_push_ready: descend the ready tree by the comparator
(strictly smaller goes left, ties and larger go right); on the sorted-list
view this inserts the node before the first strictly larger entry. -/
def b1_distq_peer_push_ready (s : State) (n : NodeId) :
    List NodeId → List NodeId
  | [] => [n]
  | e :: rest =>
      if b1_distq_node_compare s n e < 0 then n :: e :: rest
      else e :: b1_distq_peer_push_ready s n rest

/-- The shared promotion step of the prefetch and sync loops: unlink the node
from the walked chain (next_queue := NULL), resolve its timestamp
(node->timestamp = node->timestamp ?: ts), and insert it into the ready
tree. -/
def b1_distq_promote (s : State) (p : PeerId) (n : NodeId) (ts : Int) :
    State :=
  let nd := s.nodes n
  let s1 := s.setNode n
    { nd with
      next_queue := Link.null
      timestamp := if nd.timestamp ≠ 0 then nd.timestamp else ts }
  let pd := s1.peers p
  s1.setPeer p { pd with queue :=
    { pd.queue with ready := b1_distq_peer_push_ready s1 n pd.queue.ready } }

/-- One walk of the sync loop (b1_distq_peer_sync inner while): for each node
try-sync its tx towards the target; promote the node when the resulting
timestamp is committed, otherwise keep it on the chain.  Returns the new
state and the kept chain.  A node without tx would be a NULL dereference in
the source and is kept unchanged here; it is unreachable on contracted
runs. -/
def b1_distq_sync_walk (p : PeerId) (tgt : Int) :
    State → List NodeId → State × List NodeId
  | s, [] => (s, [])
  | s, n :: rest =>
    match (s.nodes n).tx with
    | none =>
        let r := b1_distq_sync_walk p tgt s rest
        (r.1, n :: r.2)
    | some t =>
        let ts := b1_distq_ts_try_sync (s.txs t).timestamp tgt
        let s1 := s.setTx t { s.txs t with timestamp := ts }
        if b1_distq_ts_committed ts then
          b1_distq_sync_walk p tgt (b1_distq_promote s1 p n ts) rest
        else
          let r := b1_distq_sync_walk p tgt s1 rest
          (r.1, n :: r.2)

/-- One walk of the prefetch loop (b1_distq_peer_prefetch inner while): as
the sync walk but with a plain read of the tx timestamp instead of a
try-sync. -/
def b1_distq_prefetch_walk (p : PeerId) :
    State → List NodeId → State × List NodeId
  | s, [] => (s, [])
  | s, n :: rest =>
    match (s.nodes n).tx with
    | none =>
        let r := b1_distq_prefetch_walk p s rest
        (r.1, n :: r.2)
    | some t =>
        let ts := (s.txs t).timestamp
        if b1_distq_ts_committed ts then
          b1_distq_prefetch_walk p (b1_distq_promote s p n ts) rest
        else
          let r := b1_distq_prefetch_walk p s rest
          (r.1, n :: r.2)

/-- Re-establish the next_queue pointers along a chain, ending in B1_TAIL.
The source maintains these pointers in place through the slot pointer while
walking; the final pointer assignment is the same. -/
def rethread (s : State) : List NodeId → State
  | [] => s
  | [n] => s.setNode n { s.nodes n with next_queue := Link.tail }
  | n :: m :: rest =>
      rethread (s.setNode n { s.nodes n with next_queue := Link.next m })
        (m :: rest)

/-- b1_distq_peer_sync: guard against committed or non-increasing targets,
advance local and the clock, then run the two-pass walk: once over busy, then
drain incoming (atomic exchange against B1_TAIL) onto the end of busy and
walk the drained part.  The drain re-opens a closed incoming head exactly as
the xchg in the source does; on a finalized peer the source would then crash
on the NULL-terminated busy chain, which contracted runs never reach. -/
def b1_distq_peer_sync (s : State) (p : PeerId) (tgt : Int) : State :=
  if b1_distq_ts_committed tgt || tgt ≤ (s.peers p).localTs then s
  else
    let s1 := s.setPeer p
      { s.peers p with
        localTs := tgt
        clock := b1_distq_ts_force_sync (s.peers p).clock tgt }
    let w1 := b1_distq_sync_walk p tgt s1 ((s1.peers p).queue.busy.getD [])
    let inc := ((w1.1.peers p).queue.incoming).getD []
    let s2 := w1.1.setPeer p { w1.1.peers p with queue :=
                { (w1.1.peers p).queue with incoming := some [] } }
    let w2 := b1_distq_sync_walk p tgt s2 inc
    let newBusy := w1.2 ++ w2.2
    let s3 := w2.1.setPeer p { w2.1.peers p with queue :=
                { (w2.1.peers p).queue with busy := some newBusy } }
    rethread s3 newBusy

/-- b1_distq_peer_prefetch: the same two-pass walk without the clock
maintenance and without try-sync. -/
def b1_distq_peer_prefetch (s : State) (p : PeerId) : State :=
  let w1 := b1_distq_prefetch_walk p s ((s.peers p).queue.busy.getD [])
  let inc := ((w1.1.peers p).queue.incoming).getD []
  let s2 := w1.1.setPeer p { w1.1.peers p with queue :=
              { (w1.1.peers p).queue with incoming := some [] } }
  let w2 := b1_distq_prefetch_walk p s2 inc
  let newBusy := w1.2 ++ w2.2
  let s3 := w2.1.setPeer p { w2.1.peers p with queue :=
              { (w2.1.peers p).queue with busy := some newBusy } }
  rethread s3 newBusy

/-- The tail of b1_distq_peer_peek, shared by both entry paths: if the front
entry is not yet below local, sync the whole queue against the ready-tail
timestamp plus one and re-read the front. -/
def b1_distq_peek_slow (s : State) (p : PeerId) (f : NodeId) :
    State × Option NodeId :=
  if (s.nodes f).timestamp ≥ (s.peers p).localTs then
    let ts := (match (s.peers p).queue.ready.getLast? with
               | some ln => (s.nodes ln).timestamp
               | none => 0) + 1
    let s1 := b1_distq_peer_sync s p ts
    (s1, (s1.peers p).queue.ready.head?)
  else (s, some f)

/-- b1_distq_peer_peek: fast path returns the cached front; an empty ready
queue first runs the prefetch; a front at or above local runs the sync. -/
def b1_distq_peer_peek (s : State) (p : PeerId) : State × Option NodeId :=
  match (s.peers p).queue.ready.head? with
  | none =>
      let s1 := b1_distq_peer_prefetch s p
      match (s1.peers p).queue.ready.head? with
      | none => (s1, none)
      | some f => b1_distq_peek_slow s1 p f
  | some f => b1_distq_peek_slow s p f

/-- b1_distq_peer_pop_ready: remove and return the cached front, advancing
ready_first. -/
def b1_distq_peer_pop_ready (s : State) (p : PeerId) :
    State × Option NodeId :=
  match (s.peers p).queue.ready with
  | [] => (s, none)
  | n :: rest =>
      (s.setPeer p
        { s.peers p with queue := { (s.peers p).queue with ready := rest } },
       some n)

/-- b1_distq_peer_pop: drop the front from the ready queue (the argument is
only checked against the popped entry by a warning) and decrement
n_committed. -/
def b1_distq_peer_pop (s : State) (p : PeerId) (_n : NodeId) : State :=
  let s1 := (b1_distq_peer_pop_ready s p).1
  s1.setPeer p
    { s1.peers p with n_committed := (s1.peers p).n_committed - 1 }

/-- b1_distq_peer_finalize: exchange incoming with NULL; when it was already
closed return B1_TAIL (the empty chain).  Otherwise append the old incoming
after busy, close busy, prepend all ready nodes and return the chain.  The
source pushes the ready nodes to the chain front while post-order walking the
rb-tree; the visit order depends on the tree shape, which the sorted-list
view does not track, so the model walks them in ascending key order (the
chain then holds them in descending key order). -/
def b1_distq_peer_finalize (s : State) (p : PeerId) : State × List NodeId :=
  match (s.peers p).queue.incoming with
  | none => (s, [])
  | some inc =>
      let chain := (s.peers p).queue.ready.reverse
                   ++ ((s.peers p).queue.busy.getD []) ++ inc
      let s1 := s.setPeer p { s.peers p with queue :=
                  { incoming := none, busy := none, ready := [] } }
      (rethread s1 chain, chain)

/-- The engine operations that producers and the receiver may interleave.
Receiver operations (peek, pop, finalize) are serialized with everything
else by the single-writer contract, so an interleaving of whole operations
is the semantics of a contracted concurrent run. -/
inductive Op where
  | queue (n : NodeId) (t : TxId) (p : PeerId)
  | txCommit (t : TxId) (p : PeerId)
  | nodeCommit (n : NodeId) (p : PeerId)
  | peek (p : PeerId)
  | pop (p : PeerId) (n : NodeId)
  | finalize (p : PeerId)
deriving DecidableEq

def applyOp (s : State) : Op → State
  | .queue n t p => b1_distq_node_queue s n t p
  | .txCommit t p => b1_distq_tx_commit s t p
  | .nodeCommit n p => b1_distq_node_commit s n p
  | .peek p => (b1_distq_peer_peek s p).1
  | .pop p n => b1_distq_peer_pop s p n
  | .finalize p => (b1_distq_peer_finalize s p).1

/-- The call contracts stated in the sources: a queued node is fresh (no tx,
not linked) and its transaction is still tentative (stage submit precedes
settle); a transaction commits at most once; a node commit happens in the
settle phase, after its transaction committed; receiver maintenance is not
called on a finalized peer (the source would dereference the NULL busy
chain). -/
def legalOp (s : State) : Op → Bool
  | .queue n t _ =>
      (s.nodes n).tx == none && (s.nodes n).next_queue == Link.null
        && !(b1_distq_ts_committed (s.txs t).timestamp)
  | .txCommit t _ => !(b1_distq_ts_committed (s.txs t).timestamp)
  | .nodeCommit n _ =>
      match (s.nodes n).tx with
      | some t => b1_distq_ts_committed (s.txs t).timestamp
      | none => false
  | .peek p => (s.peers p).queue.incoming.isSome
  | .pop _ _ => true
  | .finalize _ => true

def runOps (s : State) : List Op → State
  | [] => s
  | op :: rest => runOps (applyOp s op) rest

def legalTrace (s : State) : List Op → Bool
  | [] => true
  | op :: rest => legalOp s op && legalTrace (applyOp s op) rest

/-- The resolved timestamps of the nodes returned by the peek calls on peer
p along a run, in call order (empty peeks contribute nothing). -/
def peekResults (s : State) (p : PeerId) : List Op → List Int
  | [] => []
  | .peek q :: rest =>
      let r := b1_distq_peer_peek s q
      if q = p then
        match r.2 with
        | some n => (r.1.nodes n).timestamp :: peekResults r.1 p rest
        | none => peekResults r.1 p rest
      else peekResults r.1 p rest
  | op :: rest => peekResults (applyOp s op) p rest

/- Concrete scenarios, mirroring src/ipc/bus1/test-distq.c.  Identifiers:
peers, transactions and nodes are numbered from 0. -/

namespace S4

/- The contested-unicast scenario: receiver peer 0, transactions 0 and 1
with nodes 0 and 1, both queued before either commits. -/

def a0 : State :=
  b1_distq_node_claim (b1_distq_node_claim
    (b1_distq_tx_claim (b1_distq_tx_claim State.init 0) 1) 0) 1
def a1 : State := b1_distq_node_queue a0 0 0 0
def a2 : State := b1_distq_node_queue a1 1 1 0
def a3 : State := b1_distq_node_commit (b1_distq_tx_commit a2 0 0) 0 0
def pk1 : State × Option NodeId := b1_distq_peer_peek a3 0
def a4 : State := b1_distq_node_commit (b1_distq_tx_commit pk1.1 1 0) 1 0
def pk2 : State × Option NodeId := b1_distq_peer_peek a4 0
def a5 : State := b1_distq_peer_pop pk2.1 0 0
def pk3 : State × Option NodeId := b1_distq_peer_peek a5 0

end S4

namespace RT

/- The round-trip scenario: node 0 under transaction 0 from sender peer 1
to receiver peer 2. -/

def a0 : State := b1_distq_node_claim (b1_distq_tx_claim State.init 0) 0
def a1 : State := b1_distq_node_queue a0 0 0 2
def a2 : State := b1_distq_node_commit (b1_distq_tx_commit a1 0 1) 0 2
def pk : State × Option NodeId := b1_distq_peer_peek a2 2
def a3 : State := b1_distq_peer_pop pk.1 2 0

end RT




/- ------------------------------------------------------------------ -/
/- Invariant vocabulary for the trace properties.                     -/
/- ------------------------------------------------------------------ -/

/-- The timestamp preorder underlying the ready-tree comparator. -/
def tsLe (s : State) (a b : NodeId) : Prop :=
  (s.nodes a).timestamp ≤ (s.nodes b).timestamp

/-- All nodes currently linked on the two singly-linked chains of a peer. -/
def chainNodes (s : State) (p : PeerId) : List NodeId :=
  (s.peers p).queue.incoming.getD [] ++ (s.peers p).queue.busy.getD []

/-- All nodes currently linked in any container of a peer. -/
def allNodes (s : State) (p : PeerId) : List NodeId :=
  chainNodes s p ++ (s.peers p).queue.ready

/-- The reachable-state invariant of the engine (section 8 of the
documentation): clocks are even, non-negative and dominate the local mark;
chain nodes carry a transaction whose timestamp has been synced up to the
local mark and have no resolved timestamp yet; ready nodes are resolved to a
committed timestamp and sorted; every node sits in at most one container. -/
structure Inv (s : State) : Prop where
  tx_pos : ∀ t, 0 ≤ (s.txs t).timestamp
  node_ts0 : ∀ n, (s.nodes n).tx = none → (s.nodes n).timestamp = 0
  local_pos : ∀ p, 0 ≤ (s.peers p).localTs
  local_le_clock : ∀ p, (s.peers p).localTs ≤ (s.peers p).clock
  local_even : ∀ p, (s.peers p).localTs % 2 = 0
  clock_even : ∀ p, (s.peers p).clock % 2 = 0
  chain_tx : ∀ p, ∀ n ∈ chainNodes s p, (s.nodes n).tx ≠ none
  chain_floor : ∀ p, ∀ n ∈ chainNodes s p, ∀ t, (s.nodes n).tx = some t →
      (s.peers p).localTs ≤ (s.txs t).timestamp
  chain_ts0 : ∀ p, ∀ n ∈ chainNodes s p, (s.nodes n).timestamp = 0
  ready_tx : ∀ p, ∀ n ∈ (s.peers p).queue.ready, (s.nodes n).tx ≠ none
  ready_comm : ∀ p, ∀ n ∈ (s.peers p).queue.ready,
      b1_distq_ts_committed ((s.nodes n).timestamp) = true
  ready_pos : ∀ p, ∀ n ∈ (s.peers p).queue.ready, 0 ≤ (s.nodes n).timestamp
  ready_pair : ∀ p, List.Pairwise (tsLe s) (s.peers p).queue.ready
  nodup : ∀ p, (allNodes s p).Nodup
  disjoint : ∀ p q, p ≠ q → ∀ x ∈ allNodes s p, x ∉ allNodes s q

/-- What a peek call does, seen from its caller: the invariant is kept, the
transaction timestamps and the peer clocks only grow, other peers are
untouched, ready floors are kept, and a returned node is the ready front and
lies strictly below the new local mark. -/
structure PeekOut (p : PeerId) (s s' : State) (r : Option NodeId) :
    Prop where
  inv : Inv s'
  tx_mono : ∀ t, (s.txs t).timestamp ≤ (s'.txs t).timestamp
  tx_tent : ∀ t, b1_distq_ts_committed ((s.txs t).timestamp) = false →
      b1_distq_ts_committed ((s'.txs t).timestamp) = false
  tx_comm : ∀ t, b1_distq_ts_committed ((s.txs t).timestamp) = true →
      (s'.txs t).timestamp = (s.txs t).timestamp
  peers_other : ∀ q, q ≠ p → s'.peers q = s.peers q
  clock_mono : (s.peers p).clock ≤ (s'.peers p).clock
  local_mono : (s.peers p).localTs ≤ (s'.peers p).localTs
  ncomm_eq : (s'.peers p).n_committed = (s.peers p).n_committed
  node_tx : ∀ k, (s'.nodes k).tx = (s.nodes k).tx
  node_refs : ∀ k, (s'.nodes k).n_refs = (s.nodes k).n_refs
  ts_out : ∀ x, x ∉ chainNodes s p →
      (s'.nodes x).timestamp = (s.nodes x).timestamp
  chain_sub : ∀ x ∈ chainNodes s' p, x ∈ chainNodes s p
  floor : ∀ B, B ≤ (s.peers p).localTs →
      (∀ x ∈ (s.peers p).queue.ready, B ≤ (s.nodes x).timestamp) →
      ∀ x ∈ (s'.peers p).queue.ready, B ≤ (s'.nodes x).timestamp
  res_some : ∀ f, r = some f →
      (s'.peers p).queue.ready.head? = some f
      ∧ (s'.nodes f).timestamp < (s'.peers p).localTs


/-- What one full maintenance call (prefetch or sync) does to the peer and
the shared state, seen from peek. -/
structure MOut (p : PeerId) (s s' : State) : Prop where
  inv : Inv s'
  tx_mono : ∀ t, (s.txs t).timestamp ≤ (s'.txs t).timestamp
  tx_tent : ∀ t, b1_distq_ts_committed ((s.txs t).timestamp) = false →
      b1_distq_ts_committed ((s'.txs t).timestamp) = false
  tx_comm : ∀ t, b1_distq_ts_committed ((s.txs t).timestamp) = true →
      (s'.txs t).timestamp = (s.txs t).timestamp
  peers_other : ∀ q, q ≠ p → s'.peers q = s.peers q
  clock_mono : (s.peers p).clock ≤ (s'.peers p).clock
  local_mono : (s.peers p).localTs ≤ (s'.peers p).localTs
  ncomm_eq : (s'.peers p).n_committed = (s.peers p).n_committed
  node_tx : ∀ k, (s'.nodes k).tx = (s.nodes k).tx
  node_refs : ∀ k, (s'.nodes k).n_refs = (s.nodes k).n_refs
  ts_out : ∀ x, x ∉ chainNodes s p →
      (s'.nodes x).timestamp = (s.nodes x).timestamp
  chain_sub : ∀ x ∈ chainNodes s' p, x ∈ chainNodes s p
  floor : ∀ B, B ≤ (s.peers p).localTs →
      (∀ x ∈ (s.peers p).queue.ready, B ≤ (s.nodes x).timestamp) →
      ∀ x ∈ (s'.peers p).queue.ready, B ≤ (s'.nodes x).timestamp
  ready_old_sub : ∀ x ∈ (s.peers p).queue.ready,
      x ∈ (s'.peers p).queue.ready
  nodes_ready_old : ∀ x ∈ (s.peers p).queue.ready, s'.nodes x = s.nodes x

/-- What one inner while-loop of b1_distq_peer_sync does, relating the input
state to the output state and kept chain. -/
structure WalkOut (p : PeerId) (tgt : Int) (s s' : State)
    (l kept : List NodeId) : Prop where
  tx_mono : ∀ t, (s.txs t).timestamp ≤ (s'.txs t).timestamp
  tx_tent : ∀ t, b1_distq_ts_committed ((s.txs t).timestamp) = false →
      b1_distq_ts_committed ((s'.txs t).timestamp) = false
  tx_comm : ∀ t, b1_distq_ts_committed ((s.txs t).timestamp) = true →
      (s'.txs t).timestamp = (s.txs t).timestamp
  peers_other : ∀ q, q ≠ p → s'.peers q = s.peers q
  clock_eq : (s'.peers p).clock = (s.peers p).clock
  local_eq : (s'.peers p).localTs = (s.peers p).localTs
  ncomm_eq : (s'.peers p).n_committed = (s.peers p).n_committed
  incoming_eq : (s'.peers p).queue.incoming = (s.peers p).queue.incoming
  busy_eq : (s'.peers p).queue.busy = (s.peers p).queue.busy
  nodes_out : ∀ k, k ∉ l → s'.nodes k = s.nodes k
  node_tx : ∀ k, (s'.nodes k).tx = (s.nodes k).tx
  node_refs : ∀ k, (s'.nodes k).n_refs = (s.nodes k).n_refs
  ready_perm : ∃ proms, ((s'.peers p).queue.ready).Perm
      (proms ++ (s.peers p).queue.ready)
      ∧ l.Perm (kept ++ proms) ∧ ∀ x ∈ proms, x ∈ l
  kept_sub : ∀ x ∈ kept, x ∈ l
  kept_tx : ∀ n ∈ kept, ∀ t, (s.nodes n).tx = some t →
      tgt ≤ (s'.txs t).timestamp
      ∧ b1_distq_ts_committed ((s'.txs t).timestamp) = false
  kept_ts : ∀ n ∈ kept, (s'.nodes n).timestamp = 0
  ready_comm : ∀ x ∈ (s'.peers p).queue.ready,
      b1_distq_ts_committed ((s'.nodes x).timestamp) = true
  ready_floor : ∀ B, (∀ n ∈ l, ∀ t, (s.nodes n).tx = some t →
        B ≤ (s.txs t).timestamp) →
      (∀ x ∈ (s.peers p).queue.ready, B ≤ (s.nodes x).timestamp) →
      ∀ x ∈ (s'.peers p).queue.ready, B ≤ (s'.nodes x).timestamp
  ready_pair : List.Pairwise (tsLe s) ((s.peers p).queue.ready) →
      List.Pairwise (tsLe s') ((s'.peers p).queue.ready)

/-- What one inner while-loop of b1_distq_peer_prefetch does.  It differs
from the sync walk in that transactions are only read, never written. -/
structure PrefOut (p : PeerId) (s s' : State)
    (l kept : List NodeId) : Prop where
  txs_eq : s'.txs = s.txs
  peers_other : ∀ q, q ≠ p → s'.peers q = s.peers q
  clock_eq : (s'.peers p).clock = (s.peers p).clock
  local_eq : (s'.peers p).localTs = (s.peers p).localTs
  ncomm_eq : (s'.peers p).n_committed = (s.peers p).n_committed
  incoming_eq : (s'.peers p).queue.incoming = (s.peers p).queue.incoming
  busy_eq : (s'.peers p).queue.busy = (s.peers p).queue.busy
  nodes_out : ∀ k, k ∉ l → s'.nodes k = s.nodes k
  node_tx : ∀ k, (s'.nodes k).tx = (s.nodes k).tx
  node_refs : ∀ k, (s'.nodes k).n_refs = (s.nodes k).n_refs
  ready_perm : ∃ proms, ((s'.peers p).queue.ready).Perm
      (proms ++ (s.peers p).queue.ready)
      ∧ l.Perm (kept ++ proms) ∧ ∀ x ∈ proms, x ∈ l
  kept_sub : ∀ x ∈ kept, x ∈ l
  kept_tx : ∀ n ∈ kept, ∀ t, (s.nodes n).tx = some t →
      b1_distq_ts_committed ((s.txs t).timestamp) = false
  kept_ts : ∀ n ∈ kept, (s'.nodes n).timestamp = 0
  ready_comm : ∀ x ∈ (s'.peers p).queue.ready,
      b1_distq_ts_committed ((s'.nodes x).timestamp) = true
  ready_floor : ∀ B, (∀ n ∈ l, ∀ t, (s.nodes n).tx = some t →
        B ≤ (s.txs t).timestamp) →
      (∀ x ∈ (s.peers p).queue.ready, B ≤ (s.nodes x).timestamp) →
      ∀ x ∈ (s'.peers p).queue.ready, B ≤ (s'.nodes x).timestamp
  ready_pair : List.Pairwise (tsLe s) ((s.peers p).queue.ready) →
      List.Pairwise (tsLe s') ((s'.peers p).queue.ready)

/- ------------------------------------------------------------------ -/
/- Basic lemmas about the state accessors and the timestamp algebra.  -/
/- ------------------------------------------------------------------ -/

@[simp] theorem setTx_peers (s : State) (t : TxId) (d : TxData) :
    (s.setTx t d).peers = s.peers := rfl

@[simp] theorem setTx_nodes (s : State) (t : TxId) (d : TxData) :
    (s.setTx t d).nodes = s.nodes := rfl

@[simp] theorem setNode_peers (s : State) (n : NodeId) (d : NodeData) :
    (s.setNode n d).peers = s.peers := rfl

@[simp] theorem setNode_txs (s : State) (n : NodeId) (d : NodeData) :
    (s.setNode n d).txs = s.txs := rfl

@[simp] theorem setPeer_txs (s : State) (p : PeerId) (d : PeerData) :
    (s.setPeer p d).txs = s.txs := rfl

@[simp] theorem setPeer_nodes (s : State) (p : PeerId) (d : PeerData) :
    (s.setPeer p d).nodes = s.nodes := rfl

@[simp] theorem setTx_txs_self (s : State) (t : TxId) (d : TxData) :
    (s.setTx t d).txs t = d := by
  simp [State.setTx]

theorem setTx_txs_other (s : State) {t t' : TxId} (d : TxData) (h : t' ≠ t) :
    (s.setTx t d).txs t' = s.txs t' := by
  simp [State.setTx, Function.update, h]

@[simp] theorem setNode_nodes_self (s : State) (n : NodeId) (d : NodeData) :
    (s.setNode n d).nodes n = d := by
  simp [State.setNode]

theorem setNode_nodes_other (s : State) {n n' : NodeId} (d : NodeData)
    (h : n' ≠ n) : (s.setNode n d).nodes n' = s.nodes n' := by
  simp [State.setNode, Function.update, h]

@[simp] theorem setPeer_peers_self (s : State) (p : PeerId) (d : PeerData) :
    (s.setPeer p d).peers p = d := by
  simp [State.setPeer]

theorem setPeer_peers_other (s : State) {p p' : PeerId} (d : PeerData)
    (h : p' ≠ p) : (s.setPeer p d).peers p' = s.peers p' := by
  simp [State.setPeer, Function.update, h]

theorem ts_committed_iff (v : Int) :
    b1_distq_ts_committed v = true ↔ v % 2 = 1 := by
  simp [b1_distq_ts_committed]

theorem ts_not_committed_iff (v : Int) :
    b1_distq_ts_committed v = false ↔ v % 2 = 0 := by
  simp [b1_distq_ts_committed]

/-- force_sync never lowers the value. -/
theorem ts_force_sync_ge (v tgt : Int) : v ≤ b1_distq_ts_force_sync v tgt := by
  unfold b1_distq_ts_force_sync
  split
  · exact le_refl v
  · rename_i h
    simp [not_or] at h
    omega

/-- try_sync never lowers the value. -/
theorem ts_try_sync_ge (v tgt : Int) : v ≤ b1_distq_ts_try_sync v tgt := by
  unfold b1_distq_ts_try_sync
  split
  · exact le_refl v
  · rename_i h
    simp [not_or] at h
    omega

/-- A committed value is left untouched by force_sync. -/
theorem ts_force_sync_committed {v : Int} (h : b1_distq_ts_committed v = true)
    (tgt : Int) : b1_distq_ts_force_sync v tgt = v := by
  simp [b1_distq_ts_force_sync, h]

/-- A committed value is left untouched by try_sync. -/
theorem ts_try_sync_committed {v : Int} (h : b1_distq_ts_committed v = true)
    (tgt : Int) : b1_distq_ts_try_sync v tgt = v := by
  simp [b1_distq_ts_try_sync, h]

/-- On a tentative value force_sync computes the maximum with the target. -/
theorem ts_force_sync_tentative {v : Int}
    (h : b1_distq_ts_committed v = false) (tgt : Int) :
    b1_distq_ts_force_sync v tgt = max v tgt := by
  unfold b1_distq_ts_force_sync
  rw [h]
  rcases le_total tgt v with hle | hle
  · simp [hle, max_eq_left hle]
  · by_cases hv : v = tgt
    · simp [hv]
    · have : ¬ v ≥ tgt := by omega
      simp [this, max_eq_right hle]

/-- rethread only touches the next_queue pointers of nodes: peers are kept. -/
theorem rethread_peers (s : State) (l : List NodeId) :
    (rethread s l).peers = s.peers := by
  induction l generalizing s with
  | nil => rfl
  | cons n rest ih =>
    cases rest with
    | nil => rfl
    | cons m rest2 => rw [rethread]; exact ih _

/-- rethread keeps all transactions. -/
theorem rethread_txs (s : State) (l : List NodeId) :
    (rethread s l).txs = s.txs := by
  induction l generalizing s with
  | nil => rfl
  | cons n rest ih =>
    cases rest with
    | nil => rfl
    | cons m rest2 => rw [rethread]; exact ih _

/-- rethread keeps every node field except next_queue. -/
theorem rethread_nodes (l : List NodeId) : ∀ (s : State) (k : NodeId),
    ((rethread s l).nodes k).timestamp = (s.nodes k).timestamp
    ∧ ((rethread s l).nodes k).tx = (s.nodes k).tx
    ∧ ((rethread s l).nodes k).n_refs = (s.nodes k).n_refs := by
  induction l with
  | nil => intro s k; exact ⟨rfl, rfl, rfl⟩
  | cons n rest ih =>
    intro s k
    cases rest with
    | nil =>
      simp only [rethread]
      by_cases hk : k = n
      · subst hk; simp
      · rw [setNode_nodes_other s _ hk]; exact ⟨rfl, rfl, rfl⟩
    | cons m rest2 =>
      simp only [rethread]
      have h2 := ih (s.setNode n { s.nodes n with next_queue := Link.next m }) k
      by_cases hk : k = n
      · subst hk
        simpa using h2
      · rwa [setNode_nodes_other s _ hk] at h2

/-- finalize on an already closed incoming queue returns B1_TAIL and does
not modify the state. -/
theorem finalize_closed (s : State) (p : PeerId)
    (h : (s.peers p).queue.incoming = none) :
    b1_distq_peer_finalize s p = (s, []) := by
  unfold b1_distq_peer_finalize
  simp [h]

/-- finalize always leaves the incoming queue closed. -/
theorem finalize_closes (s : State) (p : PeerId) :
    ((b1_distq_peer_finalize s p).1.peers p).queue.incoming = none := by
  unfold b1_distq_peer_finalize
  cases h : (s.peers p).queue.incoming with
  | none => simp [h]
  | some l => simp [h, rethread_peers]

/- ------------------------------------------------------------------ -/
/- Claim C4: tx_commit postcondition.                                 -/
/- ------------------------------------------------------------------ -/

/-- C4: committing a tentative transaction against a peer with an even
(tentative) clock sets the timestamp to max(old timestamp, clock) + 1, which
is odd; in particular a fresh transaction committed against a fresh peer gets
timestamp 1 (see the witness). -/
theorem tx_commit_postcondition (s : State) (t : TxId) (p : PeerId)
    (ht : b1_distq_ts_committed (s.txs t).timestamp = false)
    (hc : (s.peers p).clock % 2 = 0) :
    ((b1_distq_tx_commit s t p).txs t).timestamp
      = max (s.txs t).timestamp (s.peers p).clock + 1
    ∧ b1_distq_ts_committed
        ((b1_distq_tx_commit s t p).txs t).timestamp = true := by
  have hts : (s.txs t).timestamp % 2 = 0 := (ts_not_committed_iff _).mp ht
  unfold b1_distq_tx_commit
  rw [ts_force_sync_tentative ht]
  refine ⟨by simp, ?_⟩
  simp only [setTx_txs_self]
  rw [ts_committed_iff]
  rcases le_total (s.txs t).timestamp (s.peers p).clock with h | h
  · rw [max_eq_right h]; omega
  · rw [max_eq_left h]; omega

/-- Witness for C4 at the fresh transaction and fresh peer: both hypotheses
hold and the committed timestamp is exactly max(0, 0) + 1 = 1. -/
theorem tx_commit_postcondition_witness :
    ((b1_distq_tx_commit State.init 0 0).txs 0).timestamp
        = max (State.init.txs 0).timestamp (State.init.peers 0).clock + 1
      ∧ b1_distq_ts_committed
          ((b1_distq_tx_commit State.init 0 0).txs 0).timestamp = true :=
  tx_commit_postcondition State.init 0 0 (by decide) (by decide)

/- ------------------------------------------------------------------ -/
/- Claim C1: contested unicast scenario S4.                           -/
/- ------------------------------------------------------------------ -/

/-- C1: with both nodes queued before either transaction commits, committing
transaction 0 and peeking resolves the conflict: the peek returns node 0 and
forces the still tentative transaction 1 to timestamp 2, with transaction 0
at 1 and the peer clock at 2; after transaction 1 commits it holds timestamp
3 and the clock is 4, and peek/pop/peek yields node 0 then node 1. -/
theorem contested_unicast_resolution :
    S4.pk1.2 = some 0
    ∧ (S4.pk1.1.txs 0).timestamp = 1
    ∧ (S4.pk1.1.txs 1).timestamp = 2
    ∧ b1_distq_ts_committed (S4.pk1.1.txs 1).timestamp = false
    ∧ (S4.pk1.1.peers 0).clock = 2
    ∧ (S4.a4.txs 0).timestamp = 1
    ∧ (S4.a4.txs 1).timestamp = 3
    ∧ (S4.a4.peers 0).clock = 4
    ∧ S4.pk2.2 = some 0
    ∧ S4.pk3.2 = some 1 := by
  decide

/- ------------------------------------------------------------------ -/
/- Claim C5: round trip.                                              -/
/- ------------------------------------------------------------------ -/

/-- C5: queue, tx_commit, commit make poll true and peek return exactly the
queued node; after pop, poll is false and n_committed is back at zero. -/
theorem round_trip :
    b1_distq_peer_poll RT.a2 2 = true
    ∧ RT.pk.2 = some 0
    ∧ b1_distq_peer_poll RT.a3 2 = false
    ∧ (RT.a3.peers 2).n_committed = 0 := by
  decide

/- ------------------------------------------------------------------ -/
/- Claim C7: double finalize.                                         -/
/- ------------------------------------------------------------------ -/

/-- C7 counterexample: on a freshly initialized peer, the second finalize
does not return the closed sentinel (CLOSED, the NULL pointer); it returns
the non-null empty sentinel B1_TAIL. -/
theorem double_finalize_not_closed :
    headLink (b1_distq_peer_finalize
        (b1_distq_peer_finalize State.init 0).1 0).2 = Link.tail
    ∧ Link.tail ≠ Link.null := by
  decide

/-- C7 amended: after finalize has been called once, every further finalize
returns the empty sentinel B1_TAIL (the empty chain), not the closed NULL
sentinel. -/
theorem double_finalize_returns_tail (s : State) (p : PeerId) :
    (b1_distq_peer_finalize (b1_distq_peer_finalize s p).1 p).2 = []
    ∧ headLink
        (b1_distq_peer_finalize (b1_distq_peer_finalize s p).1 p).2
        = Link.tail := by
  rw [finalize_closed _ _ (finalize_closes s p)]
  exact ⟨rfl, rfl⟩


/- ------------------------------------------------------------------ -/
/- Claims C6 and C10: queueing against a closed destination.          -/
/- ------------------------------------------------------------------ -/

/-- C6: queueing a fresh node (no tx, not linked) against a closed
destination reports no error, never links the node (next_queue stays NULL),
restores the node refcount, leaves every peer (in particular the closed
incoming head) untouched and performs no clock synchronization on the
transaction timestamp. -/
theorem queue_closed_destination (s : State) (n : NodeId) (t : TxId)
    (d : PeerId)
    (htx : (s.nodes n).tx = none)
    (hnq : (s.nodes n).next_queue = Link.null)
    (hcl : (s.peers d).queue.incoming = none) :
    b1_distq_node_queue_warns s n = false
    ∧ ((b1_distq_node_queue s n t d).nodes n).next_queue = Link.null
    ∧ ((b1_distq_node_queue s n t d).nodes n).n_refs = (s.nodes n).n_refs
    ∧ (b1_distq_node_queue s n t d).peers = s.peers
    ∧ ((b1_distq_node_queue s n t d).txs t).timestamp
        = (s.txs t).timestamp := by
  have hw : b1_distq_node_queue_warns s n = false := by
    simp [b1_distq_node_queue_warns, htx, hnq]
  refine ⟨hw, ?_, ?_, ?_, ?_⟩ <;>
  · simp only [b1_distq_node_queue]
    rw [hw]
    simp only [Bool.false_eq_true, if_false, setTx_peers, setNode_peers, hcl]
    try simp [htx]

/-- Witness for C6: a fresh node queued to the finalized peer 0. -/
theorem queue_closed_destination_witness :
    (b1_distq_node_queue_warns (b1_distq_peer_finalize State.init 0).1 0
        = false)
    ∧ ((b1_distq_node_queue (b1_distq_peer_finalize State.init 0).1 0 0 0
          ).nodes 0).next_queue = Link.null
    ∧ ((b1_distq_node_queue (b1_distq_peer_finalize State.init 0).1 0 0 0
          ).nodes 0).n_refs
        = ((b1_distq_peer_finalize State.init 0).1.nodes 0).n_refs
    ∧ (b1_distq_node_queue (b1_distq_peer_finalize State.init 0).1 0 0 0
          ).peers = (b1_distq_peer_finalize State.init 0).1.peers
    ∧ ((b1_distq_node_queue (b1_distq_peer_finalize State.init 0).1 0 0 0
          ).txs 0).timestamp
        = ((b1_distq_peer_finalize State.init 0).1.txs 0).timestamp :=
  queue_closed_destination (b1_distq_peer_finalize State.init 0).1 0 0 0
    (by decide) (by decide) (by decide)

/-- C10: on the closed-destination drop path, queue still stores the tx
pointer in the node and keeps the acquired transaction reference, so a later
node_finalize hands that reference back to the caller. -/
theorem queue_closed_keeps_tx_reference (s : State) (n : NodeId) (t : TxId)
    (d : PeerId)
    (htx : (s.nodes n).tx = none)
    (hnq : (s.nodes n).next_queue = Link.null)
    (hcl : (s.peers d).queue.incoming = none) :
    ((b1_distq_node_queue s n t d).nodes n).tx = some t
    ∧ ((b1_distq_node_queue s n t d).txs t).n_refs = (s.txs t).n_refs + 1
    ∧ (b1_distq_node_finalize (b1_distq_node_queue s n t d) n).2
        = some t := by
  have hw : b1_distq_node_queue_warns s n = false := by
    simp [b1_distq_node_queue_warns, htx, hnq]
  refine ⟨?_, ?_, ?_⟩ <;>
  · simp only [b1_distq_node_finalize, b1_distq_node_queue]
    rw [hw]
    simp only [Bool.false_eq_true, if_false, setTx_peers, setNode_peers, hcl]
    try simp

/-- Witness for C10: the same fresh node queued to the finalized peer 0. -/
theorem queue_closed_keeps_tx_reference_witness :
    ((b1_distq_node_queue (b1_distq_peer_finalize State.init 0).1 0 0 0
        ).nodes 0).tx = some 0
    ∧ ((b1_distq_node_queue (b1_distq_peer_finalize State.init 0).1 0 0 0
          ).txs 0).n_refs
        = ((b1_distq_peer_finalize State.init 0).1.txs 0).n_refs + 1
    ∧ (b1_distq_node_finalize
          (b1_distq_node_queue (b1_distq_peer_finalize State.init 0).1 0 0 0)
          0).2 = some 0 :=
  queue_closed_keeps_tx_reference (b1_distq_peer_finalize State.init 0).1
    0 0 0 (by decide) (by decide) (by decide)



/- ------------------------------------------------------------------ -/
/- Transaction timestamps under the walks (towards commit finality).  -/
/- ------------------------------------------------------------------ -/

/-- promote touches only node data and the ready list of the peer. -/
theorem promote_txs (s : State) (p : PeerId) (n : NodeId) (ts : Int) :
    (b1_distq_promote s p n ts).txs = s.txs := rfl

/-- The prefetch walk never writes a transaction. -/
theorem prefetch_walk_txs (p : PeerId) (l : List NodeId) : ∀ s : State,
    (b1_distq_prefetch_walk p s l).1.txs = s.txs := by
  induction l with
  | nil => intro s; rfl
  | cons n rest ih =>
    intro s
    simp only [b1_distq_prefetch_walk]
    cases htx : (s.nodes n).tx with
    | none => exact ih s
    | some t =>
      dsimp only
      by_cases hco : b1_distq_ts_committed (s.txs t).timestamp
      · simp only [hco, if_true]
        rw [ih _, promote_txs]
      · simp only [hco, Bool.false_eq_true, if_false]
        exact ih s

/-- The sync walk leaves a committed transaction timestamp unchanged: the
try-sync inside returns the committed value and the written record carries
the same timestamp. -/
theorem sync_walk_txs_committed (p : PeerId) (tgt : Int) (t : TxId)
    (l : List NodeId) : ∀ s : State,
    b1_distq_ts_committed (s.txs t).timestamp = true →
    ((b1_distq_sync_walk p tgt s l).1.txs t).timestamp
      = (s.txs t).timestamp := by
  induction l with
  | nil => intro s _; rfl
  | cons n rest ih =>
    intro s hc
    simp only [b1_distq_sync_walk]
    cases htx : (s.nodes n).tx with
    | none => exact ih s hc
    | some t' =>
      dsimp only
      by_cases ht' : t' = t
      · subst ht'
        rw [ts_try_sync_committed hc]
        simp only [hc, if_true]
        have hset : ((s.setTx t' { s.txs t' with
            timestamp := (s.txs t').timestamp }).txs t').timestamp
            = (s.txs t').timestamp := by simp
        have hc2 : b1_distq_ts_committed
            (((b1_distq_promote (s.setTx t' { s.txs t' with
                timestamp := (s.txs t').timestamp }) p n
                ((s.txs t').timestamp)).txs t').timestamp) = true := by
          rw [promote_txs]; rw [hset]; exact hc
        rw [ih _ hc2, promote_txs, hset]
      · have hkeep : ∀ d : TxData,
            ((s.setTx t' d).txs t).timestamp = (s.txs t).timestamp := by
          intro d; rw [setTx_txs_other s d (Ne.symm ht')]
        by_cases hco : b1_distq_ts_committed
            (b1_distq_ts_try_sync (s.txs t').timestamp tgt)
        · simp only [hco, if_true]
          rw [ih _ (by rw [promote_txs, hkeep]; exact hc), promote_txs,
            hkeep]
        · simp only [hco, Bool.false_eq_true, if_false]
          rw [ih _ (by rw [hkeep]; exact hc), hkeep]

/-- prefetch never writes a transaction. -/
theorem prefetch_txs (s : State) (p : PeerId) :
    (b1_distq_peer_prefetch s p).txs = s.txs := by
  unfold b1_distq_peer_prefetch
  rw [rethread_txs]
  simp only [setPeer_txs]
  rw [prefetch_walk_txs, setPeer_txs, prefetch_walk_txs]

/-- sync leaves a committed transaction timestamp unchanged. -/
theorem sync_txs_committed (s : State) (p : PeerId) (tgt : Int) (t : TxId)
    (hc : b1_distq_ts_committed (s.txs t).timestamp = true) :
    ((b1_distq_peer_sync s p tgt).txs t).timestamp
      = (s.txs t).timestamp := by
  unfold b1_distq_peer_sync
  split
  · rfl
  · rw [rethread_txs]
    simp only [setPeer_txs]
    rw [sync_walk_txs_committed]
    · rw [setPeer_txs, sync_walk_txs_committed]
      · simp
      · simpa using hc
    · rw [setPeer_txs, sync_walk_txs_committed]
      · simpa using hc
      · simpa using hc

/-- peek leaves a committed transaction timestamp unchanged. -/
theorem peek_txs_committed (s : State) (p : PeerId) (t : TxId)
    (hc : b1_distq_ts_committed (s.txs t).timestamp = true) :
    (((b1_distq_peer_peek s p).1).txs t).timestamp
      = (s.txs t).timestamp := by
  unfold b1_distq_peer_peek b1_distq_peek_slow
  cases h1 : (s.peers p).queue.ready.head? with
  | none =>
    have hpf := prefetch_txs s p
    cases h2 : ((b1_distq_peer_prefetch s p).peers p).queue.ready.head? with
    | none => simpa [h1, h2] using congrArg (fun f => (f t).timestamp) hpf
    | some f =>
      simp only [h1, h2]
      split
      · rw [sync_txs_committed]
        · exact congrArg (fun f => (f t).timestamp) hpf
        · rw [hpf]; exact hc
      · exact congrArg (fun f => (f t).timestamp) hpf
  | some f =>
    simp only [h1]
    split
    · exact sync_txs_committed s p _ t hc
    · rfl

/- ------------------------------------------------------------------ -/
/- Claim C3: commit finality.                                         -/
/- ------------------------------------------------------------------ -/

/-- C3: under the stated contracts (in particular tx_commit at most once per
transaction), no engine operation changes an already committed transaction
timestamp: the forced sync in queue, node commit, peek (prefetch and
try-sync), pop and finalize all leave it unchanged. -/
theorem committed_timestamp_final (s : State) (op : Op) (t : TxId)
    (hleg : legalOp s op = true)
    (hc : b1_distq_ts_committed (s.txs t).timestamp = true) :
    ((applyOp s op).txs t).timestamp = (s.txs t).timestamp := by
  cases op with
  | queue n t' d =>
    have ht' : b1_distq_ts_committed (s.txs t').timestamp = false := by
      simp only [legalOp, Bool.and_eq_true, Bool.not_eq_true'] at hleg
      exact hleg.2
    have hne : t ≠ t' := fun h => by rw [← h, hc] at ht'; cases ht'
    show ((b1_distq_node_queue s n t' d).txs t).timestamp = _
    unfold b1_distq_node_queue
    split
    · rfl
    · simp only [setTx_peers, setNode_peers]
      cases hin : (s.peers d).queue.incoming with
      | none =>
        dsimp only
        rw [setNode_txs, setTx_txs_other _ _ hne]
        simp
      | some l =>
        dsimp only
        rw [setTx_txs_other _ _ hne]
        simp only [setPeer_txs, setNode_txs]
        rw [setTx_txs_other _ _ hne]
        simp
  | txCommit t' p' =>
    have ht' : b1_distq_ts_committed (s.txs t').timestamp = false := by
      simp only [legalOp, Bool.not_eq_true'] at hleg
      exact hleg
    have hne : t ≠ t' := fun h => by rw [← h, hc] at ht'; cases ht'
    show ((b1_distq_tx_commit s t' p').txs t).timestamp = _
    unfold b1_distq_tx_commit
    rw [setTx_txs_other s _ hne]
  | nodeCommit n d =>
    show ((b1_distq_node_commit s n d).txs t).timestamp = _
    unfold b1_distq_node_commit
    cases (s.nodes n).tx <;> simp
  | peek p => exact peek_txs_committed s p t hc
  | pop p n =>
    show ((b1_distq_peer_pop s p n).txs t).timestamp = _
    unfold b1_distq_peer_pop b1_distq_peer_pop_ready
    cases (s.peers p).queue.ready <;> simp
  | finalize p =>
    show (((b1_distq_peer_finalize s p).1).txs t).timestamp = _
    unfold b1_distq_peer_finalize
    cases (s.peers p).queue.incoming with
    | none => rfl
    | some l => simp [rethread_txs]

/-- Witness for C3: transaction 0 is committed (timestamp 1) and a peek on
peer 0 leaves its timestamp untouched. -/
theorem committed_timestamp_final_witness :
    ((applyOp (b1_distq_tx_commit State.init 0 0) (Op.peek 0)).txs
        0).timestamp
      = ((b1_distq_tx_commit State.init 0 0).txs 0).timestamp :=
  committed_timestamp_final (b1_distq_tx_commit State.init 0 0) (Op.peek 0)
    0 (by decide) (by decide)


/- ------------------------------------------------------------------ -/
/- The ready tree: insertion keeps order and content.                 -/
/- ------------------------------------------------------------------ -/

theorem compare_neg_ts {s : State} {a b : NodeId}
    (h : b1_distq_node_compare s a b < 0) : tsLe s a b := by
  unfold b1_distq_node_compare at h
  unfold tsLe
  split at h
  · omega
  · split at h
    · rename_i h1 h2; omega
    · split at h
      · rename_i h1 h2 h3; omega
      · split at h
        · rename_i h1 h2 h3 h4; omega
        · split at h
          · rename_i h1 h2 h3 h4 h5; omega
          · split at h <;> omega

theorem compare_nonneg_ts {s : State} {a b : NodeId}
    (h : 0 ≤ b1_distq_node_compare s a b) : tsLe s b a := by
  unfold b1_distq_node_compare at h
  unfold tsLe
  split at h
  · omega
  · split at h
    · rename_i h1 h2; omega
    · rename_i h1 h2; omega

theorem push_ready_perm (s : State) (n : NodeId) (l : List NodeId) :
    (b1_distq_peer_push_ready s n l).Perm (n :: l) := by
  induction l with
  | nil => exact List.Perm.refl _
  | cons e rest ih =>
    unfold b1_distq_peer_push_ready
    split
    · exact List.Perm.refl _
    · exact (ih.cons e).trans (List.Perm.swap n e rest)

theorem push_ready_mem {s : State} {n x : NodeId} {l : List NodeId} :
    x ∈ b1_distq_peer_push_ready s n l ↔ x = n ∨ x ∈ l := by
  rw [(push_ready_perm s n l).mem_iff]
  simp

theorem push_ready_pairwise {s : State} {n : NodeId} {l : List NodeId}
    (h : List.Pairwise (tsLe s) l) :
    List.Pairwise (tsLe s) (b1_distq_peer_push_ready s n l) := by
  induction l with
  | nil => simp [b1_distq_peer_push_ready, List.pairwise_cons]
  | cons e rest ih =>
    rw [List.pairwise_cons] at h
    unfold b1_distq_peer_push_ready
    split
    · rename_i hlt
      have hne := compare_neg_ts hlt
      refine List.Pairwise.cons ?_ (List.Pairwise.cons h.1 h.2)
      intro x hx
      rcases List.mem_cons.mp hx with rfl | hx
      · exact hne
      · exact le_trans hne (h.1 x hx)
    · rename_i hge
      have hge2 : tsLe s e n :=
        compare_nonneg_ts (by omega)
      refine List.Pairwise.cons ?_ (ih h.2)
      intro x hx
      rcases push_ready_mem.mp hx with rfl | hx
      · exact hge2
      · exact h.1 x hx

/-- Whatever Pairwise gives for the head of a list. -/
theorem pairwise_head_le {s : State} {x : NodeId} {l : List NodeId}
    (h : List.Pairwise (tsLe s) (x :: l)) :
    ∀ y ∈ x :: l, tsLe s x y := by
  intro y hy
  rcases List.mem_cons.mp hy with rfl | hy
  · exact le_refl _
  · exact (List.pairwise_cons.mp h).1 y hy

/- ------------------------------------------------------------------ -/
/- promote: field accessors.                                          -/
/- ------------------------------------------------------------------ -/

theorem promote_nodes (s : State) (p : PeerId) (n : NodeId) (ts : Int) :
    (b1_distq_promote s p n ts).nodes
      = (s.setNode n { s.nodes n with
          next_queue := Link.null
          timestamp := if (s.nodes n).timestamp ≠ 0 then (s.nodes n).timestamp else ts }).nodes := rfl

theorem promote_peers_other (s : State) {p q : PeerId} (n : NodeId)
    (ts : Int) (h : q ≠ p) :
    (b1_distq_promote s p n ts).peers q = s.peers q := by
  unfold b1_distq_promote
  exact setPeer_peers_other _ _ h

theorem promote_clock (s : State) (p : PeerId) (n : NodeId) (ts : Int) :
    ((b1_distq_promote s p n ts).peers p).clock = (s.peers p).clock := by
  simp [b1_distq_promote]

theorem promote_localTs (s : State) (p : PeerId) (n : NodeId) (ts : Int) :
    ((b1_distq_promote s p n ts).peers p).localTs
      = (s.peers p).localTs := by
  simp [b1_distq_promote]

theorem promote_n_committed (s : State) (p : PeerId) (n : NodeId)
    (ts : Int) : ((b1_distq_promote s p n ts).peers p).n_committed
      = (s.peers p).n_committed := by
  simp [b1_distq_promote]

theorem promote_incoming (s : State) (p : PeerId) (n : NodeId) (ts : Int) :
    ((b1_distq_promote s p n ts).peers p).queue.incoming
      = (s.peers p).queue.incoming := by
  simp [b1_distq_promote]

theorem promote_busy (s : State) (p : PeerId) (n : NodeId) (ts : Int) :
    ((b1_distq_promote s p n ts).peers p).queue.busy
      = (s.peers p).queue.busy := by
  simp [b1_distq_promote]

theorem promote_ready (s : State) (p : PeerId) (n : NodeId) (ts : Int) :
    ((b1_distq_promote s p n ts).peers p).queue.ready
      = b1_distq_peer_push_ready
          (s.setNode n { s.nodes n with
            next_queue := Link.null
            timestamp := if (s.nodes n).timestamp ≠ 0 then (s.nodes n).timestamp else ts })
          n (s.peers p).queue.ready := by
  simp [b1_distq_promote]


/- ------------------------------------------------------------------ -/
/- Unfolding equations for the two walks.                             -/
/- ------------------------------------------------------------------ -/

theorem prefetch_walk_nil (p : PeerId) (s : State) :
    b1_distq_prefetch_walk p s [] = (s, []) := rfl

theorem prefetch_walk_cons_promote {s : State} {n : NodeId} {t : TxId}
    (p : PeerId) (rest : List NodeId)
    (htx : (s.nodes n).tx = some t)
    (hco : b1_distq_ts_committed ((s.txs t).timestamp) = true) :
    b1_distq_prefetch_walk p s (n :: rest)
      = b1_distq_prefetch_walk p
          (b1_distq_promote s p n ((s.txs t).timestamp)) rest := by
  simp only [b1_distq_prefetch_walk, htx]
  simp [hco]

theorem prefetch_walk_cons_keep {s : State} {n : NodeId} {t : TxId}
    (p : PeerId) (rest : List NodeId)
    (htx : (s.nodes n).tx = some t)
    (hco : b1_distq_ts_committed ((s.txs t).timestamp) = false) :
    b1_distq_prefetch_walk p s (n :: rest)
      = ((b1_distq_prefetch_walk p s rest).1,
         n :: (b1_distq_prefetch_walk p s rest).2) := by
  simp only [b1_distq_prefetch_walk, htx]
  simp [hco]

theorem sync_walk_nil (p : PeerId) (tgt : Int) (s : State) :
    b1_distq_sync_walk p tgt s [] = (s, []) := rfl

theorem sync_walk_cons_promote {s : State} {n : NodeId} {t : TxId}
    (p : PeerId) (tgt : Int) (rest : List NodeId)
    (htx : (s.nodes n).tx = some t)
    (hco : b1_distq_ts_committed
      (b1_distq_ts_try_sync ((s.txs t).timestamp) tgt) = true) :
    b1_distq_sync_walk p tgt s (n :: rest)
      = b1_distq_sync_walk p tgt
          (b1_distq_promote
            (s.setTx t { s.txs t with
              timestamp := b1_distq_ts_try_sync ((s.txs t).timestamp) tgt })
            p n (b1_distq_ts_try_sync ((s.txs t).timestamp) tgt)) rest := by
  simp only [b1_distq_sync_walk, htx]
  simp [hco]

theorem sync_walk_cons_keep {s : State} {n : NodeId} {t : TxId}
    (p : PeerId) (tgt : Int) (rest : List NodeId)
    (htx : (s.nodes n).tx = some t)
    (hco : b1_distq_ts_committed
      (b1_distq_ts_try_sync ((s.txs t).timestamp) tgt) = false) :
    b1_distq_sync_walk p tgt s (n :: rest)
      = ((b1_distq_sync_walk p tgt
            (s.setTx t { s.txs t with
              timestamp := b1_distq_ts_try_sync ((s.txs t).timestamp) tgt })
            rest).1,
         n :: (b1_distq_sync_walk p tgt
            (s.setTx t { s.txs t with
              timestamp := b1_distq_ts_try_sync ((s.txs t).timestamp) tgt })
            rest).2) := by
  simp only [b1_distq_sync_walk, htx]
  simp [hco]

/- ------------------------------------------------------------------ -/
/- Transport helpers.                                                 -/
/- ------------------------------------------------------------------ -/

theorem pairwise_tsLe_congr {s s' : State} {l : List NodeId}
    (h : ∀ x ∈ l, (s'.nodes x).timestamp = (s.nodes x).timestamp) :
    List.Pairwise (tsLe s) l → List.Pairwise (tsLe s') l :=
  List.Pairwise.imp_of_mem (fun ha hb hr => by
    unfold tsLe
    rw [h _ ha, h _ hb]
    exact hr)

/-- Fields of the node written by promote when its resolved timestamp was
still unset. -/
theorem promote_node_self {s : State} {n : NodeId} (p : PeerId) (ts : Int)
    (h0 : (s.nodes n).timestamp = 0) :
    ((b1_distq_promote s p n ts).nodes n).timestamp = ts
    ∧ ((b1_distq_promote s p n ts).nodes n).tx = (s.nodes n).tx
    ∧ ((b1_distq_promote s p n ts).nodes n).n_refs
        = (s.nodes n).n_refs := by
  rw [promote_nodes]
  simp [h0]

theorem promote_node_other {s : State} {n k : NodeId} (p : PeerId)
    (ts : Int) (h : k ≠ n) :
    (b1_distq_promote s p n ts).nodes k = s.nodes k := by
  rw [promote_nodes]
  exact setNode_nodes_other _ _ h

theorem promote_ready_mem {s : State} {n x : NodeId} (p : PeerId)
    (ts : Int) :
    x ∈ ((b1_distq_promote s p n ts).peers p).queue.ready
      ↔ x = n ∨ x ∈ (s.peers p).queue.ready := by
  rw [promote_ready]
  exact push_ready_mem


/- ------------------------------------------------------------------ -/
/- The prefetch walk specification.                                   -/
/- ------------------------------------------------------------------ -/

theorem tsLe_eq_of_nodes {s s' : State} (h : s'.nodes = s.nodes) :
    tsLe s' = tsLe s := by
  funext a b
  unfold tsLe
  rw [h]

theorem prefetch_walk_spec (p : PeerId) :
    ∀ (l : List NodeId) (s : State),
    l.Nodup →
    (∀ x ∈ l, x ∉ (s.peers p).queue.ready) →
    (∀ n ∈ l, (s.nodes n).tx ≠ none) →
    (∀ n ∈ l, (s.nodes n).timestamp = 0) →
    (∀ x ∈ (s.peers p).queue.ready,
        b1_distq_ts_committed ((s.nodes x).timestamp) = true) →
    PrefOut p s (b1_distq_prefetch_walk p s l).1 l
      (b1_distq_prefetch_walk p s l).2 := by
  intro l
  induction l with
  | nil =>
    intro s _ _ _ _ hrc
    rw [prefetch_walk_nil]
    exact {
      txs_eq := rfl
      peers_other := fun _ _ => rfl
      clock_eq := rfl
      local_eq := rfl
      ncomm_eq := rfl
      incoming_eq := rfl
      busy_eq := rfl
      nodes_out := fun _ _ => rfl
      node_tx := fun _ => rfl
      node_refs := fun _ => rfl
      ready_perm := ⟨[], List.Perm.refl _, List.Perm.refl _, by simp⟩
      kept_sub := by simp
      kept_tx := by simp
      kept_ts := by simp
      ready_comm := hrc
      ready_floor := fun B _ hr => hr
      ready_pair := fun h => h }
  | cons n rest ih =>
    intro s hnd hdisj htxs hts0 hrc
    obtain ⟨hnmem, hndrest⟩ := List.nodup_cons.mp hnd
    have hntx := htxs n (List.mem_cons_self n rest)
    have hn0 := hts0 n (List.mem_cons_self n rest)
    have hnready := hdisj n (List.mem_cons_self n rest)
    cases htx : (s.nodes n).tx with
    | none => exact absurd htx hntx
    | some t =>
      cases hco : b1_distq_ts_committed ((s.txs t).timestamp) with
      | true =>
        rw [prefetch_walk_cons_promote p rest htx hco]
        have hn1 := promote_node_self p ((s.txs t).timestamp) hn0
        have hother : ∀ k, k ≠ n →
            (b1_distq_promote s p n ((s.txs t).timestamp)).nodes k
              = s.nodes k :=
          fun k hk => promote_node_other p _ hk
        have hreadymem := fun x =>
          promote_ready_mem (s := s) (n := n) (x := x) p
            ((s.txs t).timestamp)
        have ihc := ih (b1_distq_promote s p n ((s.txs t).timestamp))
          hndrest
          (fun x hx hmem => by
            rcases (hreadymem x).mp hmem with rfl | hmem2
            · exact hnmem hx
            · exact hdisj x (List.mem_cons_of_mem n hx) hmem2)
          (fun x hx => by
            rw [hother x (fun h => hnmem (h ▸ hx))]
            exact htxs x (List.mem_cons_of_mem n hx))
          (fun x hx => by
            rw [hother x (fun h => hnmem (h ▸ hx))]
            exact hts0 x (List.mem_cons_of_mem n hx))
          (fun x hmem => by
            rcases (hreadymem x).mp hmem with rfl | hmem2
            · rw [hn1.1]; exact hco
            · rw [hother x (fun h => hnready (h ▸ hmem2))]
              exact hrc x hmem2)
        have hps : ((b1_distq_promote s p n
            ((s.txs t).timestamp)).peers p).queue.ready.Perm
              (n :: (s.peers p).queue.ready) := by
          rw [promote_ready]
          exact push_ready_perm _ _ _
        refine {
          txs_eq := ihc.txs_eq.trans (promote_txs ..)
          peers_other := fun q hq =>
            (ihc.peers_other q hq).trans (promote_peers_other s n _ hq)
          clock_eq := ihc.clock_eq.trans (promote_clock ..)
          local_eq := ihc.local_eq.trans (promote_localTs ..)
          ncomm_eq := ihc.ncomm_eq.trans (promote_n_committed ..)
          incoming_eq := ihc.incoming_eq.trans (promote_incoming ..)
          busy_eq := ihc.busy_eq.trans (promote_busy ..)
          nodes_out := fun k hk => by
            have hkn : k ≠ n := fun h => hk (h ▸ List.mem_cons_self n rest)
            have hkr : k ∉ rest := fun h => hk (List.mem_cons_of_mem n h)
            exact (ihc.nodes_out k hkr).trans (hother k hkn)
          node_tx := fun k => by
            by_cases hk : k = n
            · subst hk
              rw [ihc.node_tx k, hn1.2.1]
            · rw [ihc.node_tx k, hother k hk]
          node_refs := fun k => by
            by_cases hk : k = n
            · subst hk
              rw [ihc.node_refs k, hn1.2.2]
            · rw [ihc.node_refs k, hother k hk]
          ready_perm := ?_
          kept_sub := fun x hx =>
            List.mem_cons_of_mem n (ihc.kept_sub x hx)
          kept_tx := fun x hx t' hx' => by
            have hxr := ihc.kept_sub x hx
            have hxn : x ≠ n := fun h => hnmem (h ▸ hxr)
            have := ihc.kept_tx x hx t' (by rw [hother x hxn]; exact hx')
            rwa [promote_txs] at this
          kept_ts := ihc.kept_ts
          ready_comm := ihc.ready_comm
          ready_floor := fun B hB hr => by
            refine ihc.ready_floor B ?_ ?_
            · intro x hx t' hx'
              have hxn : x ≠ n := fun h => hnmem (h ▸ hx)
              rw [hother x hxn] at hx'
              rw [promote_txs]
              exact hB x (List.mem_cons_of_mem n hx) t' hx'
            · intro x hmem
              rcases (hreadymem x).mp hmem with rfl | hmem2
              · rw [hn1.1]
                exact hB x (List.mem_cons_self x rest) t htx
              · rw [hother x (fun h => hnready (h ▸ hmem2))]
                exact hr x hmem2
          ready_pair := fun hp => by
            refine ihc.ready_pair ?_
            rw [promote_ready,
              tsLe_eq_of_nodes (promote_nodes s p n ((s.txs t).timestamp))]
            refine push_ready_pairwise ?_
            refine pairwise_tsLe_congr (fun x hx => ?_) hp
            have hxn : x ≠ n := fun h => hnready (h ▸ hx)
            rw [setNode_nodes_other _ _ hxn] }
        obtain ⟨proms1, hp1, hp2, hp3⟩ := ihc.ready_perm
        refine ⟨n :: proms1, ?_, ?_, ?_⟩
        · exact (hp1.trans ((hps.append_left proms1).trans
            List.perm_middle)).trans (List.Perm.refl _)
        · exact ((hp2.cons n).trans List.perm_middle.symm)
        · intro x hx
          rcases List.mem_cons.mp hx with rfl | hx2
          · exact List.mem_cons_self x rest
          · exact List.mem_cons_of_mem n (hp3 x hx2)
      | false =>
        rw [prefetch_walk_cons_keep p rest htx hco]
        have ihc := ih s hndrest
          (fun x hx => hdisj x (List.mem_cons_of_mem n hx))
          (fun x hx => htxs x (List.mem_cons_of_mem n hx))
          (fun x hx => hts0 x (List.mem_cons_of_mem n hx))
          hrc
        refine {
          txs_eq := ihc.txs_eq
          peers_other := ihc.peers_other
          clock_eq := ihc.clock_eq
          local_eq := ihc.local_eq
          ncomm_eq := ihc.ncomm_eq
          incoming_eq := ihc.incoming_eq
          busy_eq := ihc.busy_eq
          nodes_out := fun k hk =>
            ihc.nodes_out k (fun h => hk (List.mem_cons_of_mem n h))
          node_tx := ihc.node_tx
          node_refs := ihc.node_refs
          ready_perm := ?_
          kept_sub := fun x hx => by
            rcases List.mem_cons.mp hx with rfl | hx2
            · exact List.mem_cons_self x rest
            · exact List.mem_cons_of_mem n (ihc.kept_sub x hx2)
          kept_tx := fun x hx t' hx' => by
            rcases List.mem_cons.mp hx with rfl | hx2
            · rw [htx] at hx'
              cases hx'
              exact hco
            · exact ihc.kept_tx x hx2 t' hx'
          kept_ts := fun x hx => by
            rcases List.mem_cons.mp hx with rfl | hx2
            · rw [ihc.nodes_out x hnmem]
              exact hn0
            · exact ihc.kept_ts x hx2
          ready_comm := ihc.ready_comm
          ready_floor := fun B hB hr =>
            ihc.ready_floor B
              (fun x hx t' hx' =>
                hB x (List.mem_cons_of_mem n hx) t' hx') hr
          ready_pair := ihc.ready_pair }
        obtain ⟨proms1, hp1, hp2, hp3⟩ := ihc.ready_perm
        exact ⟨proms1, hp1, hp2.cons n,
          fun x hx => List.mem_cons_of_mem n (hp3 x hx)⟩


/- ------------------------------------------------------------------ -/
/- The sync walk specification.                                       -/
/- ------------------------------------------------------------------ -/

/-- try_sync keeps a tentative value tentative when the target is
tentative. -/
theorem ts_try_sync_tent {v tgt : Int}
    (hv : b1_distq_ts_committed v = false)
    (htgt : b1_distq_ts_committed tgt = false) :
    b1_distq_ts_committed (b1_distq_ts_try_sync v tgt) = false := by
  unfold b1_distq_ts_try_sync
  split
  · exact hv
  · exact htgt

/-- When the result of try_sync is tentative, it is at least the target. -/
theorem ts_try_sync_tent_ge {v tgt : Int}
    (h : b1_distq_ts_committed (b1_distq_ts_try_sync v tgt) = false) :
    tgt ≤ b1_distq_ts_try_sync v tgt := by
  unfold b1_distq_ts_try_sync at h ⊢
  by_cases hcond : (decide (v ≥ tgt) || b1_distq_ts_committed v) = true
  · rw [if_pos hcond] at h ⊢
    rcases Bool.or_eq_true_iff.mp hcond with h2 | h2
    · exact of_decide_eq_true h2
    · rw [h2] at h
      exact Bool.noConfusion h
  · rw [if_neg hcond]

theorem sync_walk_spec (p : PeerId) (tgt : Int)
    (htgtc : b1_distq_ts_committed tgt = false) :
    ∀ (l : List NodeId) (s : State),
    l.Nodup →
    (∀ x ∈ l, x ∉ (s.peers p).queue.ready) →
    (∀ n ∈ l, (s.nodes n).tx ≠ none) →
    (∀ n ∈ l, (s.nodes n).timestamp = 0) →
    (∀ x ∈ (s.peers p).queue.ready,
        b1_distq_ts_committed ((s.nodes x).timestamp) = true) →
    WalkOut p tgt s (b1_distq_sync_walk p tgt s l).1 l
      (b1_distq_sync_walk p tgt s l).2 := by
  intro l
  induction l with
  | nil =>
    intro s _ _ _ _ hrc
    rw [sync_walk_nil]
    exact {
      tx_mono := fun _ => le_refl _
      tx_tent := fun _ h => h
      tx_comm := fun _ _ => rfl
      peers_other := fun _ _ => rfl
      clock_eq := rfl
      local_eq := rfl
      ncomm_eq := rfl
      incoming_eq := rfl
      busy_eq := rfl
      nodes_out := fun _ _ => rfl
      node_tx := fun _ => rfl
      node_refs := fun _ => rfl
      ready_perm := ⟨[], List.Perm.refl _, List.Perm.refl _, by simp⟩
      kept_sub := by simp
      kept_tx := by simp
      kept_ts := by simp
      ready_comm := hrc
      ready_floor := fun B _ hr => hr
      ready_pair := fun h => h }
  | cons n rest ih =>
    intro s hnd hdisj htxs hts0 hrc
    obtain ⟨hnmem, hndrest⟩ := List.nodup_cons.mp hnd
    have hntx := htxs n (List.mem_cons_self n rest)
    have hn0 := hts0 n (List.mem_cons_self n rest)
    have hnready := hdisj n (List.mem_cons_self n rest)
    cases htx : (s.nodes n).tx with
    | none => exact absurd htx hntx
    | some t =>
      have hstep_mono : ∀ t', (s.txs t').timestamp
          ≤ ((s.setTx t { s.txs t with
              timestamp := b1_distq_ts_try_sync ((s.txs t).timestamp) tgt
            }).txs t').timestamp := by
        intro t'
        by_cases h : t' = t
        · subst h
          simp only [setTx_txs_self]
          exact ts_try_sync_ge _ _
        · rw [setTx_txs_other _ _ h]
      have hstep_tent : ∀ t',
          b1_distq_ts_committed ((s.txs t').timestamp) = false →
          b1_distq_ts_committed (((s.setTx t { s.txs t with
              timestamp := b1_distq_ts_try_sync ((s.txs t).timestamp) tgt
            }).txs t').timestamp) = false := by
        intro t' h
        by_cases ht' : t' = t
        · subst ht'
          simp only [setTx_txs_self]
          exact ts_try_sync_tent h htgtc
        · rw [setTx_txs_other _ _ ht']
          exact h
      have hstep_comm : ∀ t',
          b1_distq_ts_committed ((s.txs t').timestamp) = true →
          (((s.setTx t { s.txs t with
              timestamp := b1_distq_ts_try_sync ((s.txs t).timestamp) tgt
            }).txs t').timestamp) = (s.txs t').timestamp := by
        intro t' h
        by_cases ht' : t' = t
        · subst ht'
          simp only [setTx_txs_self]
          exact ts_try_sync_committed h tgt
        · rw [setTx_txs_other _ _ ht']
      cases hco : b1_distq_ts_committed
          (b1_distq_ts_try_sync ((s.txs t).timestamp) tgt) with
      | true =>
        rw [sync_walk_cons_promote p tgt rest htx hco]
        have hn1 := promote_node_self
          (s := s.setTx t { s.txs t with
            timestamp := b1_distq_ts_try_sync ((s.txs t).timestamp) tgt })
          p (b1_distq_ts_try_sync ((s.txs t).timestamp) tgt) hn0
        have hother : ∀ k, k ≠ n →
            (b1_distq_promote
              (s.setTx t { s.txs t with
                timestamp := b1_distq_ts_try_sync ((s.txs t).timestamp) tgt })
              p n (b1_distq_ts_try_sync ((s.txs t).timestamp) tgt)).nodes k
              = s.nodes k :=
          fun k hk => promote_node_other p _ hk
        have hreadyeq : ∀ q : PeerId,
            ((s.setTx t { s.txs t with
              timestamp := b1_distq_ts_try_sync ((s.txs t).timestamp) tgt
            }).peers q) = s.peers q := fun _ => rfl
        have hreadymem : ∀ x,
            x ∈ ((b1_distq_promote
              (s.setTx t { s.txs t with
                timestamp := b1_distq_ts_try_sync ((s.txs t).timestamp) tgt })
              p n (b1_distq_ts_try_sync ((s.txs t).timestamp) tgt)).peers
                p).queue.ready
            ↔ x = n ∨ x ∈ (s.peers p).queue.ready := by
          intro x
          exact promote_ready_mem p _
        have ihc := ih (b1_distq_promote
            (s.setTx t { s.txs t with
              timestamp := b1_distq_ts_try_sync ((s.txs t).timestamp) tgt })
            p n (b1_distq_ts_try_sync ((s.txs t).timestamp) tgt))
          hndrest
          (fun x hx hmem => by
            rcases (hreadymem x).mp hmem with rfl | hmem2
            · exact hnmem hx
            · exact hdisj x (List.mem_cons_of_mem n hx) hmem2)
          (fun x hx => by
            rw [hother x (fun h => hnmem (h ▸ hx))]
            exact htxs x (List.mem_cons_of_mem n hx))
          (fun x hx => by
            rw [hother x (fun h => hnmem (h ▸ hx))]
            exact hts0 x (List.mem_cons_of_mem n hx))
          (fun x hmem => by
            rcases (hreadymem x).mp hmem with rfl | hmem2
            · rw [hn1.1]; exact hco
            · rw [hother x (fun h => hnready (h ▸ hmem2))]
              exact hrc x hmem2)
        have hps : ((b1_distq_promote
            (s.setTx t { s.txs t with
              timestamp := b1_distq_ts_try_sync ((s.txs t).timestamp) tgt })
            p n (b1_distq_ts_try_sync ((s.txs t).timestamp) tgt)).peers
              p).queue.ready.Perm
              (n :: (s.peers p).queue.ready) := by
          rw [promote_ready]
          exact (push_ready_perm _ _ _).trans (List.Perm.refl _)
        refine {
          tx_mono := fun t' =>
            le_trans (hstep_mono t') (by
              have := ihc.tx_mono t'
              rwa [promote_txs] at this)
          tx_tent := fun t' h => by
            have h2 := hstep_tent t' h
            have := ihc.tx_tent t' (by rwa [promote_txs])
            exact this
          tx_comm := fun t' h => by
            have h2 := hstep_comm t' h
            have h3 : b1_distq_ts_committed
                (((b1_distq_promote
                  (s.setTx t { s.txs t with
                    timestamp :=
                      b1_distq_ts_try_sync ((s.txs t).timestamp) tgt })
                  p n (b1_distq_ts_try_sync ((s.txs t).timestamp) tgt)).txs
                    t').timestamp) = true := by
              rw [promote_txs, h2]; exact h
            have h4 := ihc.tx_comm t' h3
            rw [h4, promote_txs, h2]
          peers_other := fun q hq =>
            (ihc.peers_other q hq).trans
              ((promote_peers_other _ n _ hq).trans (hreadyeq q))
          clock_eq := ihc.clock_eq.trans (promote_clock ..)
          local_eq := ihc.local_eq.trans (promote_localTs ..)
          ncomm_eq := ihc.ncomm_eq.trans (promote_n_committed ..)
          incoming_eq := ihc.incoming_eq.trans (promote_incoming ..)
          busy_eq := ihc.busy_eq.trans (promote_busy ..)
          nodes_out := fun k hk => by
            have hkn : k ≠ n := fun h => hk (h ▸ List.mem_cons_self n rest)
            have hkr : k ∉ rest := fun h => hk (List.mem_cons_of_mem n h)
            exact (ihc.nodes_out k hkr).trans (hother k hkn)
          node_tx := fun k => by
            by_cases hk : k = n
            · subst hk
              rw [ihc.node_tx k, hn1.2.1]
              rfl
            · rw [ihc.node_tx k, hother k hk]
          node_refs := fun k => by
            by_cases hk : k = n
            · subst hk
              rw [ihc.node_refs k, hn1.2.2]
              rfl
            · rw [ihc.node_refs k, hother k hk]
          ready_perm := ?_
          kept_sub := fun x hx =>
            List.mem_cons_of_mem n (ihc.kept_sub x hx)
          kept_tx := fun x hx t' hx' => by
            have hxr := ihc.kept_sub x hx
            have hxn : x ≠ n := fun h => hnmem (h ▸ hxr)
            exact ihc.kept_tx x hx t' (by rw [hother x hxn]; exact hx')
          kept_ts := ihc.kept_ts
          ready_comm := ihc.ready_comm
          ready_floor := fun B hB hr => by
            refine ihc.ready_floor B ?_ ?_
            · intro x hx t' hx'
              have hxn : x ≠ n := fun h => hnmem (h ▸ hx)
              rw [hother x hxn] at hx'
              rw [promote_txs]
              exact le_trans (hB x (List.mem_cons_of_mem n hx) t' hx')
                (hstep_mono t')
            · intro x hmem
              rcases (hreadymem x).mp hmem with rfl | hmem2
              · rw [hn1.1]
                exact le_trans (hB x (List.mem_cons_self x rest) t htx)
                  (ts_try_sync_ge _ _)
              · rw [hother x (fun h => hnready (h ▸ hmem2))]
                exact hr x hmem2
          ready_pair := fun hp => by
            refine ihc.ready_pair ?_
            rw [promote_ready, tsLe_eq_of_nodes (promote_nodes _ p n _)]
            refine push_ready_pairwise ?_
            refine pairwise_tsLe_congr (fun x hx => ?_) hp
            have hxn : x ≠ n := fun h => hnready (h ▸ hx)
            rw [setNode_nodes_other _ _ hxn]
            rfl }
        obtain ⟨proms1, hp1, hp2, hp3⟩ := ihc.ready_perm
        refine ⟨n :: proms1, ?_, ?_, ?_⟩
        · exact hp1.trans ((hps.append_left proms1).trans List.perm_middle)
        · exact ((hp2.cons n).trans List.perm_middle.symm)
        · intro x hx
          rcases List.mem_cons.mp hx with rfl | hx2
          · exact List.mem_cons_self x rest
          · exact List.mem_cons_of_mem n (hp3 x hx2)
      | false =>
        rw [sync_walk_cons_keep p tgt rest htx hco]
        have hreadyeq : ∀ q : PeerId,
            ((s.setTx t { s.txs t with
              timestamp := b1_distq_ts_try_sync ((s.txs t).timestamp) tgt
            }).peers q) = s.peers q := fun _ => rfl
        have hnodeseq : (s.setTx t { s.txs t with
            timestamp := b1_distq_ts_try_sync ((s.txs t).timestamp) tgt
          }).nodes = s.nodes := rfl
        have ihc := ih (s.setTx t { s.txs t with
            timestamp := b1_distq_ts_try_sync ((s.txs t).timestamp) tgt })
          hndrest
          (fun x hx => by
            rw [hreadyeq p]
            exact hdisj x (List.mem_cons_of_mem n hx))
          (fun x hx => by
            rw [hnodeseq]
            exact htxs x (List.mem_cons_of_mem n hx))
          (fun x hx => by
            rw [hnodeseq]
            exact hts0 x (List.mem_cons_of_mem n hx))
          (fun x hmem => by
            rw [hnodeseq]
            rw [hreadyeq p] at hmem
            exact hrc x hmem)
        refine {
          tx_mono := fun t' =>
            le_trans (hstep_mono t') (ihc.tx_mono t')
          tx_tent := fun t' h => ihc.tx_tent t' (hstep_tent t' h)
          tx_comm := fun t' h => by
            rw [ihc.tx_comm t' (by rw [hstep_comm t' h]; exact h),
              hstep_comm t' h]
          peers_other := fun q hq =>
            (ihc.peers_other q hq).trans (hreadyeq q)
          clock_eq := by rw [ihc.clock_eq, hreadyeq p]
          local_eq := by rw [ihc.local_eq, hreadyeq p]
          ncomm_eq := by rw [ihc.ncomm_eq, hreadyeq p]
          incoming_eq := by rw [ihc.incoming_eq, hreadyeq p]
          busy_eq := by rw [ihc.busy_eq, hreadyeq p]
          nodes_out := fun k hk => by
            rw [ihc.nodes_out k (fun h => hk (List.mem_cons_of_mem n h)),
              hnodeseq]
          node_tx := fun k => by rw [ihc.node_tx k, hnodeseq]
          node_refs := fun k => by rw [ihc.node_refs k, hnodeseq]
          ready_perm := ?_
          kept_sub := fun x hx => by
            rcases List.mem_cons.mp hx with rfl | hx2
            · exact List.mem_cons_self x rest
            · exact List.mem_cons_of_mem n (ihc.kept_sub x hx2)
          kept_tx := fun x hx t' hx' => by
            rcases List.mem_cons.mp hx with rfl | hx2
            · rw [htx] at hx'
              cases hx'
              constructor
              · exact le_trans (ts_try_sync_tent_ge hco)
                  (by
                    have := ihc.tx_mono t
                    rwa [setTx_txs_self] at this)
              · exact ihc.tx_tent t (by rw [setTx_txs_self]; exact hco)
            · exact ihc.kept_tx x hx2 t' (by rw [hnodeseq]; exact hx')
          kept_ts := fun x hx => by
            rcases List.mem_cons.mp hx with rfl | hx2
            · rw [ihc.nodes_out x hnmem, hnodeseq]
              exact hn0
            · exact ihc.kept_ts x hx2
          ready_comm := fun x hmem => ihc.ready_comm x hmem
          ready_floor := fun B hB hr => by
            refine ihc.ready_floor B ?_ ?_
            · intro x hx t' hx'
              rw [hnodeseq] at hx'
              exact le_trans (hB x (List.mem_cons_of_mem n hx) t' hx')
                (hstep_mono t')
            · intro x hmem
              rw [hreadyeq p] at hmem
              rw [hnodeseq]
              exact hr x hmem
          ready_pair := fun hp => by
            refine ihc.ready_pair ?_
            rw [hreadyeq p, tsLe_eq_of_nodes hnodeseq]
            exact hp }
        obtain ⟨proms1, hp1, hp2, hp3⟩ := ihc.ready_perm
        refine ⟨proms1, ?_, hp2.cons n,
          fun x hx => List.mem_cons_of_mem n (hp3 x hx)⟩
        have := hreadyeq p
        rw [show ((s.setTx t { s.txs t with
          timestamp := b1_distq_ts_try_sync ((s.txs t).timestamp) tgt
          }).peers p).queue.ready = (s.peers p).queue.ready from rfl] at hp1
        exact hp1


/- ------------------------------------------------------------------ -/
/- Invariant transports and preservation for the simple operations.   -/
/- ------------------------------------------------------------------ -/

/-- The invariant only reads transactions, peers, and the timestamp and tx
fields of nodes; it transports along states that agree there. -/
theorem Inv_of_same {s s' : State}
    (htx : s'.txs = s.txs)
    (hpeers : s'.peers = s.peers)
    (hts : ∀ k, (s'.nodes k).timestamp = (s.nodes k).timestamp)
    (htxf : ∀ k, (s'.nodes k).tx = (s.nodes k).tx)
    (h : Inv s) : Inv s' := by
  have hchain : ∀ q, chainNodes s' q = chainNodes s q := by
    intro q
    unfold chainNodes
    rw [hpeers]
  have hall : ∀ q, allNodes s' q = allNodes s q := by
    intro q
    unfold allNodes
    rw [hchain, hpeers]
  exact {
    tx_pos := fun t => by rw [htx]; exact h.tx_pos t
    node_ts0 := fun n hn => by
      rw [hts n]
      exact h.node_ts0 n (by rwa [htxf n] at hn)
    local_pos := fun q => by rw [hpeers]; exact h.local_pos q
    local_le_clock := fun q => by rw [hpeers]; exact h.local_le_clock q
    local_even := fun q => by rw [hpeers]; exact h.local_even q
    clock_even := fun q => by rw [hpeers]; exact h.clock_even q
    chain_tx := fun q n hn => by
      rw [htxf n]
      exact h.chain_tx q n (by rwa [hchain] at hn)
    chain_floor := fun q n hn t ht => by
      rw [hpeers, htx]
      exact h.chain_floor q n (by rwa [hchain] at hn) t
        (by rwa [htxf n] at ht)
    chain_ts0 := fun q n hn => by
      rw [hts n]
      exact h.chain_ts0 q n (by rwa [hchain] at hn)
    ready_tx := fun q n hn => by
      rw [htxf n]
      exact h.ready_tx q n (by rwa [hpeers] at hn)
    ready_comm := fun q n hn => by
      rw [hts n]
      exact h.ready_comm q n (by rwa [hpeers] at hn)
    ready_pos := fun q n hn => by
      rw [hts n]
      exact h.ready_pos q n (by rwa [hpeers] at hn)
    ready_pair := fun q => by
      rw [hpeers]
      exact pairwise_tsLe_congr (fun x _ => hts x) (h.ready_pair q)
    nodup := fun q => by rw [hall]; exact h.nodup q
    disjoint := fun a b hab x hx hx' => by
      rw [hall] at hx hx'
      exact h.disjoint a b hab x hx hx' }

/-- The invariant survives shrinking the containers of one peer (with its
n_committed arbitrary), everything else equal. -/
theorem Inv_shrink {s s' : State} (p : PeerId)
    (htx : s'.txs = s.txs)
    (hnodes : s'.nodes = s.nodes)
    (hq : ∀ q, q ≠ p → s'.peers q = s.peers q)
    (hclock : (s'.peers p).clock = (s.peers p).clock)
    (hlocal : (s'.peers p).localTs = (s.peers p).localTs)
    (hchain : (chainNodes s' p).Sublist (chainNodes s p))
    (hready : ((s'.peers p).queue.ready).Sublist
      ((s.peers p).queue.ready))
    (h : Inv s) : Inv s' := by
  have hchainq : ∀ q, q ≠ p → chainNodes s' q = chainNodes s q := by
    intro q hq2
    unfold chainNodes
    rw [hq q hq2]
  have hallsub : ∀ q, ∀ x, x ∈ allNodes s' q → x ∈ allNodes s q := by
    intro q x hx
    by_cases hq2 : q = p
    · subst hq2
      unfold allNodes at hx ⊢
      rcases List.mem_append.mp hx with hx2 | hx2
      · exact List.mem_append.mpr (Or.inl (hchain.subset hx2))
      · exact List.mem_append.mpr (Or.inr (hready.subset hx2))
    · unfold allNodes at hx ⊢
      rw [hchainq q hq2, hq q hq2] at hx
      exact hx
  exact {
    tx_pos := fun t => by rw [htx]; exact h.tx_pos t
    node_ts0 := fun n hn => by
      rw [hnodes] at hn ⊢
      exact h.node_ts0 n hn
    local_pos := fun q => by
      by_cases hq2 : q = p
      · rw [hq2, hlocal]; exact h.local_pos p
      · rw [hq q hq2]; exact h.local_pos q
    local_le_clock := fun q => by
      by_cases hq2 : q = p
      · rw [hq2, hlocal, hclock]; exact h.local_le_clock p
      · rw [hq q hq2]; exact h.local_le_clock q
    local_even := fun q => by
      by_cases hq2 : q = p
      · rw [hq2, hlocal]; exact h.local_even p
      · rw [hq q hq2]; exact h.local_even q
    clock_even := fun q => by
      by_cases hq2 : q = p
      · rw [hq2, hclock]; exact h.clock_even p
      · rw [hq q hq2]; exact h.clock_even q
    chain_tx := fun q n hn => by
      rw [hnodes]
      by_cases hq2 : q = p
      · rw [hq2] at hn
        exact h.chain_tx p n (hchain.subset hn)
      · exact h.chain_tx q n (by rwa [hchainq q hq2] at hn)
    chain_floor := fun q n hn t ht => by
      rw [htx]
      rw [hnodes] at ht
      by_cases hq2 : q = p
      · rw [hq2] at hn ⊢
        rw [hlocal]
        exact h.chain_floor p n (hchain.subset hn) t ht
      · rw [hq q hq2]
        exact h.chain_floor q n (by rwa [hchainq q hq2] at hn) t ht
    chain_ts0 := fun q n hn => by
      rw [hnodes]
      by_cases hq2 : q = p
      · rw [hq2] at hn
        exact h.chain_ts0 p n (hchain.subset hn)
      · exact h.chain_ts0 q n (by rwa [hchainq q hq2] at hn)
    ready_tx := fun q n hn => by
      rw [hnodes]
      by_cases hq2 : q = p
      · rw [hq2] at hn
        exact h.ready_tx p n (hready.subset hn)
      · exact h.ready_tx q n (by rwa [hq q hq2] at hn)
    ready_comm := fun q n hn => by
      rw [hnodes]
      by_cases hq2 : q = p
      · rw [hq2] at hn
        exact h.ready_comm p n (hready.subset hn)
      · exact h.ready_comm q n (by rwa [hq q hq2] at hn)
    ready_pos := fun q n hn => by
      rw [hnodes]
      by_cases hq2 : q = p
      · rw [hq2] at hn
        exact h.ready_pos p n (hready.subset hn)
      · exact h.ready_pos q n (by rwa [hq q hq2] at hn)
    ready_pair := fun q => by
      have hcongr := tsLe_eq_of_nodes hnodes
      by_cases hq2 : q = p
      · rw [hq2, hcongr]
        exact (h.ready_pair p).sublist hready
      · rw [hcongr, hq q hq2]
        exact h.ready_pair q
    nodup := fun q => by
      by_cases hq2 : q = p
      · rw [hq2]
        exact (h.nodup p).sublist (hchain.append hready)
      · unfold allNodes
        rw [hchainq q hq2, hq q hq2]
        exact h.nodup q
    disjoint := fun a b hab x hx hx' =>
      h.disjoint a b hab x (hallsub a x hx) (hallsub b x hx') }

/-- The invariant holds in the freshly initialized machine. -/
theorem Inv_init : Inv State.init := by
  refine {
    tx_pos := fun _ => le_refl 0
    node_ts0 := fun _ _ => rfl
    local_pos := fun _ => le_refl 0
    local_le_clock := fun _ => le_refl 0
    local_even := fun _ => rfl
    clock_even := fun _ => rfl
    chain_tx := ?_
    chain_floor := ?_
    chain_ts0 := ?_
    ready_tx := ?_
    ready_comm := ?_
    ready_pos := ?_
    ready_pair := ?_
    nodup := ?_
    disjoint := ?_ } <;>
    simp [chainNodes, allNodes, State.init, b1_distq_peer_init]

/-- pop keeps the invariant. -/
theorem Inv_pop (s : State) (p : PeerId) (n : NodeId) (h : Inv s) :
    Inv (b1_distq_peer_pop s p n) := by
  unfold b1_distq_peer_pop b1_distq_peer_pop_ready
  cases hrd : (s.peers p).queue.ready with
  | nil =>
    dsimp only
    refine Inv_shrink p ?_ ?_ ?_ ?_ ?_ ?_ ?_ h
    · rfl
    · rfl
    · intro q hq2
      exact setPeer_peers_other s _ hq2
    · simp
    · simp
    · unfold chainNodes
      simp
    · simp [hrd]
  | cons x rest =>
    dsimp only
    refine Inv_shrink p ?_ ?_ ?_ ?_ ?_ ?_ ?_ h
    · rfl
    · rfl
    · intro q hq2
      rw [setPeer_peers_other _ _ hq2, setPeer_peers_other _ _ hq2]
    · simp
    · simp
    · unfold chainNodes
      simp
    · simp only [setPeer_peers_self]
      rw [hrd]
      exact List.sublist_cons_self x rest

/-- finalize keeps the invariant. -/
theorem Inv_finalize (s : State) (p : PeerId) (h : Inv s) :
    Inv (b1_distq_peer_finalize s p).1 := by
  unfold b1_distq_peer_finalize
  cases hin : (s.peers p).queue.incoming with
  | none => exact h
  | some inc =>
    dsimp only
    refine Inv_of_same (rethread_txs _ _) ?_
      (fun k => (rethread_nodes _ _ k).1)
      (fun k => (rethread_nodes _ _ k).2.1) ?_
    · rw [rethread_peers]
    · refine Inv_shrink p ?_ ?_ ?_ ?_ ?_ ?_ ?_ h
      · rfl
      · rfl
      · intro q hq2
        exact setPeer_peers_other s _ hq2
      · simp
      · simp
      · unfold chainNodes
        simp
      · simp


/- ------------------------------------------------------------------ -/
/- Characterizations of queue, tx_commit, node_commit.                -/
/- ------------------------------------------------------------------ -/

/-- Field-level description of a successful queue to an open
destination. -/
theorem queue_open_chars (s : State) (n : NodeId) (t : TxId) (d : PeerId)
    (l : List NodeId)
    (hw : b1_distq_node_queue_warns s n = false)
    (hin : (s.peers d).queue.incoming = some l) :
    ((b1_distq_node_queue s n t d).txs t
        = { n_refs := (s.txs t).n_refs + 1
          , timestamp := b1_distq_ts_force_sync ((s.txs t).timestamp)
              ((s.peers d).clock) })
    ∧ (∀ t', t' ≠ t → (b1_distq_node_queue s n t d).txs t' = s.txs t')
    ∧ ((b1_distq_node_queue s n t d).nodes n
        = { n_refs := (s.nodes n).n_refs + 1
          , timestamp := (s.nodes n).timestamp
          , tx := some t
          , next_queue := headLink l })
    ∧ (∀ k, k ≠ n → (b1_distq_node_queue s n t d).nodes k = s.nodes k)
    ∧ (∀ q, q ≠ d → (b1_distq_node_queue s n t d).peers q = s.peers q)
    ∧ ((b1_distq_node_queue s n t d).peers d
        = { s.peers d with queue :=
            { (s.peers d).queue with incoming := some (n :: l) } }) := by
  unfold b1_distq_node_queue
  rw [hw]
  simp only [Bool.false_eq_true, if_false, setTx_peers, setNode_peers, hin]
  refine ⟨?_, ?_, ?_, ?_, ?_, ?_⟩
  · simp
  · intro t' ht'
    simp [State.setTx, State.setNode, State.setPeer, Function.update, ht']
  · simp
  · intro k hk
    simp [State.setTx, State.setNode, State.setPeer, Function.update, hk]
  · intro q hq
    simp [State.setTx, State.setNode, State.setPeer, Function.update, hq]
  · simp

/-- Field-level description of a queue dropped at a closed destination. -/
theorem queue_closed_chars (s : State) (n : NodeId) (t : TxId) (d : PeerId)
    (hw : b1_distq_node_queue_warns s n = false)
    (hin : (s.peers d).queue.incoming = none) :
    ((b1_distq_node_queue s n t d).txs t
        = { n_refs := (s.txs t).n_refs + 1
          , timestamp := (s.txs t).timestamp })
    ∧ (∀ t', t' ≠ t → (b1_distq_node_queue s n t d).txs t' = s.txs t')
    ∧ ((b1_distq_node_queue s n t d).nodes n
        = { n_refs := (s.nodes n).n_refs
          , timestamp := (s.nodes n).timestamp
          , tx := some t
          , next_queue := Link.null })
    ∧ (∀ k, k ≠ n → (b1_distq_node_queue s n t d).nodes k = s.nodes k)
    ∧ ((b1_distq_node_queue s n t d).peers = s.peers) := by
  unfold b1_distq_node_queue
  rw [hw]
  simp only [Bool.false_eq_true, if_false, setTx_peers, setNode_peers, hin]
  refine ⟨?_, ?_, ?_, ?_, trivial⟩
  · simp
  · intro t' ht'
    simp [State.setTx, State.setNode, Function.update, ht']
  · simp
  · intro k hk
    simp [State.setTx, State.setNode, Function.update, hk]

/-- Field-level description of node_commit with a transaction present. -/
theorem node_commit_chars (s : State) (n : NodeId) (d : PeerId) (t : TxId)
    (htx : (s.nodes n).tx = some t) :
    ((b1_distq_node_commit s n d).txs = s.txs)
    ∧ ((b1_distq_node_commit s n d).nodes = s.nodes)
    ∧ (∀ q, q ≠ d → (b1_distq_node_commit s n d).peers q = s.peers q)
    ∧ ((b1_distq_node_commit s n d).peers d
        = { s.peers d with
            n_committed := (s.peers d).n_committed + 1
            clock := b1_distq_ts_force_sync ((s.peers d).clock)
              ((s.txs t).timestamp + 1) }) := by
  unfold b1_distq_node_commit
  rw [htx]
  refine ⟨rfl, rfl, ?_, by simp⟩
  intro q hq
  rw [setPeer_peers_other _ _ hq, setPeer_peers_other _ _ hq]

/- ------------------------------------------------------------------ -/
/- Invariant preservation: producer operations.                       -/
/- ------------------------------------------------------------------ -/

/-- tx_commit keeps the invariant (it only raises the timestamp of one
transaction). -/
theorem Inv_txCommit (s : State) (t : TxId) (p : PeerId) (h : Inv s) :
    Inv (b1_distq_tx_commit s t p) := by
  unfold b1_distq_tx_commit
  have hmono : ∀ t', (s.txs t').timestamp ≤
      ((s.setTx t { s.txs t with timestamp := b1_distq_ts_force_sync (s.txs t).timestamp (s.peers p).clock + 1 }).txs t').timestamp := by
    intro t'
    by_cases ht' : t' = t
    · rw [ht']
      simp only [setTx_txs_self]
      have := ts_force_sync_ge ((s.txs t).timestamp) ((s.peers p).clock)
      omega
    · rw [setTx_txs_other _ _ ht']
  exact {
    tx_pos := fun t' => le_trans (h.tx_pos t') (hmono t')
    node_ts0 := h.node_ts0
    local_pos := h.local_pos
    local_le_clock := h.local_le_clock
    local_even := h.local_even
    clock_even := h.clock_even
    chain_tx := h.chain_tx
    chain_floor := fun q x hx t' ht' =>
      le_trans (h.chain_floor q x hx t' ht') (hmono t')
    chain_ts0 := h.chain_ts0
    ready_tx := h.ready_tx
    ready_comm := h.ready_comm
    ready_pos := h.ready_pos
    ready_pair := h.ready_pair
    nodup := h.nodup
    disjoint := h.disjoint }

/-- node_commit keeps the invariant when the transaction of the node is
already committed (the settle-phase contract): the clock target is then even
and the clock stays even, non-negative and above local. -/
theorem Inv_nodeCommit (s : State) (n : NodeId) (d : PeerId)
    (hleg : legalOp s (Op.nodeCommit n d) = true) (h : Inv s) :
    Inv (b1_distq_node_commit s n d) := by
  cases htx : (s.nodes n).tx with
  | none =>
    unfold b1_distq_node_commit
    rw [htx]
    exact h
  | some t =>
    have hco : b1_distq_ts_committed ((s.txs t).timestamp) = true := by
      simp only [legalOp, htx] at hleg
      exact hleg
    obtain ⟨hctx, hcnodes, hcq, hcd⟩ := node_commit_chars s n d t htx
    have hcl : ((b1_distq_node_commit s n d).peers d).clock
        = max ((s.peers d).clock) ((s.txs t).timestamp + 1) := by
      rw [hcd]
      exact ts_force_sync_tentative
        ((ts_not_committed_iff _).mpr (h.clock_even d)) _
    have hqueue : ∀ q, ((b1_distq_node_commit s n d).peers q).queue
        = (s.peers q).queue := by
      intro q
      by_cases hq : q = d
      · rw [hq, hcd]
      · rw [hcq q hq]
    have hlocal : ∀ q, ((b1_distq_node_commit s n d).peers q).localTs
        = (s.peers q).localTs := by
      intro q
      by_cases hq : q = d
      · rw [hq, hcd]
      · rw [hcq q hq]
    have hchain : ∀ q, chainNodes (b1_distq_node_commit s n d) q
        = chainNodes s q := by
      intro q
      unfold chainNodes
      rw [hqueue q]
    have hall : ∀ q, allNodes (b1_distq_node_commit s n d) q
        = allNodes s q := by
      intro q
      unfold allNodes
      rw [hchain q, hqueue q]
    have hcomm1 : (s.txs t).timestamp % 2 = 1 :=
      (ts_committed_iff _).mp hco
    exact {
      tx_pos := fun t' => by rw [hctx]; exact h.tx_pos t'
      node_ts0 := fun k hk => by
        rw [hcnodes] at hk ⊢
        exact h.node_ts0 k hk
      local_pos := fun q => by rw [hlocal q]; exact h.local_pos q
      local_le_clock := fun q => by
        rw [hlocal q]
        by_cases hq : q = d
        · rw [hq, hcl]
          exact le_trans (h.local_le_clock d) (le_max_left _ _)
        · rw [hcq q hq]
          exact h.local_le_clock q
      local_even := fun q => by rw [hlocal q]; exact h.local_even q
      clock_even := fun q => by
        by_cases hq : q = d
        · rw [hq, hcl]
          have h1 := h.clock_even d
          rcases max_cases ((s.peers d).clock)
            ((s.txs t).timestamp + 1) with ⟨he, _⟩ | ⟨he, _⟩ <;>
            rw [he] <;> omega
        · rw [hcq q hq]
          exact h.clock_even q
      chain_tx := fun q x hx => by
        rw [hcnodes]
        exact h.chain_tx q x (by rwa [hchain q] at hx)
      chain_floor := fun q x hx t' ht' => by
        rw [hctx, hlocal q]
        rw [hcnodes] at ht'
        exact h.chain_floor q x (by rwa [hchain q] at hx) t' ht'
      chain_ts0 := fun q x hx => by
        rw [hcnodes]
        exact h.chain_ts0 q x (by rwa [hchain q] at hx)
      ready_tx := fun q x hx => by
        rw [hcnodes]
        exact h.ready_tx q x (by rwa [hqueue q] at hx)
      ready_comm := fun q x hx => by
        rw [hcnodes]
        exact h.ready_comm q x (by rwa [hqueue q] at hx)
      ready_pos := fun q x hx => by
        rw [hcnodes]
        exact h.ready_pos q x (by rwa [hqueue q] at hx)
      ready_pair := fun q => by
        rw [tsLe_eq_of_nodes hcnodes, hqueue q]
        exact h.ready_pair q
      nodup := fun q => by rw [hall q]; exact h.nodup q
      disjoint := fun a b hab x hx hx' => by
        rw [hall] at hx hx'
        exact h.disjoint a b hab x hx hx' }


/-- queue keeps the invariant under its contract: the node is fresh (no tx,
not linked) and the transaction is still tentative. -/
theorem Inv_queue (s : State) (n : NodeId) (t : TxId) (d : PeerId)
    (htxn : (s.nodes n).tx = none)
    (hnq : (s.nodes n).next_queue = Link.null)
    (htent : b1_distq_ts_committed ((s.txs t).timestamp) = false)
    (h : Inv s) : Inv (b1_distq_node_queue s n t d) := by
  have hw : b1_distq_node_queue_warns s n = false := by
    simp [b1_distq_node_queue_warns, htxn, hnq]
  have hts0 : (s.nodes n).timestamp = 0 := h.node_ts0 n htxn
  have hnotin : ∀ q, n ∉ allNodes s q := by
    intro q hmem
    unfold allNodes at hmem
    rcases List.mem_append.mp hmem with h2 | h2
    · exact h.chain_tx q n h2 htxn
    · exact h.ready_tx q n h2 htxn
  have hnotchain : ∀ q, n ∉ chainNodes s q := by
    intro q hmem
    exact hnotin q (List.mem_append.mpr (Or.inl hmem))
  have hnotready : ∀ q, n ∉ (s.peers q).queue.ready := by
    intro q hmem
    exact hnotin q (List.mem_append.mpr (Or.inr hmem))
  cases hin : (s.peers d).queue.incoming with
  | none =>
    obtain ⟨hct, hct', hcn, hcn', hcp⟩ := queue_closed_chars s n t d hw hin
    have htseq : ∀ k, ((b1_distq_node_queue s n t d).nodes k).timestamp
        = (s.nodes k).timestamp := by
      intro k
      by_cases hk : k = n
      · rw [hk, hcn]
      · rw [hcn' k hk]
    have htxeq : ∀ t', ((b1_distq_node_queue s n t d).txs t').timestamp
        = (s.txs t').timestamp := by
      intro t'
      by_cases ht' : t' = t
      · rw [ht', hct]
      · rw [hct' t' ht']
    have hchain : ∀ q, chainNodes (b1_distq_node_queue s n t d) q
        = chainNodes s q := by
      intro q
      unfold chainNodes
      rw [hcp]
    have hall : ∀ q, allNodes (b1_distq_node_queue s n t d) q
        = allNodes s q := by
      intro q
      unfold allNodes
      rw [hchain q, hcp]
    have hmemtx : ∀ q k, k ∈ allNodes s q →
        ((b1_distq_node_queue s n t d).nodes k).tx = (s.nodes k).tx := by
      intro q k hk
      have hkn : k ≠ n := fun he => hnotin q (he ▸ hk)
      rw [hcn' k hkn]
    exact {
      tx_pos := fun t' => by rw [htxeq t']; exact h.tx_pos t'
      node_ts0 := fun k hk => by
        by_cases hkn : k = n
        · rw [hkn, hcn] at hk
          cases hk
        · rw [hcn' k hkn] at hk ⊢
          exact h.node_ts0 k hk
      local_pos := fun q => by rw [hcp]; exact h.local_pos q
      local_le_clock := fun q => by rw [hcp]; exact h.local_le_clock q
      local_even := fun q => by rw [hcp]; exact h.local_even q
      clock_even := fun q => by rw [hcp]; exact h.clock_even q
      chain_tx := fun q x hx => by
        rw [hchain q] at hx
        rw [hmemtx q x (List.mem_append.mpr (Or.inl hx))]
        exact h.chain_tx q x hx
      chain_floor := fun q x hx t' ht' => by
        rw [hchain q] at hx
        rw [hmemtx q x (List.mem_append.mpr (Or.inl hx))] at ht'
        rw [hcp, htxeq t']
        exact h.chain_floor q x hx t' ht'
      chain_ts0 := fun q x hx => by
        rw [hchain q] at hx
        rw [htseq x]
        exact h.chain_ts0 q x hx
      ready_tx := fun q x hx => by
        rw [hcp] at hx
        rw [hmemtx q x (List.mem_append.mpr (Or.inr hx))]
        exact h.ready_tx q x hx
      ready_comm := fun q x hx => by
        rw [hcp] at hx
        rw [htseq x]
        exact h.ready_comm q x hx
      ready_pos := fun q x hx => by
        rw [hcp] at hx
        rw [htseq x]
        exact h.ready_pos q x hx
      ready_pair := fun q => by
        rw [hcp]
        exact pairwise_tsLe_congr (fun x _ => htseq x) (h.ready_pair q)
      nodup := fun q => by rw [hall q]; exact h.nodup q
      disjoint := fun a b hab x hx hx' => by
        rw [hall] at hx hx'
        exact h.disjoint a b hab x hx hx' }
  | some l =>
    obtain ⟨hct, hct', hcn, hcn', hcq, hcd⟩ := queue_open_chars s n t d l hw hin
    have hvmax : ((b1_distq_node_queue s n t d).txs t).timestamp
        = max ((s.txs t).timestamp) ((s.peers d).clock) := by
      rw [hct]
      exact ts_force_sync_tentative htent _
    have htseq : ∀ k, ((b1_distq_node_queue s n t d).nodes k).timestamp
        = (s.nodes k).timestamp := by
      intro k
      by_cases hk : k = n
      · rw [hk, hcn]
      · rw [hcn' k hk]
    have htxmono : ∀ t', (s.txs t').timestamp
        ≤ ((b1_distq_node_queue s n t d).txs t').timestamp := by
      intro t'
      by_cases ht' : t' = t
      · rw [ht', hvmax]
        exact le_max_left _ _
      · rw [hct' t' ht']
    have hpeer : ∀ q, ((b1_distq_node_queue s n t d).peers q).clock
          = (s.peers q).clock
        ∧ ((b1_distq_node_queue s n t d).peers q).localTs
          = (s.peers q).localTs
        ∧ ((b1_distq_node_queue s n t d).peers q).queue.busy
          = (s.peers q).queue.busy
        ∧ ((b1_distq_node_queue s n t d).peers q).queue.ready
          = (s.peers q).queue.ready := by
      intro q
      by_cases hq : q = d
      · rw [hq, hcd]
        exact ⟨rfl, rfl, rfl, rfl⟩
      · rw [hcq q hq]
        exact ⟨rfl, rfl, rfl, rfl⟩
    have hchain : ∀ q, q ≠ d → chainNodes (b1_distq_node_queue s n t d) q
        = chainNodes s q := by
      intro q hq
      unfold chainNodes
      rw [hcq q hq]
    have hchaind : chainNodes (b1_distq_node_queue s n t d) d
        = n :: chainNodes s d := by
      unfold chainNodes
      rw [hcd, hin]
      rfl
    have halld : allNodes (b1_distq_node_queue s n t d) d
        = n :: allNodes s d := by
      unfold allNodes
      rw [hchaind, (hpeer d).2.2.2]
      rfl
    have hallq : ∀ q, q ≠ d → allNodes (b1_distq_node_queue s n t d) q
        = allNodes s q := by
      intro q hq
      unfold allNodes
      rw [hchain q hq, hcq q hq]
    have hmemtx : ∀ q k, k ∈ allNodes s q →
        ((b1_distq_node_queue s n t d).nodes k).tx = (s.nodes k).tx := by
      intro q k hk
      have hkn : k ≠ n := fun he => hnotin q (he ▸ hk)
      rw [hcn' k hkn]
    exact {
      tx_pos := fun t' => le_trans (h.tx_pos t') (htxmono t')
      node_ts0 := fun k hk => by
        by_cases hkn : k = n
        · rw [hkn, hcn] at hk
          cases hk
        · rw [hcn' k hkn] at hk ⊢
          exact h.node_ts0 k hk
      local_pos := fun q => by rw [(hpeer q).2.1]; exact h.local_pos q
      local_le_clock := fun q => by
        rw [(hpeer q).2.1, (hpeer q).1]
        exact h.local_le_clock q
      local_even := fun q => by rw [(hpeer q).2.1]; exact h.local_even q
      clock_even := fun q => by rw [(hpeer q).1]; exact h.clock_even q
      chain_tx := fun q x hx => by
        by_cases hq : q = d
        · rw [hq, hchaind] at hx
          rcases List.mem_cons.mp hx with rfl | hx2
          · rw [hcn]
            exact Option.some_ne_none t
          · rw [hmemtx d x (List.mem_append.mpr (Or.inl hx2))]
            exact h.chain_tx d x hx2
        · rw [hchain q hq] at hx
          rw [hmemtx q x (List.mem_append.mpr (Or.inl hx))]
          exact h.chain_tx q x hx
      chain_floor := fun q x hx t' ht' => by
        rw [(hpeer q).2.1]
        by_cases hq : q = d
        · rw [hq] at hx ⊢
          rw [hchaind] at hx
          rcases List.mem_cons.mp hx with rfl | hx2
          · rw [hcn] at ht'
            cases ht'
            rw [hvmax]
            exact le_trans (h.local_le_clock d) (le_max_right _ _)
          · rw [hmemtx d x (List.mem_append.mpr (Or.inl hx2))] at ht'
            exact le_trans (h.chain_floor d x hx2 t' ht') (htxmono t')
        · rw [hchain q hq] at hx
          rw [hmemtx q x (List.mem_append.mpr (Or.inl hx))] at ht'
          exact le_trans (h.chain_floor q x hx t' ht') (htxmono t')
      chain_ts0 := fun q x hx => by
        rw [htseq x]
        by_cases hq : q = d
        · rw [hq, hchaind] at hx
          rcases List.mem_cons.mp hx with rfl | hx2
          · exact hts0
          · exact h.chain_ts0 d x hx2
        · rw [hchain q hq] at hx
          exact h.chain_ts0 q x hx
      ready_tx := fun q x hx => by
        rw [(hpeer q).2.2.2] at hx
        rw [hmemtx q x (List.mem_append.mpr (Or.inr hx))]
        exact h.ready_tx q x hx
      ready_comm := fun q x hx => by
        rw [(hpeer q).2.2.2] at hx
        rw [htseq x]
        exact h.ready_comm q x hx
      ready_pos := fun q x hx => by
        rw [(hpeer q).2.2.2] at hx
        rw [htseq x]
        exact h.ready_pos q x hx
      ready_pair := fun q => by
        rw [(hpeer q).2.2.2]
        exact pairwise_tsLe_congr (fun x _ => htseq x) (h.ready_pair q)
      nodup := fun q => by
        by_cases hq : q = d
        · rw [hq, halld]
          exact List.nodup_cons.mpr ⟨hnotin d, h.nodup d⟩
        · rw [hallq q hq]
          exact h.nodup q
      disjoint := fun a b hab x hx hx' => by
        by_cases ha : a = d
        · by_cases hb : b = d
          · exact absurd (ha.trans hb.symm) hab
          · rw [ha, halld] at hx
            rw [hallq b hb] at hx'
            rcases List.mem_cons.mp hx with rfl | hx2
            · exact hnotin b hx'
            · exact h.disjoint d b (ha ▸ hab) x hx2 hx'
        · rw [hallq a ha] at hx
          by_cases hb : b = d
          · rw [hb, halld] at hx'
            rcases List.mem_cons.mp hx' with rfl | hx2
            · exact hnotin a hx
            · exact h.disjoint a d (hb ▸ hab) x hx hx2
          · rw [hallq b hb] at hx'
            exact h.disjoint a b hab x hx hx' }


/- ------------------------------------------------------------------ -/
/- Glue for the two-pass maintenance loops.                           -/
/- ------------------------------------------------------------------ -/

theorem rethread_nodes_out (l : List NodeId) : ∀ (s : State) (k : NodeId),
    k ∉ l → (rethread s l).nodes k = s.nodes k := by
  induction l with
  | nil => intro s k _; rfl
  | cons n rest ih =>
    intro s k hk
    have hkn : k ≠ n := fun h => hk (h ▸ List.mem_cons_self n rest)
    have hkr : k ∉ rest := fun h => hk (List.mem_cons_of_mem n h)
    cases rest with
    | nil =>
      simp only [rethread]
      exact setNode_nodes_other _ _ hkn
    | cons m rest2 =>
      simp only [rethread]
      rw [ih _ k hkr]
      exact setNode_nodes_other _ _ hkn

/-- Total container content is preserved by the two-pass maintenance: the
kept chains plus the final ready tree permute the original incoming, busy
and ready content. -/
theorem maintain_perm {incL busyL ready0 keptA promsA keptB promsB ready2 :
      List NodeId}
    (h1 : busyL.Perm (keptA ++ promsA))
    (h2 : incL.Perm (keptB ++ promsB))
    (h3 : ready2.Perm (promsB ++ (promsA ++ ready0))) :
    ((keptA ++ keptB) ++ ready2).Perm ((incL ++ busyL) ++ ready0) := by
  rw [← Multiset.coe_eq_coe] at h1 h2 h3 ⊢
  simp only [← Multiset.coe_add] at h1 h2 h3 ⊢
  rw [h1, h2, h3]
  ac_rfl


/-- Gluing the two prefetch walks, the incoming drain, the busy rebuild and
the rethreading into the caller-visible effect of a full prefetch. -/
theorem maintain_glue_pref (p : PeerId) (s sA s2 sB s3 s' : State)
    (busyL incL keptA keptB : List NodeId)
    (hInv : Inv s)
    (hchain_eq : chainNodes s p = incL ++ busyL)
    (specA : PrefOut p s sA busyL keptA)
    (hs2t : s2.txs = sA.txs)
    (hs2n : s2.nodes = sA.nodes)
    (hs2q : ∀ q, q ≠ p → s2.peers q = sA.peers q)
    (hs2p : s2.peers p = { sA.peers p with queue :=
        { (sA.peers p).queue with incoming := some [] } })
    (specB : PrefOut p s2 sB incL keptB)
    (hs3t : s3.txs = sB.txs)
    (hs3n : s3.nodes = sB.nodes)
    (hs3q : ∀ q, q ≠ p → s3.peers q = sB.peers q)
    (hs3p : s3.peers p = { sB.peers p with queue :=
        { (sB.peers p).queue with busy := some (keptA ++ keptB) } })
    (hs' : s' = rethread s3 (keptA ++ keptB)) :
    MOut p s s'
    ∧ (s'.peers p).localTs = (s.peers p).localTs
    ∧ (s'.peers p).clock = (s.peers p).clock
    ∧ s'.txs = s.txs
    ∧ (s'.peers p).queue.incoming = some [] := by
  have hndall : ((incL ++ busyL) ++ (s.peers p).queue.ready).Nodup := by
    have h0 := hInv.nodup p
    unfold allNodes at h0
    rwa [hchain_eq] at h0
  obtain ⟨hndchain, hndr0, hdisj_cr⟩ := List.nodup_append.mp hndall
  obtain ⟨hndinc, hndbusy, hdisj_ib⟩ := List.nodup_append.mp hndchain
  have hbusy_mem : ∀ x ∈ busyL, x ∈ chainNodes s p := by
    rw [hchain_eq]
    exact fun x hx => List.mem_append.mpr (Or.inr hx)
  have hinc_mem : ∀ x ∈ incL, x ∈ chainNodes s p := by
    rw [hchain_eq]
    exact fun x hx => List.mem_append.mpr (Or.inl hx)
  obtain ⟨promsA, hrpA, hlpA, hsubA⟩ := specA.ready_perm
  obtain ⟨promsB, hrpB, hlpB, hsubB⟩ := specB.ready_perm
  have hreadys2 : (s2.peers p).queue.ready = (sA.peers p).queue.ready := by
    rw [hs2p]
  rw [hreadys2] at hrpB
  have hrB : ((sB.peers p).queue.ready).Perm
      (promsB ++ (promsA ++ (s.peers p).queue.ready)) :=
    hrpB.trans (List.Perm.append_left promsB hrpA)
  have hfp : s'.peers = s3.peers := by
    rw [hs']
    exact rethread_peers _ _
  have hfpp : s'.peers p = { sB.peers p with queue :=
      { (sB.peers p).queue with busy := some (keptA ++ keptB) } } := by
    rw [hfp, hs3p]
  have hfq : ∀ q, q ≠ p → s'.peers q = s.peers q := fun q hq => by
    rw [hfp, hs3q q hq, specB.peers_other q hq, hs2q q hq,
      specA.peers_other q hq]
  have hftx : s'.txs = s.txs := by
    rw [hs', rethread_txs, hs3t, specB.txs_eq, hs2t, specA.txs_eq]
  have hfn_ts : ∀ k, (s'.nodes k).timestamp = (sB.nodes k).timestamp := by
    intro k
    rw [hs', (rethread_nodes _ _ k).1, hs3n]
  have hfn_tx : ∀ k, (s'.nodes k).tx = (s.nodes k).tx := by
    intro k
    rw [hs', (rethread_nodes _ _ k).2.1, hs3n, specB.node_tx k, hs2n,
      specA.node_tx k]
  have hfn_refs : ∀ k, (s'.nodes k).n_refs = (s.nodes k).n_refs := by
    intro k
    rw [hs', (rethread_nodes _ _ k).2.2, hs3n, specB.node_refs k, hs2n,
      specA.node_refs k]
  have hclockf : (s'.peers p).clock = (s.peers p).clock := by
    rw [hfpp]
    show (sB.peers p).clock = _
    rw [specB.clock_eq, hs2p]
    show (sA.peers p).clock = _
    rw [specA.clock_eq]
  have hlocalf : (s'.peers p).localTs = (s.peers p).localTs := by
    rw [hfpp]
    show (sB.peers p).localTs = _
    rw [specB.local_eq, hs2p]
    show (sA.peers p).localTs = _
    rw [specA.local_eq]
  have hncommf : (s'.peers p).n_committed = (s.peers p).n_committed := by
    rw [hfpp]
    show (sB.peers p).n_committed = _
    rw [specB.ncomm_eq, hs2p]
    show (sA.peers p).n_committed = _
    rw [specA.ncomm_eq]
  have hincf : (s'.peers p).queue.incoming = some [] := by
    rw [hfpp]
    show (sB.peers p).queue.incoming = _
    rw [specB.incoming_eq, hs2p]
  have hreadyf : (s'.peers p).queue.ready = (sB.peers p).queue.ready := by
    rw [hfpp]
  have hchainf : chainNodes s' p = keptA ++ keptB := by
    unfold chainNodes
    rw [hincf]
    have : (s'.peers p).queue.busy = some (keptA ++ keptB) := by
      rw [hfpp]
    rw [this]
    rfl
  have hoff : ∀ k, k ∉ busyL → k ∉ incL → sB.nodes k = s.nodes k := by
    intro k h1 h2
    rw [specB.nodes_out k h2, hs2n, specA.nodes_out k h1]
  have hofffull : ∀ k, k ∉ busyL → k ∉ incL → k ∉ keptA ++ keptB →
      s'.nodes k = s.nodes k := by
    intro k h1 h2 h3
    rw [hs', rethread_nodes_out _ _ k h3, hs3n, hoff k h1 h2]
  have hkts : ∀ x ∈ keptA ++ keptB, (s'.nodes x).timestamp = 0 := by
    intro x hx
    rw [hfn_ts x]
    rcases List.mem_append.mp hx with hxa | hxb
    · have hxbusy := specA.kept_sub x hxa
      have hxninc : x ∉ incL := fun h2 => hdisj_ib h2 hxbusy
      rw [specB.nodes_out x hxninc, hs2n]
      exact specA.kept_ts x hxa
    · exact specB.kept_ts x hxb
  have hrBmem : ∀ x ∈ (sB.peers p).queue.ready,
      x ∈ promsB ∨ x ∈ promsA ∨ x ∈ (s.peers p).queue.ready := by
    intro x hx
    have h2 := hrB.mem_iff.mp hx
    rcases List.mem_append.mp h2 with h3 | h3
    · exact Or.inl h3
    · rcases List.mem_append.mp h3 with h4 | h4
      · exact Or.inr (Or.inl h4)
      · exact Or.inr (Or.inr h4)
  have hnot_in_walked : ∀ q, q ≠ p → ∀ x, x ∈ allNodes s q →
      x ∉ busyL ∧ x ∉ incL := by
    intro q hq x hx
    constructor
    · intro hm
      exact hInv.disjoint q p hq x hx
        (List.mem_append.mpr (Or.inl (hbusy_mem x hm)))
    · intro hm
      exact hInv.disjoint q p hq x hx
        (List.mem_append.mpr (Or.inl (hinc_mem x hm)))
  have hfloor : ∀ B,
      (∀ n ∈ incL ++ busyL, ∀ t, (s.nodes n).tx = some t →
        B ≤ (s.txs t).timestamp) →
      (∀ x ∈ (s.peers p).queue.ready, B ≤ (s.nodes x).timestamp) →
      ∀ x ∈ (sB.peers p).queue.ready, B ≤ (sB.nodes x).timestamp := by
    intro B hB hr
    have midA := specA.ready_floor B
      (fun n hn t ht => hB n (List.mem_append.mpr (Or.inr hn)) t ht) hr
    refine specB.ready_floor B ?_ ?_
    · intro n hn t ht
      rw [hs2n] at ht
      have hnb : n ∉ busyL := fun h2 => hdisj_ib hn h2
      rw [specA.nodes_out n hnb] at ht
      have he : s2.txs t = s.txs t := by rw [hs2t, specA.txs_eq]
      rw [he]
      exact hB n (List.mem_append.mpr (Or.inl hn)) t ht
    · intro x hx
      rw [hreadys2] at hx
      rw [hs2n]
      exact midA x hx
  have hpB : List.Pairwise (tsLe sB) ((sB.peers p).queue.ready) := by
    have hpA := specA.ready_pair (hInv.ready_pair p)
    have hp2 : List.Pairwise (tsLe s2) ((s2.peers p).queue.ready) := by
      rw [hreadys2]
      exact pairwise_tsLe_congr (fun x _ => by rw [hs2n]) hpA
    exact specB.ready_pair hp2
  have hInvf : Inv s' := {
    tx_pos := fun t => by rw [hftx]; exact hInv.tx_pos t
    node_ts0 := fun k hk => by
      rw [hfn_tx k] at hk
      have h1 : k ∉ busyL := fun hm => hInv.chain_tx p k (hbusy_mem k hm) hk
      have h2 : k ∉ incL := fun hm => hInv.chain_tx p k (hinc_mem k hm) hk
      rw [hfn_ts k, specB.nodes_out k h2, hs2n, specA.nodes_out k h1]
      exact hInv.node_ts0 k hk
    local_pos := fun q => by
      by_cases hq : q = p
      · rw [hq, hlocalf]; exact hInv.local_pos p
      · rw [hfq q hq]; exact hInv.local_pos q
    local_le_clock := fun q => by
      by_cases hq : q = p
      · rw [hq, hlocalf, hclockf]; exact hInv.local_le_clock p
      · rw [hfq q hq]; exact hInv.local_le_clock q
    local_even := fun q => by
      by_cases hq : q = p
      · rw [hq, hlocalf]; exact hInv.local_even p
      · rw [hfq q hq]; exact hInv.local_even q
    clock_even := fun q => by
      by_cases hq : q = p
      · rw [hq, hclockf]; exact hInv.clock_even p
      · rw [hfq q hq]; exact hInv.clock_even q
    chain_tx := fun q x hx => by
      rw [hfn_tx x]
      by_cases hq : q = p
      · rw [hq, hchainf] at hx
        rcases List.mem_append.mp hx with h1 | h1
        · exact hInv.chain_tx p x (hbusy_mem x (specA.kept_sub x h1))
        · exact hInv.chain_tx p x (hinc_mem x (specB.kept_sub x h1))
      · have hcq : chainNodes s' q = chainNodes s q := by
          unfold chainNodes
          rw [hfq q hq]
        rw [hcq] at hx
        exact hInv.chain_tx q x hx
    chain_floor := fun q x hx t ht => by
      rw [hfn_tx x] at ht
      have htv : (s'.txs t).timestamp = (s.txs t).timestamp := by rw [hftx]
      rw [htv]
      by_cases hq : q = p
      · rw [hq, hlocalf]
        rw [hq, hchainf] at hx
        rcases List.mem_append.mp hx with h1 | h1
        · exact hInv.chain_floor p x (hbusy_mem x (specA.kept_sub x h1)) t ht
        · exact hInv.chain_floor p x (hinc_mem x (specB.kept_sub x h1)) t ht
      · have hcq : chainNodes s' q = chainNodes s q := by
          unfold chainNodes
          rw [hfq q hq]
        rw [hcq] at hx
        rw [hfq q hq]
        exact hInv.chain_floor q x hx t ht
    chain_ts0 := fun q x hx => by
      by_cases hq : q = p
      · rw [hq, hchainf] at hx
        exact hkts x hx
      · have hcq : chainNodes s' q = chainNodes s q := by
          unfold chainNodes
          rw [hfq q hq]
        rw [hcq] at hx
        have hxall : x ∈ allNodes s q :=
          List.mem_append.mpr (Or.inl hx)
        obtain ⟨h1, h2⟩ := hnot_in_walked q hq x hxall
        rw [hfn_ts x, hoff x h1 h2]
        exact hInv.chain_ts0 q x hx
    ready_tx := fun q x hx => by
      rw [hfn_tx x]
      by_cases hq : q = p
      · rw [hq, hreadyf] at hx
        rcases hrBmem x hx with h1 | h1 | h1
        · exact hInv.chain_tx p x (hinc_mem x (hsubB x h1))
        · exact hInv.chain_tx p x (hbusy_mem x (hsubA x h1))
        · exact hInv.ready_tx p x h1
      · rw [hfq q hq] at hx
        exact hInv.ready_tx q x hx
    ready_comm := fun q x hx => by
      by_cases hq : q = p
      · rw [hq, hreadyf] at hx
        rw [hfn_ts x]
        exact specB.ready_comm x hx
      · rw [hfq q hq] at hx
        have hxall : x ∈ allNodes s q :=
          List.mem_append.mpr (Or.inr hx)
        obtain ⟨h1, h2⟩ := hnot_in_walked q hq x hxall
        rw [hfn_ts x, hoff x h1 h2]
        exact hInv.ready_comm q x hx
    ready_pos := fun q x hx => by
      by_cases hq : q = p
      · rw [hq, hreadyf] at hx
        rw [hfn_ts x]
        exact hfloor 0 (fun n _ t _ => hInv.tx_pos t) (hInv.ready_pos p)
          x hx
      · rw [hfq q hq] at hx
        have hxall : x ∈ allNodes s q :=
          List.mem_append.mpr (Or.inr hx)
        obtain ⟨h1, h2⟩ := hnot_in_walked q hq x hxall
        rw [hfn_ts x, hoff x h1 h2]
        exact hInv.ready_pos q x hx
    ready_pair := fun q => by
      by_cases hq : q = p
      · rw [hq, hreadyf]
        exact pairwise_tsLe_congr (fun x _ => hfn_ts x) hpB
      · rw [hfq q hq]
        refine pairwise_tsLe_congr (fun x hx => ?_) (hInv.ready_pair q)
        have hxall : x ∈ allNodes s q :=
          List.mem_append.mpr (Or.inr hx)
        obtain ⟨h1, h2⟩ := hnot_in_walked q hq x hxall
        rw [hfn_ts x, hoff x h1 h2]
    nodup := fun q => by
      by_cases hq : q = p
      · rw [hq]
        unfold allNodes
        rw [hchainf, hreadyf]
        exact ((maintain_perm hlpA hlpB hrB).nodup_iff).mpr hndall
      · unfold allNodes
        have hcq : chainNodes s' q = chainNodes s q := by
          unfold chainNodes
          rw [hfq q hq]
        rw [hcq, hfq q hq]
        exact hInv.nodup q
    disjoint := fun a b hab x hx hx' => by
      have hmap : ∀ c, ∀ y, y ∈ allNodes s' c → y ∈ allNodes s c := by
        intro c y hy
        by_cases hc : c = p
        · rw [hc] at hy ⊢
          unfold allNodes at hy ⊢
          rw [hchainf, hreadyf] at hy
          have h2 := (maintain_perm hlpA hlpB hrB).mem_iff.mp hy
          rw [hchain_eq]
          exact h2
        · unfold allNodes at hy ⊢
          have hcq : chainNodes s' c = chainNodes s c := by
            unfold chainNodes
            rw [hfq c hc]
          rw [hcq, hfq c hc] at hy
          exact hy
      exact hInv.disjoint a b hab x (hmap a x hx) (hmap b x hx') }
  refine ⟨{
    inv := hInvf
    tx_mono := fun t => by rw [hftx]
    tx_tent := fun t h2 => by rw [hftx]; exact h2
    tx_comm := fun t _ => by rw [hftx]
    peers_other := hfq
    clock_mono := by rw [hclockf]
    local_mono := by rw [hlocalf]
    ncomm_eq := hncommf
    node_tx := hfn_tx
    node_refs := hfn_refs
    ts_out := fun x hx => by
      have h1 : x ∉ busyL := fun hm => hx (hbusy_mem x hm)
      have h2 : x ∉ incL := fun hm => hx (hinc_mem x hm)
      rw [hfn_ts x, hoff x h1 h2]
    chain_sub := fun x hx => by
      rw [hchainf] at hx
      rcases List.mem_append.mp hx with h1 | h1
      · exact hbusy_mem x (specA.kept_sub x h1)
      · exact hinc_mem x (specB.kept_sub x h1)
    floor := fun B hBl hr x hx => by
      rw [hreadyf] at hx
      rw [hfn_ts x]
      refine hfloor B ?_ hr x hx
      intro n hn t ht
      exact le_trans hBl
        (hInv.chain_floor p n (by rw [hchain_eq]; exact hn) t ht)
    ready_old_sub := fun x hx => by
      rw [hreadyf]
      have h1 : x ∈ (sA.peers p).queue.ready :=
        hrpA.mem_iff.mpr (List.mem_append.mpr (Or.inr hx))
      exact hrpB.mem_iff.mpr (List.mem_append.mpr (Or.inr h1))
    nodes_ready_old := fun x hx => by
      have hxb : x ∉ busyL := fun hm =>
        hdisj_cr (List.mem_append.mpr (Or.inr hm)) hx
      have hxi : x ∉ incL := fun hm =>
        hdisj_cr (List.mem_append.mpr (Or.inl hm)) hx
      have hxkept : x ∉ keptA ++ keptB := fun hm => by
        rcases List.mem_append.mp hm with h1 | h1
        · exact hxb (specA.kept_sub x h1)
        · exact hxi (specB.kept_sub x h1)
      exact hofffull x hxb hxi hxkept
    }, hlocalf, hclockf, hftx, hincf⟩


/-- The caller-visible effect of b1_distq_peer_prefetch. -/
theorem prefetch_op_spec (s : State) (p : PeerId) (h : Inv s) :
    MOut p s (b1_distq_peer_prefetch s p)
    ∧ ((b1_distq_peer_prefetch s p).peers p).localTs = (s.peers p).localTs
    ∧ ((b1_distq_peer_prefetch s p).peers p).clock = (s.peers p).clock
    ∧ (b1_distq_peer_prefetch s p).txs = s.txs
    ∧ ((b1_distq_peer_prefetch s p).peers p).queue.incoming = some [] := by
  have hchain_eq : chainNodes s p
      = (s.peers p).queue.incoming.getD []
        ++ (s.peers p).queue.busy.getD [] := rfl
  have hndall : (((s.peers p).queue.incoming.getD []
      ++ (s.peers p).queue.busy.getD [])
      ++ (s.peers p).queue.ready).Nodup := by
    have h0 := h.nodup p
    unfold allNodes at h0
    rwa [hchain_eq] at h0
  obtain ⟨hndchain, hndr0, hdisj_cr⟩ := List.nodup_append.mp hndall
  obtain ⟨hndinc, hndbusy, hdisj_ib⟩ := List.nodup_append.mp hndchain
  have hbusy_mem : ∀ x ∈ (s.peers p).queue.busy.getD [],
      x ∈ chainNodes s p := by
    rw [hchain_eq]
    exact fun x hx => List.mem_append.mpr (Or.inr hx)
  have hinc_mem : ∀ x ∈ (s.peers p).queue.incoming.getD [],
      x ∈ chainNodes s p := by
    rw [hchain_eq]
    exact fun x hx => List.mem_append.mpr (Or.inl hx)
  have specA := prefetch_walk_spec p ((s.peers p).queue.busy.getD []) s
    hndbusy
    (fun x hx hr => hdisj_cr (List.mem_append.mpr (Or.inr hx)) hr)
    (fun x hx => h.chain_tx p x (hbusy_mem x hx))
    (fun x hx => h.chain_ts0 p x (hbusy_mem x hx))
    (h.ready_comm p)
  obtain ⟨promsA, hrpA, hlpA, hsubA⟩ := specA.ready_perm
  have specB := prefetch_walk_spec p ((s.peers p).queue.incoming.getD [])
    ((b1_distq_prefetch_walk p s ((s.peers p).queue.busy.getD [])).1.setPeer
      p { (b1_distq_prefetch_walk p s
            ((s.peers p).queue.busy.getD [])).1.peers p with queue :=
          { ((b1_distq_prefetch_walk p s
              ((s.peers p).queue.busy.getD [])).1.peers p).queue with
            incoming := some [] } })
    hndinc
    (fun x hx hr => by
      have hr2 : x ∈ ((b1_distq_prefetch_walk p s
          ((s.peers p).queue.busy.getD [])).1.peers p).queue.ready := by
        have he := setPeer_peers_self
          (b1_distq_prefetch_walk p s ((s.peers p).queue.busy.getD [])).1 p
          { (b1_distq_prefetch_walk p s
              ((s.peers p).queue.busy.getD [])).1.peers p with queue :=
            { ((b1_distq_prefetch_walk p s
                ((s.peers p).queue.busy.getD [])).1.peers p).queue with
              incoming := some [] } }
        rw [he] at hr
        exact hr
      rcases hrpA.mem_iff.mp hr2 with hm
      rcases List.mem_append.mp hm with h1 | h1
      · exact hdisj_ib hx (hsubA x h1)
      · exact hdisj_cr (List.mem_append.mpr (Or.inl hx)) h1)
    (fun x hx => by
      show ((b1_distq_prefetch_walk p s
        ((s.peers p).queue.busy.getD [])).1.nodes x).tx ≠ none
      rw [specA.nodes_out x (fun h2 => hdisj_ib hx h2)]
      exact h.chain_tx p x (hinc_mem x hx))
    (fun x hx => by
      show ((b1_distq_prefetch_walk p s
        ((s.peers p).queue.busy.getD [])).1.nodes x).timestamp = 0
      rw [specA.nodes_out x (fun h2 => hdisj_ib hx h2)]
      exact h.chain_ts0 p x (hinc_mem x hx))
    (fun x hx => by
      show b1_distq_ts_committed ((b1_distq_prefetch_walk p s
        ((s.peers p).queue.busy.getD [])).1.nodes x).timestamp = true
      refine specA.ready_comm x ?_
      have he := setPeer_peers_self
        (b1_distq_prefetch_walk p s ((s.peers p).queue.busy.getD [])).1 p
        { (b1_distq_prefetch_walk p s
            ((s.peers p).queue.busy.getD [])).1.peers p with queue :=
          { ((b1_distq_prefetch_walk p s
              ((s.peers p).queue.busy.getD [])).1.peers p).queue with
            incoming := some [] } }
      rw [he] at hx
      exact hx)
  have hfin : b1_distq_peer_prefetch s p
      = rethread ((b1_distq_prefetch_walk p ((b1_distq_prefetch_walk p s ((s.peers p).queue.busy.getD [])).1.setPeer p { (b1_distq_prefetch_walk p s ((s.peers p).queue.busy.getD [])).1.peers p with queue := { ((b1_distq_prefetch_walk p s ((s.peers p).queue.busy.getD [])).1.peers p).queue with incoming := some [] } }) ((s.peers p).queue.incoming.getD [])).1.setPeer p { (b1_distq_prefetch_walk p ((b1_distq_prefetch_walk p s ((s.peers p).queue.busy.getD [])).1.setPeer p { (b1_distq_prefetch_walk p s ((s.peers p).queue.busy.getD [])).1.peers p with queue := { ((b1_distq_prefetch_walk p s ((s.peers p).queue.busy.getD [])).1.peers p).queue with incoming := some [] } }) ((s.peers p).queue.incoming.getD [])).1.peers p with queue := { ((b1_distq_prefetch_walk p ((b1_distq_prefetch_walk p s ((s.peers p).queue.busy.getD [])).1.setPeer p { (b1_distq_prefetch_walk p s ((s.peers p).queue.busy.getD [])).1.peers p with queue := { ((b1_distq_prefetch_walk p s ((s.peers p).queue.busy.getD [])).1.peers p).queue with incoming := some [] } }) ((s.peers p).queue.incoming.getD [])).1.peers p).queue with busy := some ((b1_distq_prefetch_walk p s ((s.peers p).queue.busy.getD [])).2 ++ (b1_distq_prefetch_walk p ((b1_distq_prefetch_walk p s ((s.peers p).queue.busy.getD [])).1.setPeer p { (b1_distq_prefetch_walk p s ((s.peers p).queue.busy.getD [])).1.peers p with queue := { ((b1_distq_prefetch_walk p s ((s.peers p).queue.busy.getD [])).1.peers p).queue with incoming := some [] } }) ((s.peers p).queue.incoming.getD [])).2) } }) ((b1_distq_prefetch_walk p s ((s.peers p).queue.busy.getD [])).2 ++ (b1_distq_prefetch_walk p ((b1_distq_prefetch_walk p s ((s.peers p).queue.busy.getD [])).1.setPeer p { (b1_distq_prefetch_walk p s ((s.peers p).queue.busy.getD [])).1.peers p with queue := { ((b1_distq_prefetch_walk p s ((s.peers p).queue.busy.getD [])).1.peers p).queue with incoming := some [] } }) ((s.peers p).queue.incoming.getD [])).2) := by
    simp only [b1_distq_peer_prefetch]
    rw [specA.incoming_eq]
  exact maintain_glue_pref p s (b1_distq_prefetch_walk p s ((s.peers p).queue.busy.getD [])).1
    ((b1_distq_prefetch_walk p s ((s.peers p).queue.busy.getD [])).1.setPeer p { (b1_distq_prefetch_walk p s ((s.peers p).queue.busy.getD [])).1.peers p with queue := { ((b1_distq_prefetch_walk p s ((s.peers p).queue.busy.getD [])).1.peers p).queue with incoming := some [] } })
    (b1_distq_prefetch_walk p ((b1_distq_prefetch_walk p s ((s.peers p).queue.busy.getD [])).1.setPeer p { (b1_distq_prefetch_walk p s ((s.peers p).queue.busy.getD [])).1.peers p with queue := { ((b1_distq_prefetch_walk p s ((s.peers p).queue.busy.getD [])).1.peers p).queue with incoming := some [] } }) ((s.peers p).queue.incoming.getD [])).1
    ((b1_distq_prefetch_walk p ((b1_distq_prefetch_walk p s ((s.peers p).queue.busy.getD [])).1.setPeer p { (b1_distq_prefetch_walk p s ((s.peers p).queue.busy.getD [])).1.peers p with queue := { ((b1_distq_prefetch_walk p s ((s.peers p).queue.busy.getD [])).1.peers p).queue with incoming := some [] } }) ((s.peers p).queue.incoming.getD [])).1.setPeer p { (b1_distq_prefetch_walk p ((b1_distq_prefetch_walk p s ((s.peers p).queue.busy.getD [])).1.setPeer p { (b1_distq_prefetch_walk p s ((s.peers p).queue.busy.getD [])).1.peers p with queue := { ((b1_distq_prefetch_walk p s ((s.peers p).queue.busy.getD [])).1.peers p).queue with incoming := some [] } }) ((s.peers p).queue.incoming.getD [])).1.peers p with queue := { ((b1_distq_prefetch_walk p ((b1_distq_prefetch_walk p s ((s.peers p).queue.busy.getD [])).1.setPeer p { (b1_distq_prefetch_walk p s ((s.peers p).queue.busy.getD [])).1.peers p with queue := { ((b1_distq_prefetch_walk p s ((s.peers p).queue.busy.getD [])).1.peers p).queue with incoming := some [] } }) ((s.peers p).queue.incoming.getD [])).1.peers p).queue with busy := some ((b1_distq_prefetch_walk p s ((s.peers p).queue.busy.getD [])).2 ++ (b1_distq_prefetch_walk p ((b1_distq_prefetch_walk p s ((s.peers p).queue.busy.getD [])).1.setPeer p { (b1_distq_prefetch_walk p s ((s.peers p).queue.busy.getD [])).1.peers p with queue := { ((b1_distq_prefetch_walk p s ((s.peers p).queue.busy.getD [])).1.peers p).queue with incoming := some [] } }) ((s.peers p).queue.incoming.getD [])).2) } })
    (b1_distq_peer_prefetch s p)
    ((s.peers p).queue.busy.getD []) ((s.peers p).queue.incoming.getD [])
    (b1_distq_prefetch_walk p s ((s.peers p).queue.busy.getD [])).2
    (b1_distq_prefetch_walk p ((b1_distq_prefetch_walk p s ((s.peers p).queue.busy.getD [])).1.setPeer p { (b1_distq_prefetch_walk p s ((s.peers p).queue.busy.getD [])).1.peers p with queue := { ((b1_distq_prefetch_walk p s ((s.peers p).queue.busy.getD [])).1.peers p).queue with incoming := some [] } }) ((s.peers p).queue.incoming.getD [])).2
    h hchain_eq specA rfl rfl (fun q hq => setPeer_peers_other _ _ hq)
    (setPeer_peers_self _ _ _) specB rfl rfl
    (fun q hq => setPeer_peers_other _ _ hq)
    (setPeer_peers_self _ _ _) hfin


/-- Glue for b1_distq_peer_sync when the guard passes: the pre-step raises
the local mark and the clock, then the two sync walks and the rethread act
as one maintenance call and leave the local mark at the target. -/
theorem maintain_glue_sync (p : PeerId) (tgt : Int)
    (s s1 sA s2 sB s3 s' : State)
    (busyL incL keptA keptB : List NodeId)
    (hInv : Inv s)
    (htent : b1_distq_ts_committed tgt = false)
    (hgt : (s.peers p).localTs < tgt)
    (hchain_eq : chainNodes s p = incL ++ busyL)
    (hs1 : s1 = s.setPeer p
      { s.peers p with
        localTs := tgt
        clock := b1_distq_ts_force_sync (s.peers p).clock tgt })
    (specA : WalkOut p tgt s1 sA busyL keptA)
    (hs2t : s2.txs = sA.txs)
    (hs2n : s2.nodes = sA.nodes)
    (hs2q : ∀ q, q ≠ p → s2.peers q = sA.peers q)
    (hs2p : s2.peers p = { sA.peers p with queue :=
        { (sA.peers p).queue with incoming := some [] } })
    (specB : WalkOut p tgt s2 sB incL keptB)
    (hs3t : s3.txs = sB.txs)
    (hs3n : s3.nodes = sB.nodes)
    (hs3q : ∀ q, q ≠ p → s3.peers q = sB.peers q)
    (hs3p : s3.peers p = { sB.peers p with queue :=
        { (sB.peers p).queue with busy := some (keptA ++ keptB) } })
    (hs' : s' = rethread s3 (keptA ++ keptB)) :
    MOut p s s'
    ∧ (s'.peers p).localTs = tgt
    ∧ (s'.peers p).queue.incoming = some [] := by
  have hs1p : s1.peers p = { s.peers p with
      localTs := tgt
      clock := b1_distq_ts_force_sync (s.peers p).clock tgt } := by
    rw [hs1]
    exact setPeer_peers_self _ _ _
  have hs1q : ∀ q, q ≠ p → s1.peers q = s.peers q := fun q hq => by
    rw [hs1]
    exact setPeer_peers_other _ _ hq
  have hs1t : s1.txs = s.txs := by rw [hs1]; rfl
  have hs1n : s1.nodes = s.nodes := by rw [hs1]; rfl
  have hs1queue : (s1.peers p).queue = (s.peers p).queue := by rw [hs1p]
  have hs1local : (s1.peers p).localTs = tgt := by rw [hs1p]
  have hs1ncomm : (s1.peers p).n_committed = (s.peers p).n_committed := by
    rw [hs1p]
  have hs1clock : (s1.peers p).clock = max ((s.peers p).clock) tgt := by
    rw [hs1p]
    exact ts_force_sync_tentative
      ((ts_not_committed_iff _).mpr (hInv.clock_even p)) tgt
  have hndall : ((incL ++ busyL) ++ (s.peers p).queue.ready).Nodup := by
    have h0 := hInv.nodup p
    unfold allNodes at h0
    rwa [hchain_eq] at h0
  obtain ⟨hndchain, hndr0, hdisj_cr⟩ := List.nodup_append.mp hndall
  obtain ⟨hndinc, hndbusy, hdisj_ib⟩ := List.nodup_append.mp hndchain
  have hbusy_mem : ∀ x ∈ busyL, x ∈ chainNodes s p := by
    rw [hchain_eq]
    exact fun x hx => List.mem_append.mpr (Or.inr hx)
  have hinc_mem : ∀ x ∈ incL, x ∈ chainNodes s p := by
    rw [hchain_eq]
    exact fun x hx => List.mem_append.mpr (Or.inl hx)
  obtain ⟨promsA, hrpA, hlpA, hsubA⟩ := specA.ready_perm
  obtain ⟨promsB, hrpB, hlpB, hsubB⟩ := specB.ready_perm
  rw [hs1queue] at hrpA
  have hreadys2 : (s2.peers p).queue.ready = (sA.peers p).queue.ready := by
    rw [hs2p]
  rw [hreadys2] at hrpB
  have hrB : ((sB.peers p).queue.ready).Perm
      (promsB ++ (promsA ++ (s.peers p).queue.ready)) :=
    hrpB.trans (List.Perm.append_left promsB hrpA)
  have hfp : s'.peers = s3.peers := by
    rw [hs']
    exact rethread_peers _ _
  have hfpp : s'.peers p = { sB.peers p with queue :=
      { (sB.peers p).queue with busy := some (keptA ++ keptB) } } := by
    rw [hfp, hs3p]
  have hfq : ∀ q, q ≠ p → s'.peers q = s.peers q := fun q hq => by
    rw [hfp, hs3q q hq, specB.peers_other q hq, hs2q q hq,
      specA.peers_other q hq, hs1q q hq]
  have hftxB : s'.txs = sB.txs := by
    rw [hs', rethread_txs, hs3t]
  have htx_mono : ∀ t, (s.txs t).timestamp ≤ (s'.txs t).timestamp := by
    intro t
    have h1 := specA.tx_mono t
    rw [hs1t] at h1
    have h2 := specB.tx_mono t
    rw [hs2t] at h2
    rw [hftxB]
    exact le_trans h1 h2
  have htx_tent : ∀ t,
      b1_distq_ts_committed ((s.txs t).timestamp) = false →
      b1_distq_ts_committed ((s'.txs t).timestamp) = false := by
    intro t hc
    have h1 := specA.tx_tent t (by rw [hs1t]; exact hc)
    have h2 := specB.tx_tent t (by rw [hs2t]; exact h1)
    rw [hftxB]
    exact h2
  have htx_comm : ∀ t,
      b1_distq_ts_committed ((s.txs t).timestamp) = true →
      (s'.txs t).timestamp = (s.txs t).timestamp := by
    intro t hc
    have h1 := specA.tx_comm t (by rw [hs1t]; exact hc)
    rw [hs1t] at h1
    have h2 := specB.tx_comm t (by rw [hs2t, h1]; exact hc)
    rw [hftxB, h2, hs2t, h1]
  have hfn_ts : ∀ k, (s'.nodes k).timestamp = (sB.nodes k).timestamp := by
    intro k
    rw [hs', (rethread_nodes _ _ k).1, hs3n]
  have hfn_tx : ∀ k, (s'.nodes k).tx = (s.nodes k).tx := by
    intro k
    rw [hs', (rethread_nodes _ _ k).2.1, hs3n, specB.node_tx k, hs2n,
      specA.node_tx k, hs1n]
  have hfn_refs : ∀ k, (s'.nodes k).n_refs = (s.nodes k).n_refs := by
    intro k
    rw [hs', (rethread_nodes _ _ k).2.2, hs3n, specB.node_refs k, hs2n,
      specA.node_refs k, hs1n]
  have hclockf : (s'.peers p).clock = max ((s.peers p).clock) tgt := by
    rw [hfpp]
    show (sB.peers p).clock = _
    rw [specB.clock_eq, hs2p]
    show (sA.peers p).clock = _
    rw [specA.clock_eq, hs1clock]
  have hlocalf : (s'.peers p).localTs = tgt := by
    rw [hfpp]
    show (sB.peers p).localTs = _
    rw [specB.local_eq, hs2p]
    show (sA.peers p).localTs = _
    rw [specA.local_eq, hs1local]
  have hncommf : (s'.peers p).n_committed = (s.peers p).n_committed := by
    rw [hfpp]
    show (sB.peers p).n_committed = _
    rw [specB.ncomm_eq, hs2p]
    show (sA.peers p).n_committed = _
    rw [specA.ncomm_eq, hs1ncomm]
  have hincf : (s'.peers p).queue.incoming = some [] := by
    rw [hfpp]
    show (sB.peers p).queue.incoming = _
    rw [specB.incoming_eq, hs2p]
  have hreadyf : (s'.peers p).queue.ready = (sB.peers p).queue.ready := by
    rw [hfpp]
  have hchainf : chainNodes s' p = keptA ++ keptB := by
    unfold chainNodes
    rw [hincf]
    have : (s'.peers p).queue.busy = some (keptA ++ keptB) := by
      rw [hfpp]
    rw [this]
    rfl
  have hoff : ∀ k, k ∉ busyL → k ∉ incL → sB.nodes k = s.nodes k := by
    intro k h1 h2
    rw [specB.nodes_out k h2, hs2n, specA.nodes_out k h1, hs1n]
  have hofffull : ∀ k, k ∉ busyL → k ∉ incL → k ∉ keptA ++ keptB →
      s'.nodes k = s.nodes k := by
    intro k h1 h2 h3
    rw [hs', rethread_nodes_out _ _ k h3, hs3n, hoff k h1 h2]
  have hkts : ∀ x ∈ keptA ++ keptB, (s'.nodes x).timestamp = 0 := by
    intro x hx
    rw [hfn_ts x]
    rcases List.mem_append.mp hx with hxa | hxb
    · have hxbusy := specA.kept_sub x hxa
      have hxninc : x ∉ incL := fun h2 => hdisj_ib h2 hxbusy
      rw [specB.nodes_out x hxninc, hs2n]
      exact specA.kept_ts x hxa
    · exact specB.kept_ts x hxb
  have hrBmem : ∀ x ∈ (sB.peers p).queue.ready,
      x ∈ promsB ∨ x ∈ promsA ∨ x ∈ (s.peers p).queue.ready := by
    intro x hx
    have h2 := hrB.mem_iff.mp hx
    rcases List.mem_append.mp h2 with h3 | h3
    · exact Or.inl h3
    · rcases List.mem_append.mp h3 with h4 | h4
      · exact Or.inr (Or.inl h4)
      · exact Or.inr (Or.inr h4)
  have hnot_in_walked : ∀ q, q ≠ p → ∀ x, x ∈ allNodes s q →
      x ∉ busyL ∧ x ∉ incL := by
    intro q hq x hx
    constructor
    · intro hm
      exact hInv.disjoint q p hq x hx
        (List.mem_append.mpr (Or.inl (hbusy_mem x hm)))
    · intro hm
      exact hInv.disjoint q p hq x hx
        (List.mem_append.mpr (Or.inl (hinc_mem x hm)))
  have hfloor : ∀ B,
      (∀ n ∈ incL ++ busyL, ∀ t, (s.nodes n).tx = some t →
        B ≤ (s.txs t).timestamp) →
      (∀ x ∈ (s.peers p).queue.ready, B ≤ (s.nodes x).timestamp) →
      ∀ x ∈ (sB.peers p).queue.ready, B ≤ (sB.nodes x).timestamp := by
    intro B hB hr
    have midA := specA.ready_floor B
      (fun n hn t ht => by
        rw [hs1n] at ht
        rw [hs1t]
        exact hB n (List.mem_append.mpr (Or.inr hn)) t ht)
      (fun x hx => by
        rw [hs1queue] at hx
        rw [hs1n]
        exact hr x hx)
    refine specB.ready_floor B ?_ ?_
    · intro n hn t ht
      rw [hs2n] at ht
      have hnb : n ∉ busyL := fun h2 => hdisj_ib hn h2
      rw [specA.nodes_out n hnb, hs1n] at ht
      rw [hs2t]
      have h1 := specA.tx_mono t
      rw [hs1t] at h1
      exact le_trans (hB n (List.mem_append.mpr (Or.inl hn)) t ht) h1
    · intro x hx
      rw [hreadys2] at hx
      rw [hs2n]
      exact midA x hx
  have hpB : List.Pairwise (tsLe sB) ((sB.peers p).queue.ready) := by
    have hp0 : List.Pairwise (tsLe s1) ((s1.peers p).queue.ready) := by
      rw [hs1queue, tsLe_eq_of_nodes hs1n]
      exact hInv.ready_pair p
    have hpA := specA.ready_pair hp0
    have hp2 : List.Pairwise (tsLe s2) ((s2.peers p).queue.ready) := by
      rw [hreadys2]
      exact pairwise_tsLe_congr (fun x _ => by rw [hs2n]) hpA
    exact specB.ready_pair hp2
  have hInvf : Inv s' := {
    tx_pos := fun t => le_trans (hInv.tx_pos t) (htx_mono t)
    node_ts0 := fun k hk => by
      rw [hfn_tx k] at hk
      have h1 : k ∉ busyL := fun hm => hInv.chain_tx p k (hbusy_mem k hm) hk
      have h2 : k ∉ incL := fun hm => hInv.chain_tx p k (hinc_mem k hm) hk
      rw [hfn_ts k, hoff k h1 h2]
      exact hInv.node_ts0 k hk
    local_pos := fun q => by
      by_cases hq : q = p
      · rw [hq, hlocalf]
        have := hInv.local_pos p
        omega
      · rw [hfq q hq]
        exact hInv.local_pos q
    local_le_clock := fun q => by
      by_cases hq : q = p
      · rw [hq, hlocalf, hclockf]
        exact le_max_right _ _
      · rw [hfq q hq]
        exact hInv.local_le_clock q
    local_even := fun q => by
      by_cases hq : q = p
      · rw [hq, hlocalf]
        exact (ts_not_committed_iff tgt).mp htent
      · rw [hfq q hq]
        exact hInv.local_even q
    clock_even := fun q => by
      by_cases hq : q = p
      · rw [hq, hclockf]
        have h1 := hInv.clock_even p
        have h2 := (ts_not_committed_iff tgt).mp htent
        rcases max_cases ((s.peers p).clock) tgt with ⟨he, _⟩ | ⟨he, _⟩ <;>
          rw [he] <;> omega
      · rw [hfq q hq]
        exact hInv.clock_even q
    chain_tx := fun q x hx => by
      rw [hfn_tx x]
      by_cases hq : q = p
      · rw [hq, hchainf] at hx
        rcases List.mem_append.mp hx with h1 | h1
        · exact hInv.chain_tx p x (hbusy_mem x (specA.kept_sub x h1))
        · exact hInv.chain_tx p x (hinc_mem x (specB.kept_sub x h1))
      · have hcq : chainNodes s' q = chainNodes s q := by
          unfold chainNodes
          rw [hfq q hq]
        rw [hcq] at hx
        exact hInv.chain_tx q x hx
    chain_floor := fun q x hx t ht => by
      rw [hfn_tx x] at ht
      by_cases hq : q = p
      · rw [hq, hlocalf]
        rw [hq, hchainf] at hx
        rw [hftxB]
        rcases List.mem_append.mp hx with h1 | h1
        · have h2 := (specA.kept_tx x h1 t (by rw [hs1n]; exact ht)).1
          have h3 := specB.tx_mono t
          rw [hs2t] at h3
          exact le_trans h2 h3
        · exact (specB.kept_tx x h1 t
            (by rw [hs2n, specA.node_tx x, hs1n]; exact ht)).1
      · have hcq : chainNodes s' q = chainNodes s q := by
          unfold chainNodes
          rw [hfq q hq]
        rw [hcq] at hx
        rw [hfq q hq]
        exact le_trans (hInv.chain_floor q x hx t ht) (htx_mono t)
    chain_ts0 := fun q x hx => by
      by_cases hq : q = p
      · rw [hq, hchainf] at hx
        exact hkts x hx
      · have hcq : chainNodes s' q = chainNodes s q := by
          unfold chainNodes
          rw [hfq q hq]
        rw [hcq] at hx
        have hxall : x ∈ allNodes s q :=
          List.mem_append.mpr (Or.inl hx)
        obtain ⟨h1, h2⟩ := hnot_in_walked q hq x hxall
        rw [hfn_ts x, hoff x h1 h2]
        exact hInv.chain_ts0 q x hx
    ready_tx := fun q x hx => by
      rw [hfn_tx x]
      by_cases hq : q = p
      · rw [hq, hreadyf] at hx
        rcases hrBmem x hx with h1 | h1 | h1
        · exact hInv.chain_tx p x (hinc_mem x (hsubB x h1))
        · exact hInv.chain_tx p x (hbusy_mem x (hsubA x h1))
        · exact hInv.ready_tx p x h1
      · rw [hfq q hq] at hx
        exact hInv.ready_tx q x hx
    ready_comm := fun q x hx => by
      by_cases hq : q = p
      · rw [hq, hreadyf] at hx
        rw [hfn_ts x]
        exact specB.ready_comm x hx
      · rw [hfq q hq] at hx
        have hxall : x ∈ allNodes s q :=
          List.mem_append.mpr (Or.inr hx)
        obtain ⟨h1, h2⟩ := hnot_in_walked q hq x hxall
        rw [hfn_ts x, hoff x h1 h2]
        exact hInv.ready_comm q x hx
    ready_pos := fun q x hx => by
      by_cases hq : q = p
      · rw [hq, hreadyf] at hx
        rw [hfn_ts x]
        exact hfloor 0 (fun n _ t _ => hInv.tx_pos t) (hInv.ready_pos p)
          x hx
      · rw [hfq q hq] at hx
        have hxall : x ∈ allNodes s q :=
          List.mem_append.mpr (Or.inr hx)
        obtain ⟨h1, h2⟩ := hnot_in_walked q hq x hxall
        rw [hfn_ts x, hoff x h1 h2]
        exact hInv.ready_pos q x hx
    ready_pair := fun q => by
      by_cases hq : q = p
      · rw [hq, hreadyf]
        exact pairwise_tsLe_congr (fun x _ => hfn_ts x) hpB
      · rw [hfq q hq]
        refine pairwise_tsLe_congr (fun x hx => ?_) (hInv.ready_pair q)
        have hxall : x ∈ allNodes s q :=
          List.mem_append.mpr (Or.inr hx)
        obtain ⟨h1, h2⟩ := hnot_in_walked q hq x hxall
        rw [hfn_ts x, hoff x h1 h2]
    nodup := fun q => by
      by_cases hq : q = p
      · rw [hq]
        unfold allNodes
        rw [hchainf, hreadyf]
        exact ((maintain_perm hlpA hlpB hrB).nodup_iff).mpr hndall
      · unfold allNodes
        have hcq : chainNodes s' q = chainNodes s q := by
          unfold chainNodes
          rw [hfq q hq]
        rw [hcq, hfq q hq]
        exact hInv.nodup q
    disjoint := fun a b hab x hx hx' => by
      have hmap : ∀ c, ∀ y, y ∈ allNodes s' c → y ∈ allNodes s c := by
        intro c y hy
        by_cases hc : c = p
        · rw [hc] at hy ⊢
          unfold allNodes at hy ⊢
          rw [hchainf, hreadyf] at hy
          have h2 := (maintain_perm hlpA hlpB hrB).mem_iff.mp hy
          rw [hchain_eq]
          exact h2
        · unfold allNodes at hy ⊢
          have hcq : chainNodes s' c = chainNodes s c := by
            unfold chainNodes
            rw [hfq c hc]
          rw [hcq, hfq c hc] at hy
          exact hy
      exact hInv.disjoint a b hab x (hmap a x hx) (hmap b x hx') }
  refine ⟨{
    inv := hInvf
    tx_mono := htx_mono
    tx_tent := htx_tent
    tx_comm := htx_comm
    peers_other := hfq
    clock_mono := by
      rw [hclockf]
      exact le_max_left _ _
    local_mono := by
      rw [hlocalf]
      exact le_of_lt hgt
    ncomm_eq := hncommf
    node_tx := hfn_tx
    node_refs := hfn_refs
    ts_out := fun x hx => by
      have h1 : x ∉ busyL := fun hm => hx (hbusy_mem x hm)
      have h2 : x ∉ incL := fun hm => hx (hinc_mem x hm)
      rw [hfn_ts x, hoff x h1 h2]
    chain_sub := fun x hx => by
      rw [hchainf] at hx
      rcases List.mem_append.mp hx with h1 | h1
      · exact hbusy_mem x (specA.kept_sub x h1)
      · exact hinc_mem x (specB.kept_sub x h1)
    floor := fun B hBl hr x hx => by
      rw [hreadyf] at hx
      rw [hfn_ts x]
      refine hfloor B ?_ hr x hx
      intro n hn t ht
      exact le_trans hBl
        (hInv.chain_floor p n (by rw [hchain_eq]; exact hn) t ht)
    ready_old_sub := fun x hx => by
      rw [hreadyf]
      have h1 : x ∈ (sA.peers p).queue.ready :=
        hrpA.mem_iff.mpr (List.mem_append.mpr (Or.inr hx))
      exact hrpB.mem_iff.mpr (List.mem_append.mpr (Or.inr h1))
    nodes_ready_old := fun x hx => by
      have hxb : x ∉ busyL := fun hm =>
        hdisj_cr (List.mem_append.mpr (Or.inr hm)) hx
      have hxi : x ∉ incL := fun hm =>
        hdisj_cr (List.mem_append.mpr (Or.inl hm)) hx
      have hxkept : x ∉ keptA ++ keptB := fun hm => by
        rcases List.mem_append.mp hm with h1 | h1
        · exact hxb (specA.kept_sub x h1)
        · exact hxi (specB.kept_sub x h1)
      exact hofffull x hxb hxi hxkept
    }, hlocalf, hincf⟩

/-- The caller-visible effect of b1_distq_peer_sync when the target is
tentative and above the local mark: the maintenance contract holds and the
local mark is raised exactly to the target. -/
theorem sync_op_spec (s : State) (p : PeerId) (tgt : Int) (h : Inv s)
    (htent : b1_distq_ts_committed tgt = false)
    (hgt : (s.peers p).localTs < tgt) :
    MOut p s (b1_distq_peer_sync s p tgt)
    ∧ ((b1_distq_peer_sync s p tgt).peers p).localTs = tgt
    ∧ ((b1_distq_peer_sync s p tgt).peers p).queue.incoming = some [] := by
  have hcond : (b1_distq_ts_committed tgt
      || decide (tgt ≤ (s.peers p).localTs)) = false := by
    rw [htent]
    simp only [Bool.false_or, decide_eq_false_iff_not]
    omega
  have hq1 : ((s.setPeer p { s.peers p with localTs := tgt, clock := b1_distq_ts_force_sync (s.peers p).clock tgt }).peers p).queue = (s.peers p).queue := by
    rw [setPeer_peers_self]
  have hchain0 : chainNodes s p
      = (s.peers p).queue.incoming.getD []
        ++ (s.peers p).queue.busy.getD [] := rfl
  have hndall : (((s.peers p).queue.incoming.getD []
      ++ (s.peers p).queue.busy.getD [])
      ++ (s.peers p).queue.ready).Nodup := by
    have h0 := h.nodup p
    unfold allNodes at h0
    rwa [hchain0] at h0
  obtain ⟨hndchain, hndr0, hdisj_cr⟩ := List.nodup_append.mp hndall
  obtain ⟨hndinc, hndbusy, hdisj_ib⟩ := List.nodup_append.mp hndchain
  have hbusy_mem : ∀ x ∈ (s.peers p).queue.busy.getD [],
      x ∈ chainNodes s p := by
    rw [hchain0]
    exact fun x hx => List.mem_append.mpr (Or.inr hx)
  have hinc_mem : ∀ x ∈ (s.peers p).queue.incoming.getD [],
      x ∈ chainNodes s p := by
    rw [hchain0]
    exact fun x hx => List.mem_append.mpr (Or.inl hx)
  have hbusyeq : (((s.setPeer p { s.peers p with localTs := tgt, clock := b1_distq_ts_force_sync (s.peers p).clock tgt }).peers p).queue.busy.getD [])
      = ((s.peers p).queue.busy.getD []) := by rw [hq1]
  have specA := sync_walk_spec p tgt htent
    (((s.setPeer p { s.peers p with localTs := tgt, clock := b1_distq_ts_force_sync (s.peers p).clock tgt }).peers p).queue.busy.getD []) (s.setPeer p { s.peers p with localTs := tgt, clock := b1_distq_ts_force_sync (s.peers p).clock tgt })
    (by rw [hbusyeq]; exact hndbusy)
    (fun x hx hr => by
      rw [hbusyeq] at hx
      rw [hq1] at hr
      exact hdisj_cr (List.mem_append.mpr (Or.inr hx)) hr)
    (fun x hx => by
      rw [hbusyeq] at hx
      show (s.nodes x).tx ≠ none
      exact h.chain_tx p x (hbusy_mem x hx))
    (fun x hx => by
      rw [hbusyeq] at hx
      show (s.nodes x).timestamp = 0
      exact h.chain_ts0 p x (hbusy_mem x hx))
    (fun x hx => by
      rw [hq1] at hx
      show b1_distq_ts_committed ((s.nodes x).timestamp) = true
      exact h.ready_comm p x hx)
  obtain ⟨promsA, hrpA, hlpA, hsubA⟩ := specA.ready_perm
  have hinceq : (((b1_distq_sync_walk p tgt (s.setPeer p { s.peers p with localTs := tgt, clock := b1_distq_ts_force_sync (s.peers p).clock tgt }) (((s.setPeer p { s.peers p with localTs := tgt, clock := b1_distq_ts_force_sync (s.peers p).clock tgt }).peers p).queue.busy.getD [])).1.peers p).queue.incoming.getD [])
      = ((s.peers p).queue.incoming.getD []) := by
    rw [specA.incoming_eq, hq1]
  have specB := sync_walk_spec p tgt htent
    (((b1_distq_sync_walk p tgt (s.setPeer p { s.peers p with localTs := tgt, clock := b1_distq_ts_force_sync (s.peers p).clock tgt }) (((s.setPeer p { s.peers p with localTs := tgt, clock := b1_distq_ts_force_sync (s.peers p).clock tgt }).peers p).queue.busy.getD [])).1.peers p).queue.incoming.getD []) ((b1_distq_sync_walk p tgt (s.setPeer p { s.peers p with localTs := tgt, clock := b1_distq_ts_force_sync (s.peers p).clock tgt }) (((s.setPeer p { s.peers p with localTs := tgt, clock := b1_distq_ts_force_sync (s.peers p).clock tgt }).peers p).queue.busy.getD [])).1.setPeer p { (b1_distq_sync_walk p tgt (s.setPeer p { s.peers p with localTs := tgt, clock := b1_distq_ts_force_sync (s.peers p).clock tgt }) (((s.setPeer p { s.peers p with localTs := tgt, clock := b1_distq_ts_force_sync (s.peers p).clock tgt }).peers p).queue.busy.getD [])).1.peers p with queue := { ((b1_distq_sync_walk p tgt (s.setPeer p { s.peers p with localTs := tgt, clock := b1_distq_ts_force_sync (s.peers p).clock tgt }) (((s.setPeer p { s.peers p with localTs := tgt, clock := b1_distq_ts_force_sync (s.peers p).clock tgt }).peers p).queue.busy.getD [])).1.peers p).queue with incoming := some [] } })
    (by rw [hinceq]; exact hndinc)
    (fun x hx hr => by
      rw [hinceq] at hx
      have hr2 : x ∈ ((b1_distq_sync_walk p tgt (s.setPeer p { s.peers p with localTs := tgt, clock := b1_distq_ts_force_sync (s.peers p).clock tgt }) (((s.setPeer p { s.peers p with localTs := tgt, clock := b1_distq_ts_force_sync (s.peers p).clock tgt }).peers p).queue.busy.getD [])).1.peers p).queue.ready := by
        have he := setPeer_peers_self (b1_distq_sync_walk p tgt (s.setPeer p { s.peers p with localTs := tgt, clock := b1_distq_ts_force_sync (s.peers p).clock tgt }) (((s.setPeer p { s.peers p with localTs := tgt, clock := b1_distq_ts_force_sync (s.peers p).clock tgt }).peers p).queue.busy.getD [])).1 p { (b1_distq_sync_walk p tgt (s.setPeer p { s.peers p with localTs := tgt, clock := b1_distq_ts_force_sync (s.peers p).clock tgt }) (((s.setPeer p { s.peers p with localTs := tgt, clock := b1_distq_ts_force_sync (s.peers p).clock tgt }).peers p).queue.busy.getD [])).1.peers p with queue := { ((b1_distq_sync_walk p tgt (s.setPeer p { s.peers p with localTs := tgt, clock := b1_distq_ts_force_sync (s.peers p).clock tgt }) (((s.setPeer p { s.peers p with localTs := tgt, clock := b1_distq_ts_force_sync (s.peers p).clock tgt }).peers p).queue.busy.getD [])).1.peers p).queue with incoming := some [] } }
        rw [he] at hr
        exact hr
      rcases hrpA.mem_iff.mp hr2 with hm
      rcases List.mem_append.mp hm with h1 | h1
      · have h2 := hsubA x h1
        rw [hbusyeq] at h2
        exact hdisj_ib hx h2
      · rw [hq1] at h1
        exact hdisj_cr (List.mem_append.mpr (Or.inl hx)) h1)
    (fun x hx => by
      rw [hinceq] at hx
      show ((b1_distq_sync_walk p tgt (s.setPeer p { s.peers p with localTs := tgt, clock := b1_distq_ts_force_sync (s.peers p).clock tgt }) (((s.setPeer p { s.peers p with localTs := tgt, clock := b1_distq_ts_force_sync (s.peers p).clock tgt }).peers p).queue.busy.getD [])).1.nodes x).tx ≠ none
      rw [specA.nodes_out x
        (fun h2 => hdisj_ib hx (by rw [hbusyeq] at h2; exact h2))]
      show (s.nodes x).tx ≠ none
      exact h.chain_tx p x (hinc_mem x hx))
    (fun x hx => by
      rw [hinceq] at hx
      show ((b1_distq_sync_walk p tgt (s.setPeer p { s.peers p with localTs := tgt, clock := b1_distq_ts_force_sync (s.peers p).clock tgt }) (((s.setPeer p { s.peers p with localTs := tgt, clock := b1_distq_ts_force_sync (s.peers p).clock tgt }).peers p).queue.busy.getD [])).1.nodes x).timestamp = 0
      rw [specA.nodes_out x
        (fun h2 => hdisj_ib hx (by rw [hbusyeq] at h2; exact h2))]
      show (s.nodes x).timestamp = 0
      exact h.chain_ts0 p x (hinc_mem x hx))
    (fun x hx => by
      show b1_distq_ts_committed (((b1_distq_sync_walk p tgt (s.setPeer p { s.peers p with localTs := tgt, clock := b1_distq_ts_force_sync (s.peers p).clock tgt }) (((s.setPeer p { s.peers p with localTs := tgt, clock := b1_distq_ts_force_sync (s.peers p).clock tgt }).peers p).queue.busy.getD [])).1.nodes x).timestamp) = true
      refine specA.ready_comm x ?_
      have he := setPeer_peers_self (b1_distq_sync_walk p tgt (s.setPeer p { s.peers p with localTs := tgt, clock := b1_distq_ts_force_sync (s.peers p).clock tgt }) (((s.setPeer p { s.peers p with localTs := tgt, clock := b1_distq_ts_force_sync (s.peers p).clock tgt }).peers p).queue.busy.getD [])).1 p { (b1_distq_sync_walk p tgt (s.setPeer p { s.peers p with localTs := tgt, clock := b1_distq_ts_force_sync (s.peers p).clock tgt }) (((s.setPeer p { s.peers p with localTs := tgt, clock := b1_distq_ts_force_sync (s.peers p).clock tgt }).peers p).queue.busy.getD [])).1.peers p with queue := { ((b1_distq_sync_walk p tgt (s.setPeer p { s.peers p with localTs := tgt, clock := b1_distq_ts_force_sync (s.peers p).clock tgt }) (((s.setPeer p { s.peers p with localTs := tgt, clock := b1_distq_ts_force_sync (s.peers p).clock tgt }).peers p).queue.busy.getD [])).1.peers p).queue with incoming := some [] } }
      rw [he] at hx
      exact hx)
  have hchain_eq : chainNodes s p
      = (((b1_distq_sync_walk p tgt (s.setPeer p { s.peers p with localTs := tgt, clock := b1_distq_ts_force_sync (s.peers p).clock tgt }) (((s.setPeer p { s.peers p with localTs := tgt, clock := b1_distq_ts_force_sync (s.peers p).clock tgt }).peers p).queue.busy.getD [])).1.peers p).queue.incoming.getD [])
        ++ (((s.setPeer p { s.peers p with localTs := tgt, clock := b1_distq_ts_force_sync (s.peers p).clock tgt }).peers p).queue.busy.getD []) := by
    rw [hchain0, hinceq, hbusyeq]
  have hfin : b1_distq_peer_sync s p tgt
      = rethread ((b1_distq_sync_walk p tgt ((b1_distq_sync_walk p tgt (s.setPeer p { s.peers p with localTs := tgt, clock := b1_distq_ts_force_sync (s.peers p).clock tgt }) (((s.setPeer p { s.peers p with localTs := tgt, clock := b1_distq_ts_force_sync (s.peers p).clock tgt }).peers p).queue.busy.getD [])).1.setPeer p { (b1_distq_sync_walk p tgt (s.setPeer p { s.peers p with localTs := tgt, clock := b1_distq_ts_force_sync (s.peers p).clock tgt }) (((s.setPeer p { s.peers p with localTs := tgt, clock := b1_distq_ts_force_sync (s.peers p).clock tgt }).peers p).queue.busy.getD [])).1.peers p with queue := { ((b1_distq_sync_walk p tgt (s.setPeer p { s.peers p with localTs := tgt, clock := b1_distq_ts_force_sync (s.peers p).clock tgt }) (((s.setPeer p { s.peers p with localTs := tgt, clock := b1_distq_ts_force_sync (s.peers p).clock tgt }).peers p).queue.busy.getD [])).1.peers p).queue with incoming := some [] } }) (((b1_distq_sync_walk p tgt (s.setPeer p { s.peers p with localTs := tgt, clock := b1_distq_ts_force_sync (s.peers p).clock tgt }) (((s.setPeer p { s.peers p with localTs := tgt, clock := b1_distq_ts_force_sync (s.peers p).clock tgt }).peers p).queue.busy.getD [])).1.peers p).queue.incoming.getD [])).1.setPeer p { (b1_distq_sync_walk p tgt ((b1_distq_sync_walk p tgt (s.setPeer p { s.peers p with localTs := tgt, clock := b1_distq_ts_force_sync (s.peers p).clock tgt }) (((s.setPeer p { s.peers p with localTs := tgt, clock := b1_distq_ts_force_sync (s.peers p).clock tgt }).peers p).queue.busy.getD [])).1.setPeer p { (b1_distq_sync_walk p tgt (s.setPeer p { s.peers p with localTs := tgt, clock := b1_distq_ts_force_sync (s.peers p).clock tgt }) (((s.setPeer p { s.peers p with localTs := tgt, clock := b1_distq_ts_force_sync (s.peers p).clock tgt }).peers p).queue.busy.getD [])).1.peers p with queue := { ((b1_distq_sync_walk p tgt (s.setPeer p { s.peers p with localTs := tgt, clock := b1_distq_ts_force_sync (s.peers p).clock tgt }) (((s.setPeer p { s.peers p with localTs := tgt, clock := b1_distq_ts_force_sync (s.peers p).clock tgt }).peers p).queue.busy.getD [])).1.peers p).queue with incoming := some [] } }) (((b1_distq_sync_walk p tgt (s.setPeer p { s.peers p with localTs := tgt, clock := b1_distq_ts_force_sync (s.peers p).clock tgt }) (((s.setPeer p { s.peers p with localTs := tgt, clock := b1_distq_ts_force_sync (s.peers p).clock tgt }).peers p).queue.busy.getD [])).1.peers p).queue.incoming.getD [])).1.peers p with queue := { ((b1_distq_sync_walk p tgt ((b1_distq_sync_walk p tgt (s.setPeer p { s.peers p with localTs := tgt, clock := b1_distq_ts_force_sync (s.peers p).clock tgt }) (((s.setPeer p { s.peers p with localTs := tgt, clock := b1_distq_ts_force_sync (s.peers p).clock tgt }).peers p).queue.busy.getD [])).1.setPeer p { (b1_distq_sync_walk p tgt (s.setPeer p { s.peers p with localTs := tgt, clock := b1_distq_ts_force_sync (s.peers p).clock tgt }) (((s.setPeer p { s.peers p with localTs := tgt, clock := b1_distq_ts_force_sync (s.peers p).clock tgt }).peers p).queue.busy.getD [])).1.peers p with queue := { ((b1_distq_sync_walk p tgt (s.setPeer p { s.peers p with localTs := tgt, clock := b1_distq_ts_force_sync (s.peers p).clock tgt }) (((s.setPeer p { s.peers p with localTs := tgt, clock := b1_distq_ts_force_sync (s.peers p).clock tgt }).peers p).queue.busy.getD [])).1.peers p).queue with incoming := some [] } }) (((b1_distq_sync_walk p tgt (s.setPeer p { s.peers p with localTs := tgt, clock := b1_distq_ts_force_sync (s.peers p).clock tgt }) (((s.setPeer p { s.peers p with localTs := tgt, clock := b1_distq_ts_force_sync (s.peers p).clock tgt }).peers p).queue.busy.getD [])).1.peers p).queue.incoming.getD [])).1.peers p).queue with busy := some ((b1_distq_sync_walk p tgt (s.setPeer p { s.peers p with localTs := tgt, clock := b1_distq_ts_force_sync (s.peers p).clock tgt }) (((s.setPeer p { s.peers p with localTs := tgt, clock := b1_distq_ts_force_sync (s.peers p).clock tgt }).peers p).queue.busy.getD [])).2 ++ (b1_distq_sync_walk p tgt ((b1_distq_sync_walk p tgt (s.setPeer p { s.peers p with localTs := tgt, clock := b1_distq_ts_force_sync (s.peers p).clock tgt }) (((s.setPeer p { s.peers p with localTs := tgt, clock := b1_distq_ts_force_sync (s.peers p).clock tgt }).peers p).queue.busy.getD [])).1.setPeer p { (b1_distq_sync_walk p tgt (s.setPeer p { s.peers p with localTs := tgt, clock := b1_distq_ts_force_sync (s.peers p).clock tgt }) (((s.setPeer p { s.peers p with localTs := tgt, clock := b1_distq_ts_force_sync (s.peers p).clock tgt }).peers p).queue.busy.getD [])).1.peers p with queue := { ((b1_distq_sync_walk p tgt (s.setPeer p { s.peers p with localTs := tgt, clock := b1_distq_ts_force_sync (s.peers p).clock tgt }) (((s.setPeer p { s.peers p with localTs := tgt, clock := b1_distq_ts_force_sync (s.peers p).clock tgt }).peers p).queue.busy.getD [])).1.peers p).queue with incoming := some [] } }) (((b1_distq_sync_walk p tgt (s.setPeer p { s.peers p with localTs := tgt, clock := b1_distq_ts_force_sync (s.peers p).clock tgt }) (((s.setPeer p { s.peers p with localTs := tgt, clock := b1_distq_ts_force_sync (s.peers p).clock tgt }).peers p).queue.busy.getD [])).1.peers p).queue.incoming.getD [])).2) } }) ((b1_distq_sync_walk p tgt (s.setPeer p { s.peers p with localTs := tgt, clock := b1_distq_ts_force_sync (s.peers p).clock tgt }) (((s.setPeer p { s.peers p with localTs := tgt, clock := b1_distq_ts_force_sync (s.peers p).clock tgt }).peers p).queue.busy.getD [])).2 ++ (b1_distq_sync_walk p tgt ((b1_distq_sync_walk p tgt (s.setPeer p { s.peers p with localTs := tgt, clock := b1_distq_ts_force_sync (s.peers p).clock tgt }) (((s.setPeer p { s.peers p with localTs := tgt, clock := b1_distq_ts_force_sync (s.peers p).clock tgt }).peers p).queue.busy.getD [])).1.setPeer p { (b1_distq_sync_walk p tgt (s.setPeer p { s.peers p with localTs := tgt, clock := b1_distq_ts_force_sync (s.peers p).clock tgt }) (((s.setPeer p { s.peers p with localTs := tgt, clock := b1_distq_ts_force_sync (s.peers p).clock tgt }).peers p).queue.busy.getD [])).1.peers p with queue := { ((b1_distq_sync_walk p tgt (s.setPeer p { s.peers p with localTs := tgt, clock := b1_distq_ts_force_sync (s.peers p).clock tgt }) (((s.setPeer p { s.peers p with localTs := tgt, clock := b1_distq_ts_force_sync (s.peers p).clock tgt }).peers p).queue.busy.getD [])).1.peers p).queue with incoming := some [] } }) (((b1_distq_sync_walk p tgt (s.setPeer p { s.peers p with localTs := tgt, clock := b1_distq_ts_force_sync (s.peers p).clock tgt }) (((s.setPeer p { s.peers p with localTs := tgt, clock := b1_distq_ts_force_sync (s.peers p).clock tgt }).peers p).queue.busy.getD [])).1.peers p).queue.incoming.getD [])).2) := by
    simp only [b1_distq_peer_sync]
    exact if_neg (by simp [hcond])
  exact maintain_glue_sync p tgt s (s.setPeer p { s.peers p with localTs := tgt, clock := b1_distq_ts_force_sync (s.peers p).clock tgt })
    (b1_distq_sync_walk p tgt (s.setPeer p { s.peers p with localTs := tgt, clock := b1_distq_ts_force_sync (s.peers p).clock tgt }) (((s.setPeer p { s.peers p with localTs := tgt, clock := b1_distq_ts_force_sync (s.peers p).clock tgt }).peers p).queue.busy.getD [])).1
    ((b1_distq_sync_walk p tgt (s.setPeer p { s.peers p with localTs := tgt, clock := b1_distq_ts_force_sync (s.peers p).clock tgt }) (((s.setPeer p { s.peers p with localTs := tgt, clock := b1_distq_ts_force_sync (s.peers p).clock tgt }).peers p).queue.busy.getD [])).1.setPeer p { (b1_distq_sync_walk p tgt (s.setPeer p { s.peers p with localTs := tgt, clock := b1_distq_ts_force_sync (s.peers p).clock tgt }) (((s.setPeer p { s.peers p with localTs := tgt, clock := b1_distq_ts_force_sync (s.peers p).clock tgt }).peers p).queue.busy.getD [])).1.peers p with queue := { ((b1_distq_sync_walk p tgt (s.setPeer p { s.peers p with localTs := tgt, clock := b1_distq_ts_force_sync (s.peers p).clock tgt }) (((s.setPeer p { s.peers p with localTs := tgt, clock := b1_distq_ts_force_sync (s.peers p).clock tgt }).peers p).queue.busy.getD [])).1.peers p).queue with incoming := some [] } })
    (b1_distq_sync_walk p tgt ((b1_distq_sync_walk p tgt (s.setPeer p { s.peers p with localTs := tgt, clock := b1_distq_ts_force_sync (s.peers p).clock tgt }) (((s.setPeer p { s.peers p with localTs := tgt, clock := b1_distq_ts_force_sync (s.peers p).clock tgt }).peers p).queue.busy.getD [])).1.setPeer p { (b1_distq_sync_walk p tgt (s.setPeer p { s.peers p with localTs := tgt, clock := b1_distq_ts_force_sync (s.peers p).clock tgt }) (((s.setPeer p { s.peers p with localTs := tgt, clock := b1_distq_ts_force_sync (s.peers p).clock tgt }).peers p).queue.busy.getD [])).1.peers p with queue := { ((b1_distq_sync_walk p tgt (s.setPeer p { s.peers p with localTs := tgt, clock := b1_distq_ts_force_sync (s.peers p).clock tgt }) (((s.setPeer p { s.peers p with localTs := tgt, clock := b1_distq_ts_force_sync (s.peers p).clock tgt }).peers p).queue.busy.getD [])).1.peers p).queue with incoming := some [] } }) (((b1_distq_sync_walk p tgt (s.setPeer p { s.peers p with localTs := tgt, clock := b1_distq_ts_force_sync (s.peers p).clock tgt }) (((s.setPeer p { s.peers p with localTs := tgt, clock := b1_distq_ts_force_sync (s.peers p).clock tgt }).peers p).queue.busy.getD [])).1.peers p).queue.incoming.getD [])).1
    ((b1_distq_sync_walk p tgt ((b1_distq_sync_walk p tgt (s.setPeer p { s.peers p with localTs := tgt, clock := b1_distq_ts_force_sync (s.peers p).clock tgt }) (((s.setPeer p { s.peers p with localTs := tgt, clock := b1_distq_ts_force_sync (s.peers p).clock tgt }).peers p).queue.busy.getD [])).1.setPeer p { (b1_distq_sync_walk p tgt (s.setPeer p { s.peers p with localTs := tgt, clock := b1_distq_ts_force_sync (s.peers p).clock tgt }) (((s.setPeer p { s.peers p with localTs := tgt, clock := b1_distq_ts_force_sync (s.peers p).clock tgt }).peers p).queue.busy.getD [])).1.peers p with queue := { ((b1_distq_sync_walk p tgt (s.setPeer p { s.peers p with localTs := tgt, clock := b1_distq_ts_force_sync (s.peers p).clock tgt }) (((s.setPeer p { s.peers p with localTs := tgt, clock := b1_distq_ts_force_sync (s.peers p).clock tgt }).peers p).queue.busy.getD [])).1.peers p).queue with incoming := some [] } }) (((b1_distq_sync_walk p tgt (s.setPeer p { s.peers p with localTs := tgt, clock := b1_distq_ts_force_sync (s.peers p).clock tgt }) (((s.setPeer p { s.peers p with localTs := tgt, clock := b1_distq_ts_force_sync (s.peers p).clock tgt }).peers p).queue.busy.getD [])).1.peers p).queue.incoming.getD [])).1.setPeer p { (b1_distq_sync_walk p tgt ((b1_distq_sync_walk p tgt (s.setPeer p { s.peers p with localTs := tgt, clock := b1_distq_ts_force_sync (s.peers p).clock tgt }) (((s.setPeer p { s.peers p with localTs := tgt, clock := b1_distq_ts_force_sync (s.peers p).clock tgt }).peers p).queue.busy.getD [])).1.setPeer p { (b1_distq_sync_walk p tgt (s.setPeer p { s.peers p with localTs := tgt, clock := b1_distq_ts_force_sync (s.peers p).clock tgt }) (((s.setPeer p { s.peers p with localTs := tgt, clock := b1_distq_ts_force_sync (s.peers p).clock tgt }).peers p).queue.busy.getD [])).1.peers p with queue := { ((b1_distq_sync_walk p tgt (s.setPeer p { s.peers p with localTs := tgt, clock := b1_distq_ts_force_sync (s.peers p).clock tgt }) (((s.setPeer p { s.peers p with localTs := tgt, clock := b1_distq_ts_force_sync (s.peers p).clock tgt }).peers p).queue.busy.getD [])).1.peers p).queue with incoming := some [] } }) (((b1_distq_sync_walk p tgt (s.setPeer p { s.peers p with localTs := tgt, clock := b1_distq_ts_force_sync (s.peers p).clock tgt }) (((s.setPeer p { s.peers p with localTs := tgt, clock := b1_distq_ts_force_sync (s.peers p).clock tgt }).peers p).queue.busy.getD [])).1.peers p).queue.incoming.getD [])).1.peers p with queue := { ((b1_distq_sync_walk p tgt ((b1_distq_sync_walk p tgt (s.setPeer p { s.peers p with localTs := tgt, clock := b1_distq_ts_force_sync (s.peers p).clock tgt }) (((s.setPeer p { s.peers p with localTs := tgt, clock := b1_distq_ts_force_sync (s.peers p).clock tgt }).peers p).queue.busy.getD [])).1.setPeer p { (b1_distq_sync_walk p tgt (s.setPeer p { s.peers p with localTs := tgt, clock := b1_distq_ts_force_sync (s.peers p).clock tgt }) (((s.setPeer p { s.peers p with localTs := tgt, clock := b1_distq_ts_force_sync (s.peers p).clock tgt }).peers p).queue.busy.getD [])).1.peers p with queue := { ((b1_distq_sync_walk p tgt (s.setPeer p { s.peers p with localTs := tgt, clock := b1_distq_ts_force_sync (s.peers p).clock tgt }) (((s.setPeer p { s.peers p with localTs := tgt, clock := b1_distq_ts_force_sync (s.peers p).clock tgt }).peers p).queue.busy.getD [])).1.peers p).queue with incoming := some [] } }) (((b1_distq_sync_walk p tgt (s.setPeer p { s.peers p with localTs := tgt, clock := b1_distq_ts_force_sync (s.peers p).clock tgt }) (((s.setPeer p { s.peers p with localTs := tgt, clock := b1_distq_ts_force_sync (s.peers p).clock tgt }).peers p).queue.busy.getD [])).1.peers p).queue.incoming.getD [])).1.peers p).queue with busy := some ((b1_distq_sync_walk p tgt (s.setPeer p { s.peers p with localTs := tgt, clock := b1_distq_ts_force_sync (s.peers p).clock tgt }) (((s.setPeer p { s.peers p with localTs := tgt, clock := b1_distq_ts_force_sync (s.peers p).clock tgt }).peers p).queue.busy.getD [])).2 ++ (b1_distq_sync_walk p tgt ((b1_distq_sync_walk p tgt (s.setPeer p { s.peers p with localTs := tgt, clock := b1_distq_ts_force_sync (s.peers p).clock tgt }) (((s.setPeer p { s.peers p with localTs := tgt, clock := b1_distq_ts_force_sync (s.peers p).clock tgt }).peers p).queue.busy.getD [])).1.setPeer p { (b1_distq_sync_walk p tgt (s.setPeer p { s.peers p with localTs := tgt, clock := b1_distq_ts_force_sync (s.peers p).clock tgt }) (((s.setPeer p { s.peers p with localTs := tgt, clock := b1_distq_ts_force_sync (s.peers p).clock tgt }).peers p).queue.busy.getD [])).1.peers p with queue := { ((b1_distq_sync_walk p tgt (s.setPeer p { s.peers p with localTs := tgt, clock := b1_distq_ts_force_sync (s.peers p).clock tgt }) (((s.setPeer p { s.peers p with localTs := tgt, clock := b1_distq_ts_force_sync (s.peers p).clock tgt }).peers p).queue.busy.getD [])).1.peers p).queue with incoming := some [] } }) (((b1_distq_sync_walk p tgt (s.setPeer p { s.peers p with localTs := tgt, clock := b1_distq_ts_force_sync (s.peers p).clock tgt }) (((s.setPeer p { s.peers p with localTs := tgt, clock := b1_distq_ts_force_sync (s.peers p).clock tgt }).peers p).queue.busy.getD [])).1.peers p).queue.incoming.getD [])).2) } })
    (b1_distq_peer_sync s p tgt)
    (((s.setPeer p { s.peers p with localTs := tgt, clock := b1_distq_ts_force_sync (s.peers p).clock tgt }).peers p).queue.busy.getD [])
    (((b1_distq_sync_walk p tgt (s.setPeer p { s.peers p with localTs := tgt, clock := b1_distq_ts_force_sync (s.peers p).clock tgt }) (((s.setPeer p { s.peers p with localTs := tgt, clock := b1_distq_ts_force_sync (s.peers p).clock tgt }).peers p).queue.busy.getD [])).1.peers p).queue.incoming.getD [])
    (b1_distq_sync_walk p tgt (s.setPeer p { s.peers p with localTs := tgt, clock := b1_distq_ts_force_sync (s.peers p).clock tgt }) (((s.setPeer p { s.peers p with localTs := tgt, clock := b1_distq_ts_force_sync (s.peers p).clock tgt }).peers p).queue.busy.getD [])).2
    (b1_distq_sync_walk p tgt ((b1_distq_sync_walk p tgt (s.setPeer p { s.peers p with localTs := tgt, clock := b1_distq_ts_force_sync (s.peers p).clock tgt }) (((s.setPeer p { s.peers p with localTs := tgt, clock := b1_distq_ts_force_sync (s.peers p).clock tgt }).peers p).queue.busy.getD [])).1.setPeer p { (b1_distq_sync_walk p tgt (s.setPeer p { s.peers p with localTs := tgt, clock := b1_distq_ts_force_sync (s.peers p).clock tgt }) (((s.setPeer p { s.peers p with localTs := tgt, clock := b1_distq_ts_force_sync (s.peers p).clock tgt }).peers p).queue.busy.getD [])).1.peers p with queue := { ((b1_distq_sync_walk p tgt (s.setPeer p { s.peers p with localTs := tgt, clock := b1_distq_ts_force_sync (s.peers p).clock tgt }) (((s.setPeer p { s.peers p with localTs := tgt, clock := b1_distq_ts_force_sync (s.peers p).clock tgt }).peers p).queue.busy.getD [])).1.peers p).queue with incoming := some [] } }) (((b1_distq_sync_walk p tgt (s.setPeer p { s.peers p with localTs := tgt, clock := b1_distq_ts_force_sync (s.peers p).clock tgt }) (((s.setPeer p { s.peers p with localTs := tgt, clock := b1_distq_ts_force_sync (s.peers p).clock tgt }).peers p).queue.busy.getD [])).1.peers p).queue.incoming.getD [])).2
    h htent hgt hchain_eq rfl specA rfl rfl
    (fun q hq => setPeer_peers_other _ _ hq)
    (setPeer_peers_self _ _ _) specB rfl rfl
    (fun q hq => setPeer_peers_other _ _ hq)
    (setPeer_peers_self _ _ _) hfin


/- ------------------------------------------------------------------ -/
/- The peek entry point.                                              -/
/- ------------------------------------------------------------------ -/

theorem mem_of_getLast {α : Type} : ∀ {l : List α} {a : α},
    l.getLast? = some a → a ∈ l := by
  intro l
  induction l with
  | nil => intro a h; cases h
  | cons x rest ih =>
    intro a h
    cases rest with
    | nil =>
      simp only [List.getLast?_singleton, Option.some.injEq] at h
      rw [h]
      exact List.mem_singleton_self a
    | cons y rest2 =>
      rw [List.getLast?_cons_cons] at h
      exact List.mem_cons_of_mem x (ih h)

/-- A state seen as the result of a maintenance call that did nothing. -/
theorem MOut_refl (p : PeerId) (s : State) (h : Inv s) : MOut p s s := {
  inv := h
  tx_mono := fun _ => le_refl _
  tx_tent := fun _ h2 => h2
  tx_comm := fun _ _ => rfl
  peers_other := fun _ _ => rfl
  clock_mono := le_refl _
  local_mono := le_refl _
  ncomm_eq := rfl
  node_tx := fun _ => rfl
  node_refs := fun _ => rfl
  ts_out := fun _ _ => rfl
  chain_sub := fun _ hx => hx
  floor := fun _ _ hr => hr
  ready_old_sub := fun _ hx => hx
  nodes_ready_old := fun _ _ => rfl }

/-- A maintenance contract plus the front condition gives a peek
contract. -/
theorem PeekOut_of_MOut {p : PeerId} {s s' : State} {r : Option NodeId}
    (m : MOut p s s')
    (hr : ∀ f, r = some f →
      (s'.peers p).queue.ready.head? = some f
      ∧ (s'.nodes f).timestamp < (s'.peers p).localTs) :
    PeekOut p s s' r := {
  inv := m.inv
  tx_mono := m.tx_mono
  tx_tent := m.tx_tent
  tx_comm := m.tx_comm
  peers_other := m.peers_other
  clock_mono := m.clock_mono
  local_mono := m.local_mono
  ncomm_eq := m.ncomm_eq
  node_tx := m.node_tx
  node_refs := m.node_refs
  ts_out := m.ts_out
  chain_sub := m.chain_sub
  floor := m.floor
  res_some := hr }

/-- A maintenance call followed by a peek is a peek. -/
theorem PeekOut_comp {p : PeerId} {s s1 s2 : State} {r : Option NodeId}
    (m : MOut p s s1) (po : PeekOut p s1 s2 r) : PeekOut p s s2 r := {
  inv := po.inv
  tx_mono := fun t => le_trans (m.tx_mono t) (po.tx_mono t)
  tx_tent := fun t h2 => po.tx_tent t (m.tx_tent t h2)
  tx_comm := fun t h2 => by
    rw [po.tx_comm t (by rw [m.tx_comm t h2]; exact h2), m.tx_comm t h2]
  peers_other := fun q hq => by
    rw [po.peers_other q hq, m.peers_other q hq]
  clock_mono := le_trans m.clock_mono po.clock_mono
  local_mono := le_trans m.local_mono po.local_mono
  ncomm_eq := by rw [po.ncomm_eq, m.ncomm_eq]
  node_tx := fun k => by rw [po.node_tx k, m.node_tx k]
  node_refs := fun k => by rw [po.node_refs k, m.node_refs k]
  ts_out := fun x hx => by
    have h1 : x ∉ chainNodes s1 p := fun hm => hx (m.chain_sub x hm)
    rw [po.ts_out x h1, m.ts_out x hx]
  chain_sub := fun x hx => m.chain_sub x (po.chain_sub x hx)
  floor := fun B hB hr =>
    po.floor B (le_trans hB m.local_mono) (m.floor B hB hr)
  res_some := po.res_some }

/-- The slow tail of peek keeps the peek contract: either the cached front
is already below the local mark, or the queue is synced against the
ready-tail timestamp plus one and the new front is below the new mark. -/
theorem peek_slow_spec (s : State) (p : PeerId) (f : NodeId) (h : Inv s)
    (hf : (s.peers p).queue.ready.head? = some f) :
    PeekOut p s (b1_distq_peek_slow s p f).1 (b1_distq_peek_slow s p f).2
    := by
  by_cases hguard : (s.nodes f).timestamp ≥ (s.peers p).localTs
  · cases hlast : (s.peers p).queue.ready.getLast? with
    | none =>
      rw [List.getLast?_eq_none_iff] at hlast
      rw [hlast] at hf
      cases hf
    | some ln =>
      have heq : b1_distq_peek_slow s p f
          = (b1_distq_peer_sync s p ((s.nodes ln).timestamp + 1),
             ((b1_distq_peer_sync s p
               ((s.nodes ln).timestamp + 1)).peers p).queue.ready.head?)
          := by
        unfold b1_distq_peek_slow
        rw [if_pos hguard, hlast]
      have hlnmem : ln ∈ (s.peers p).queue.ready := mem_of_getLast hlast
      have hlncomm := h.ready_comm p ln hlnmem
      have htent : b1_distq_ts_committed ((s.nodes ln).timestamp + 1)
          = false := by
        rw [ts_not_committed_iff]
        have := (ts_committed_iff _).mp hlncomm
        omega
      have hfmem : f ∈ (s.peers p).queue.ready := by
        cases hl : (s.peers p).queue.ready with
        | nil => rw [hl] at hf; cases hf
        | cons a rest =>
          rw [hl] at hf
          have haf : a = f := Option.some.inj hf
          rw [← haf]
          exact List.mem_cons_self a rest
      have hfln : (s.nodes f).timestamp ≤ (s.nodes ln).timestamp := by
        cases hl : (s.peers p).queue.ready with
        | nil => rw [hl] at hf; cases hf
        | cons a rest =>
          have hp := h.ready_pair p
          rw [hl] at hp hf
          have haf : a = f := Option.some.inj hf
          rw [hl] at hlnmem
          have h2 := pairwise_head_le hp ln hlnmem
          rw [haf] at h2
          exact h2
      have hgt : (s.peers p).localTs < (s.nodes ln).timestamp + 1 := by
        omega
      obtain ⟨m, hlocal, _⟩ := sync_op_spec s p
        ((s.nodes ln).timestamp + 1) h htent hgt
      rw [heq]
      dsimp only
      refine PeekOut_of_MOut m ?_
      intro g hg
      refine ⟨hg, ?_⟩
      have hfin : f ∈ ((b1_distq_peer_sync s p
          ((s.nodes ln).timestamp + 1)).peers p).queue.ready :=
        m.ready_old_sub f hfmem
      have hnf := m.nodes_ready_old f hfmem
      cases hl2 : ((b1_distq_peer_sync s p
          ((s.nodes ln).timestamp + 1)).peers p).queue.ready with
      | nil => rw [hl2] at hg; cases hg
      | cons b tail =>
        rw [hl2] at hg
        have hbg : b = g := Option.some.inj hg
        have hp2 := m.inv.ready_pair p
        rw [hl2] at hp2 hfin
        have h3 := pairwise_head_le hp2 f hfin
        rw [hbg] at h3
        unfold tsLe at h3
        rw [hnf] at h3
        rw [hlocal]
        omega
  · have heq : b1_distq_peek_slow s p f = (s, some f) := by
      unfold b1_distq_peek_slow
      rw [if_neg hguard]
    rw [heq]
    dsimp only
    refine PeekOut_of_MOut (MOut_refl p s h) ?_
    intro g hg
    have hfg : f = g := Option.some.inj hg
    rw [← hfg]
    refine ⟨hf, ?_⟩
    omega

/-- b1_distq_peer_peek obeys the peek contract. -/
theorem peek_spec (s : State) (p : PeerId) (h : Inv s) :
    PeekOut p s (b1_distq_peer_peek s p).1 (b1_distq_peer_peek s p).2 := by
  cases hh : (s.peers p).queue.ready.head? with
  | some f =>
    have heq : b1_distq_peer_peek s p = b1_distq_peek_slow s p f := by
      simp only [b1_distq_peer_peek, hh]
    rw [heq]
    exact peek_slow_spec s p f h hh
  | none =>
    obtain ⟨m, _, _, _, _⟩ := prefetch_op_spec s p h
    cases hh2 : ((b1_distq_peer_prefetch s p).peers p).queue.ready.head? with
    | none =>
      have heq : b1_distq_peer_peek s p = (b1_distq_peer_prefetch s p, none)
          := by
        simp only [b1_distq_peer_peek, hh, hh2]
      rw [heq]
      exact PeekOut_of_MOut m (fun g hg => by cases hg)
    | some f =>
      have heq : b1_distq_peer_peek s p
          = b1_distq_peek_slow (b1_distq_peer_prefetch s p) p f := by
        simp only [b1_distq_peer_peek, hh, hh2]
      rw [heq]
      exact PeekOut_comp m (peek_slow_spec _ p f m.inv hh2)

/-- Every contracted operation keeps the reachable-state invariant. -/
theorem Inv_step (s : State) (op : Op) (h : Inv s)
    (hleg : legalOp s op = true) : Inv (applyOp s op) := by
  cases op with
  | queue n t d =>
    simp only [legalOp, Bool.and_eq_true, beq_iff_eq,
      Bool.not_eq_true'] at hleg
    exact Inv_queue s n t d hleg.1.1 hleg.1.2 hleg.2 h
  | txCommit t q => exact Inv_txCommit s t q h
  | nodeCommit n d => exact Inv_nodeCommit s n d hleg h
  | peek q => exact (peek_spec s q h).inv
  | pop q n => exact Inv_pop s q n h
  | finalize q => exact Inv_finalize s q h


/- ------------------------------------------------------------------ -/
/- Per-operation observations for the trace inductions.               -/
/- ------------------------------------------------------------------ -/

theorem pop_nodes (s : State) (p : PeerId) (n : NodeId) :
    (b1_distq_peer_pop s p n).nodes = s.nodes := by
  unfold b1_distq_peer_pop b1_distq_peer_pop_ready
  cases (s.peers p).queue.ready <;> rfl

theorem pop_peers_other (s : State) {p q : PeerId} (n : NodeId)
    (h : q ≠ p) : (b1_distq_peer_pop s p n).peers q = s.peers q := by
  unfold b1_distq_peer_pop b1_distq_peer_pop_ready
  cases (s.peers p).queue.ready with
  | nil =>
    dsimp only
    rw [setPeer_peers_other _ _ h]
  | cons x rest =>
    dsimp only
    rw [setPeer_peers_other _ _ h, setPeer_peers_other _ _ h]

theorem pop_peer_self (s : State) (p : PeerId) (n : NodeId) :
    ((b1_distq_peer_pop s p n).peers p).clock = (s.peers p).clock
    ∧ ((b1_distq_peer_pop s p n).peers p).localTs = (s.peers p).localTs
    ∧ ∀ x ∈ ((b1_distq_peer_pop s p n).peers p).queue.ready,
        x ∈ (s.peers p).queue.ready := by
  unfold b1_distq_peer_pop b1_distq_peer_pop_ready
  cases hrd : (s.peers p).queue.ready with
  | nil =>
    dsimp only
    refine ⟨by simp only [setPeer_peers_self],
      by simp only [setPeer_peers_self], ?_⟩
    intro x hx
    simp only [setPeer_peers_self] at hx
    rw [hrd] at hx
    exact hx
  | cons a rest =>
    dsimp only
    refine ⟨by simp only [setPeer_peers_self],
      by simp only [setPeer_peers_self], ?_⟩
    intro x hx
    simp only [setPeer_peers_self] at hx
    exact List.mem_cons_of_mem a hx

theorem finalize_nodes_ts (s : State) (p : PeerId) (k : NodeId) :
    (((b1_distq_peer_finalize s p).1).nodes k).timestamp
      = (s.nodes k).timestamp := by
  unfold b1_distq_peer_finalize
  cases hin : (s.peers p).queue.incoming with
  | none => rfl
  | some inc =>
    dsimp only
    exact (rethread_nodes _ _ k).1

theorem finalize_peers_other (s : State) {p q : PeerId} (h : q ≠ p) :
    ((b1_distq_peer_finalize s p).1).peers q = s.peers q := by
  unfold b1_distq_peer_finalize
  cases hin : (s.peers p).queue.incoming with
  | none => rfl
  | some inc =>
    dsimp only
    rw [rethread_peers]
    exact setPeer_peers_other _ _ h

theorem finalize_peer_self (s : State) (p : PeerId) :
    (((b1_distq_peer_finalize s p).1).peers p).clock = (s.peers p).clock
    ∧ (((b1_distq_peer_finalize s p).1).peers p).localTs
        = (s.peers p).localTs
    ∧ ((((b1_distq_peer_finalize s p).1).peers p).queue.ready = []
        ∨ (b1_distq_peer_finalize s p).1 = s) := by
  unfold b1_distq_peer_finalize
  cases hin : (s.peers p).queue.incoming with
  | none => exact ⟨rfl, rfl, Or.inr rfl⟩
  | some inc =>
    dsimp only
    rw [rethread_peers]
    exact ⟨by simp only [setPeer_peers_self],
      by simp only [setPeer_peers_self],
      Or.inl (by simp only [setPeer_peers_self])⟩

/-- A non-warning queue never changes node timestamps, clocks, local marks
or ready trees. -/
theorem queue_obs (s : State) (n : NodeId) (t : TxId) (d : PeerId)
    (hw : b1_distq_node_queue_warns s n = false) :
    (∀ k, ((b1_distq_node_queue s n t d).nodes k).timestamp
        = (s.nodes k).timestamp)
    ∧ (∀ q, ((b1_distq_node_queue s n t d).peers q).clock
        = (s.peers q).clock)
    ∧ (∀ q, ((b1_distq_node_queue s n t d).peers q).localTs
        = (s.peers q).localTs)
    ∧ (∀ q, ((b1_distq_node_queue s n t d).peers q).queue.ready
        = (s.peers q).queue.ready) := by
  cases hin : (s.peers d).queue.incoming with
  | none =>
    obtain ⟨hct, hct', hcn, hcn', hcp⟩ := queue_closed_chars s n t d hw hin
    refine ⟨?_, ?_, ?_, ?_⟩
    · intro k
      by_cases hk : k = n
      · rw [hk, hcn]
      · rw [hcn' k hk]
    · intro q; rw [hcp]
    · intro q; rw [hcp]
    · intro q; rw [hcp]
  | some l =>
    obtain ⟨hct, hct', hcn, hcn', hcq, hcd⟩ :=
      queue_open_chars s n t d l hw hin
    refine ⟨?_, ?_, ?_, ?_⟩
    · intro k
      by_cases hk : k = n
      · rw [hk, hcn]
      · rw [hcn' k hk]
    · intro q
      by_cases hq : q = d
      · rw [hq, hcd]
      · rw [hcq q hq]
    · intro q
      by_cases hq : q = d
      · rw [hq, hcd]
      · rw [hcq q hq]
    · intro q
      by_cases hq : q = d
      · rw [hq, hcd]
      · rw [hcq q hq]

/-- node_commit only raises the destination clock. -/
theorem commit_obs (s : State) (n : NodeId) (d : PeerId) :
    ((b1_distq_node_commit s n d).nodes = s.nodes)
    ∧ (∀ q, (s.peers q).clock
        ≤ ((b1_distq_node_commit s n d).peers q).clock)
    ∧ (∀ q, ((b1_distq_node_commit s n d).peers q).localTs
        = (s.peers q).localTs)
    ∧ (∀ q, ((b1_distq_node_commit s n d).peers q).queue.ready
        = (s.peers q).queue.ready) := by
  cases htx : (s.nodes n).tx with
  | none =>
    unfold b1_distq_node_commit
    rw [htx]
    exact ⟨rfl, fun q => le_refl _, fun q => rfl, fun q => rfl⟩
  | some t =>
    obtain ⟨hctx, hcnodes, hcq, hcd⟩ := node_commit_chars s n d t htx
    refine ⟨hcnodes, ?_, ?_, ?_⟩
    · intro q
      by_cases hq : q = d
      · rw [hq, hcd]
        show (s.peers d).clock
          ≤ b1_distq_ts_force_sync ((s.peers d).clock) _
        exact ts_force_sync_ge _ _
      · rw [hcq q hq]
    · intro q
      by_cases hq : q = d
      · rw [hq, hcd]
      · rw [hcq q hq]
    · intro q
      by_cases hq : q = d
      · rw [hq, hcd]
      · rw [hcq q hq]

/-- One contracted operation never lowers a clock or a local mark, and keeps
any ready floor that sits below the local mark. -/
theorem step_obs (s : State) (op : Op) (p : PeerId) (h : Inv s)
    (hleg : legalOp s op = true) :
    (s.peers p).clock ≤ ((applyOp s op).peers p).clock
    ∧ (s.peers p).localTs ≤ ((applyOp s op).peers p).localTs
    ∧ ∀ m : Int, m ≤ (s.peers p).localTs →
        (∀ x ∈ (s.peers p).queue.ready, m ≤ (s.nodes x).timestamp) →
        (∀ x ∈ ((applyOp s op).peers p).queue.ready,
          m ≤ ((applyOp s op).nodes x).timestamp) := by
  cases op with
  | queue n t d =>
    simp only [applyOp]
    simp only [legalOp, Bool.and_eq_true, beq_iff_eq,
      Bool.not_eq_true'] at hleg
    have hw : b1_distq_node_queue_warns s n = false := by
      simp [b1_distq_node_queue_warns, hleg.1.1, hleg.1.2]
    obtain ⟨hts, hck, hlc, hrd⟩ := queue_obs s n t d hw
    refine ⟨le_of_eq (hck p).symm, le_of_eq (hlc p).symm, ?_⟩
    intro m hm hr x hx
    rw [hrd p] at hx
    rw [hts x]
    exact hr x hx
  | txCommit t q =>
    simp only [applyOp]
    exact ⟨le_refl _, le_refl _, fun m hm hr x hx => hr x hx⟩
  | nodeCommit n d =>
    simp only [applyOp]
    obtain ⟨hnodes, hck, hlc, hrd⟩ := commit_obs s n d
    refine ⟨hck p, le_of_eq (hlc p).symm, ?_⟩
    intro m hm hr x hx
    rw [hrd p] at hx
    rw [hnodes]
    exact hr x hx
  | peek q =>
    simp only [applyOp]
    have po := peek_spec s q h
    by_cases hpq : p = q
    · rw [hpq]
      exact ⟨po.clock_mono, po.local_mono, fun m hm hr => po.floor m hm hr⟩
    · refine ⟨le_of_eq (by rw [po.peers_other p hpq]),
        le_of_eq (by rw [po.peers_other p hpq]), ?_⟩
      intro m hm hr x hx
      rw [po.peers_other p hpq] at hx
      have hxq : x ∉ chainNodes s q := by
        intro hc
        exact h.disjoint p q hpq x
          (List.mem_append.mpr (Or.inr hx))
          (List.mem_append.mpr (Or.inl hc))
      rw [po.ts_out x hxq]
      exact hr x hx
  | pop q n =>
    simp only [applyOp]
    obtain ⟨hck, hlc, hsub⟩ := pop_peer_self s q n
    by_cases hpq : p = q
    · rw [hpq]
      refine ⟨le_of_eq hck.symm, le_of_eq hlc.symm, ?_⟩
      intro m hm hr x hx
      rw [pop_nodes]
      exact hr x (hsub x hx)
    · refine ⟨le_of_eq (by rw [pop_peers_other s n hpq]),
        le_of_eq (by rw [pop_peers_other s n hpq]), ?_⟩
      intro m hm hr x hx
      rw [pop_peers_other s n hpq] at hx
      rw [pop_nodes]
      exact hr x hx
  | finalize q =>
    simp only [applyOp]
    obtain ⟨hck, hlc, hrd⟩ := finalize_peer_self s q
    by_cases hpq : p = q
    · rw [hpq]
      refine ⟨le_of_eq hck.symm, le_of_eq hlc.symm, ?_⟩
      intro m hm hr x hx
      rcases hrd with h1 | h1
      · rw [h1] at hx
        cases hx
      · rw [h1] at hx ⊢
        exact hr x hx
    · refine ⟨le_of_eq (by rw [finalize_peers_other s hpq]),
        le_of_eq (by rw [finalize_peers_other s hpq]), ?_⟩
      intro m hm hr x hx
      rw [finalize_peers_other s hpq] at hx
      rw [finalize_nodes_ts]
      exact hr x hx

/- ------------------------------------------------------------------ -/
/- Trace-level inductions.                                            -/
/- ------------------------------------------------------------------ -/

theorem Inv_trace : ∀ (ops : List Op) (s : State), Inv s →
    legalTrace s ops = true → Inv (runOps s ops) := by
  intro ops
  induction ops with
  | nil => intro s h _; exact h
  | cons op rest ih =>
    intro s h hleg
    simp only [legalTrace, Bool.and_eq_true] at hleg
    exact ih (applyOp s op) (Inv_step s op h hleg.1) hleg.2

theorem clock_trace : ∀ (ops : List Op) (s : State) (p : PeerId), Inv s →
    legalTrace s ops = true →
    (s.peers p).clock ≤ ((runOps s ops).peers p).clock := by
  intro ops
  induction ops with
  | nil => intro s p _ _; exact le_refl _
  | cons op rest ih =>
    intro s p h hleg
    simp only [legalTrace, Bool.and_eq_true] at hleg
    exact le_trans (step_obs s op p h hleg.1).1
      (ih (applyOp s op) p (Inv_step s op h hleg.1) hleg.2)

theorem runOps_append : ∀ (l1 l2 : List Op) (s : State),
    runOps s (l1 ++ l2) = runOps (runOps s l1) l2 := by
  intro l1
  induction l1 with
  | nil => intro l2 s; rfl
  | cons op rest ih =>
    intro l2 s
    exact ih l2 (applyOp s op)

theorem legalTrace_append : ∀ (l1 l2 : List Op) (s : State),
    legalTrace s (l1 ++ l2)
      = (legalTrace s l1 && legalTrace (runOps s l1) l2) := by
  intro l1
  induction l1 with
  | nil => intro l2 s; rfl
  | cons op rest ih =>
    intro l2 s
    show (legalOp s op && legalTrace (applyOp s op) (rest ++ l2))
        = ((legalOp s op && legalTrace (applyOp s op) rest)
            && legalTrace (runOps (applyOp s op) rest) l2)
    rw [ih l2 (applyOp s op), Bool.and_assoc]

theorem mem_of_head {α : Type} {l : List α} {a : α}
    (h : l.head? = some a) : a ∈ l := by
  cases l with
  | nil => cases h
  | cons x rest =>
    have hxa : x = a := Option.some.inj h
    rw [← hxa]
    exact List.mem_cons_self x rest

theorem chain_of_bound {v : Int} {l : List Int}
    (hc : List.Chain' (fun a b => a ≤ b) l) (hb : ∀ w ∈ l, v ≤ w) :
    List.Chain' (fun a b => a ≤ b) (v :: l) := by
  cases l with
  | nil => simp
  | cons w tail =>
    exact List.Chain'.cons (hb w (List.mem_cons_self w tail)) hc

/-- The ghost-floor induction behind C2: along any legal trace, the peeked
timestamps of a peer are chained and bounded below by any floor that sits
below the local mark and under the ready tree. -/
theorem peekResults_bounds (p : PeerId) : ∀ (ops : List Op) (s : State)
    (m : Int), Inv s → legalTrace s ops = true →
    m ≤ (s.peers p).localTs →
    (∀ x ∈ (s.peers p).queue.ready, m ≤ (s.nodes x).timestamp) →
    List.Chain' (fun a b => a ≤ b) (peekResults s p ops)
    ∧ ∀ v ∈ peekResults s p ops, m ≤ v := by
  intro ops
  induction ops with
  | nil =>
    intro s m _ _ _ _
    exact ⟨List.chain'_nil, by simp [peekResults]⟩
  | cons op rest ih =>
    intro s m h hleg hm hr
    simp only [legalTrace, Bool.and_eq_true] at hleg
    obtain ⟨hleg1, hleg2⟩ := hleg
    have hInv2 := Inv_step s op h hleg1
    obtain ⟨hck, hlc, hfl⟩ := step_obs s op p h hleg1
    cases op with
    | queue n t d =>
      exact ih (applyOp s (Op.queue n t d)) m hInv2 hleg2
        (le_trans hm hlc) (hfl m hm hr)
    | txCommit t q =>
      exact ih (applyOp s (Op.txCommit t q)) m hInv2 hleg2
        (le_trans hm hlc) (hfl m hm hr)
    | nodeCommit n d =>
      exact ih (applyOp s (Op.nodeCommit n d)) m hInv2 hleg2
        (le_trans hm hlc) (hfl m hm hr)
    | pop q n =>
      exact ih (applyOp s (Op.pop q n)) m hInv2 hleg2
        (le_trans hm hlc) (hfl m hm hr)
    | finalize q =>
      exact ih (applyOp s (Op.finalize q)) m hInv2 hleg2
        (le_trans hm hlc) (hfl m hm hr)
    | peek q =>
      by_cases hpq : q = p
      · subst hpq
        have po := peek_spec s q h
        cases hres : (b1_distq_peer_peek s q).2 with
        | none =>
          have heq : peekResults s q (Op.peek q :: rest)
              = peekResults (b1_distq_peer_peek s q).1 q rest := by
            simp only [peekResults, eq_self_iff_true, if_true]
            rw [hres]
          rw [heq]
          exact ih (b1_distq_peer_peek s q).1 m po.inv hleg2
            (le_trans hm po.local_mono) (po.floor m hm hr)
        | some f =>
          obtain ⟨hhead, hlt⟩ := po.res_some f hres
          have heq : peekResults s q (Op.peek q :: rest)
              = ((b1_distq_peer_peek s q).1.nodes f).timestamp
                :: peekResults (b1_distq_peer_peek s q).1 q rest := by
            simp only [peekResults, eq_self_iff_true, if_true]
            rw [hres]
          rw [heq]
          have hfmem : f ∈ ((b1_distq_peer_peek s q).1.peers q).queue.ready
              := mem_of_head hhead
          have hm2 : ((b1_distq_peer_peek s q).1.nodes f).timestamp
              ≤ ((b1_distq_peer_peek s q).1.peers q).localTs :=
            le_of_lt hlt
          have hr2 : ∀ x ∈ ((b1_distq_peer_peek s q).1.peers q).queue.ready,
              ((b1_distq_peer_peek s q).1.nodes f).timestamp
                ≤ ((b1_distq_peer_peek s q).1.nodes x).timestamp := by
            intro x hx
            cases hl : ((b1_distq_peer_peek s q).1.peers q).queue.ready with
            | nil =>
              rw [hl] at hx
              cases hx
            | cons a tail =>
              rw [hl] at hhead hx
              have haf : a = f := Option.some.inj hhead
              have hp2 := po.inv.ready_pair q
              rw [hl] at hp2
              have h3 := pairwise_head_le hp2 x hx
              rw [haf] at h3
              exact h3
          obtain ⟨hchain, hbound⟩ := ih (b1_distq_peer_peek s q).1
            ((b1_distq_peer_peek s q).1.nodes f).timestamp
            po.inv hleg2 hm2 hr2
          have hmv : m ≤ ((b1_distq_peer_peek s q).1.nodes f).timestamp :=
            po.floor m hm hr f hfmem
          refine ⟨chain_of_bound hchain hbound, ?_⟩
          intro v hv
          rcases List.mem_cons.mp hv with rfl | hv2
          · exact hmv
          · exact le_trans hmv (hbound v hv2)
      · have heq : peekResults s p (Op.peek q :: rest)
            = peekResults (b1_distq_peer_peek s q).1 p rest := by
          simp only [peekResults]
          rw [if_neg hpq]
        rw [heq]
        exact ih (b1_distq_peer_peek s q).1 m hInv2 hleg2
          (le_trans hm hlc) (hfl m hm hr)


/- ------------------------------------------------------------------ -/
/- Claims C2, C8, C9.                                                 -/
/- ------------------------------------------------------------------ -/

/-- C2: Timestamp monotonicity per peer: along any legal operation sequence
from the initial state, the resolved timestamps of the nodes returned by
the successive peek calls on a peer P form a non-decreasing sequence. -/
theorem peek_monotonicity (ops : List Op) (p : PeerId)
    (hleg : legalTrace State.init ops = true) :
    List.Chain' (fun a b => a ≤ b) (peekResults State.init p ops) :=
  (peekResults_bounds p ops State.init 0 Inv_init hleg (le_refl 0)
    (fun x hx => absurd hx (List.not_mem_nil x))).1

set_option maxHeartbeats 2000000 in
theorem peek_monotonicity_witness :
    legalTrace State.init [Op.queue 0 0 0, Op.queue 1 1 0, Op.txCommit 0 0,
      Op.nodeCommit 0 0, Op.peek 0, Op.txCommit 1 0, Op.nodeCommit 1 0,
      Op.peek 0, Op.pop 0 0, Op.peek 0] = true
    ∧ List.Chain' (fun a b => a ≤ b) (peekResults State.init 0
        [Op.queue 0 0 0, Op.queue 1 1 0, Op.txCommit 0 0,
         Op.nodeCommit 0 0, Op.peek 0, Op.txCommit 1 0, Op.nodeCommit 1 0,
         Op.peek 0, Op.pop 0 0, Op.peek 0]) :=
  ⟨by decide, peek_monotonicity [Op.queue 0 0 0, Op.queue 1 1 0,
    Op.txCommit 0 0, Op.nodeCommit 0 0, Op.peek 0, Op.txCommit 1 0,
    Op.nodeCommit 1 0, Op.peek 0, Op.pop 0 0, Op.peek 0] 0 (by decide)⟩

/-- C8: Single membership: after any legal operation sequence from the
initial state, the containers incoming, busy and ready of a peer together
hold no node twice, and no node sits in the containers of two different
peers. -/
theorem single_membership (ops : List Op) (p q : PeerId) (x : NodeId)
    (hleg : legalTrace State.init ops = true) :
    (allNodes (runOps State.init ops) p).Nodup
    ∧ (p ≠ q → x ∈ allNodes (runOps State.init ops) p →
        x ∉ allNodes (runOps State.init ops) q) := by
  have hInv := Inv_trace ops State.init Inv_init hleg
  exact ⟨hInv.nodup p, fun hpq hx => hInv.disjoint p q hpq x hx⟩

theorem single_membership_witness :
    legalTrace State.init [Op.queue 0 0 0, Op.queue 1 1 0, Op.txCommit 0 0,
      Op.nodeCommit 0 0, Op.peek 0] = true
    ∧ ((allNodes (runOps State.init [Op.queue 0 0 0, Op.queue 1 1 0,
        Op.txCommit 0 0, Op.nodeCommit 0 0, Op.peek 0]) 0).Nodup
      ∧ ((0 : PeerId) ≠ 1 → (0 : NodeId) ∈ allNodes (runOps State.init
          [Op.queue 0 0 0, Op.queue 1 1 0, Op.txCommit 0 0,
           Op.nodeCommit 0 0, Op.peek 0]) 0 →
          (0 : NodeId) ∉ allNodes (runOps State.init [Op.queue 0 0 0,
            Op.queue 1 1 0, Op.txCommit 0 0, Op.nodeCommit 0 0,
            Op.peek 0]) 1)) :=
  ⟨by decide, single_membership [Op.queue 0 0 0, Op.queue 1 1 0,
    Op.txCommit 0 0, Op.nodeCommit 0 0, Op.peek 0] 0 1 0 (by decide)⟩

/-- C9: Clock evenness and monotonicity: a peer clock starts at 0, is even
and non-negative after any legal operation sequence from the initial state,
and never decreases when the sequence is extended. -/
theorem clock_even_monotone (ops1 ops2 : List Op) (p : PeerId)
    (hleg : legalTrace State.init (ops1 ++ ops2) = true) :
    (State.init.peers p).clock = 0
    ∧ ((runOps State.init (ops1 ++ ops2)).peers p).clock % 2 = 0
    ∧ 0 ≤ ((runOps State.init (ops1 ++ ops2)).peers p).clock
    ∧ ((runOps State.init ops1).peers p).clock
        ≤ ((runOps State.init (ops1 ++ ops2)).peers p).clock := by
  have hsplit := legalTrace_append ops1 ops2 State.init
  have hand : (legalTrace State.init ops1
      && legalTrace (runOps State.init ops1) ops2) = true := by
    rw [← hsplit]
    exact hleg
  obtain ⟨hleg1, hleg2⟩ := Bool.and_eq_true_iff.mp hand
  have hInv1 := Inv_trace ops1 State.init Inv_init hleg1
  have hInvAll := Inv_trace (ops1 ++ ops2) State.init Inv_init hleg
  refine ⟨rfl, hInvAll.clock_even p,
    le_trans (hInvAll.local_pos p) (hInvAll.local_le_clock p), ?_⟩
  rw [runOps_append]
  exact clock_trace ops2 (runOps State.init ops1) p hInv1 hleg2

theorem clock_even_monotone_witness :
    legalTrace State.init ([Op.queue 0 0 0, Op.txCommit 0 0]
      ++ [Op.nodeCommit 0 0, Op.peek 0]) = true
    ∧ ((State.init.peers 0).clock = 0
      ∧ ((runOps State.init ([Op.queue 0 0 0, Op.txCommit 0 0]
          ++ [Op.nodeCommit 0 0, Op.peek 0])).peers 0).clock % 2 = 0
      ∧ 0 ≤ ((runOps State.init ([Op.queue 0 0 0, Op.txCommit 0 0]
          ++ [Op.nodeCommit 0 0, Op.peek 0])).peers 0).clock
      ∧ ((runOps State.init [Op.queue 0 0 0,
            Op.txCommit 0 0]).peers 0).clock
          ≤ ((runOps State.init ([Op.queue 0 0 0, Op.txCommit 0 0]
              ++ [Op.nodeCommit 0 0, Op.peek 0])).peers 0).clock) :=
  ⟨by decide, clock_even_monotone [Op.queue 0 0 0, Op.txCommit 0 0]
    [Op.nodeCommit 0 0, Op.peek 0] 0 (by decide)⟩

end Bus1
